import Mathlib

/-!
# QCustomPlot colour gradient and colour map data: embedding and verified properties

A shallow embedding of `QCPColorGradient` (src/src/colorgradient.cpp) and of
`QCPColorMapData` and `QCPColorMap` (src/src/plottables/plottable-colormap.cpp).

Numeric conventions of the embedding:
* a C++ `double` is a rational (`ℚ`). The definitions of the first sections compute with
  exact rationals; the definitions of the namespace `Ieee` follow the same source lines
  with every operation rounded to the nearest double (`Ieee.round`, IEEE 754 binary64,
  ties to even), and are the ones used where rounding decides which buffer entry or which
  channel value the code produces;
* a C++ `int` is an unbounded `Int`; the conversion `double → int` is truncation toward
  zero (`truncToInt`), the C++ `%` operator is `Int.tmod`; `toInt32` is the conversion
  with the bounds of a 32 bit `int`, undefined (`none`) outside them;
* `QMap<double, QColor>` is an association list kept in ascending key order, an iterator
  is a position in that list;
* `QVector<QRgb>` is a `List QRgb`;
* the array behind the pointer `mData` is a `List ℚ`, a null pointer is `none`, and
  `new double[n]` succeeds;
* output parameters passed by pointer are `Option` values, `none` for a null pointer;
* functions of the Qt library that the code calls (`qLn`, the HSV accessors of `QColor`,
  `QColor::fromHsvF`) are parameters, collected in the structure `Qt`.
-/

/-! ## Qt value types -/

/-- Packed colour value `0xAARRGGBB` (a 32 bit unsigned integer in Qt). -/
abbrev QRgb := Nat

/-- Qt's `qRgb(r, g, b)`: opaque alpha `0xff`, each channel masked to its low 8 bits. -/
def qRgb (r g b : Int) : QRgb :=
  0xff000000 + ((r % 256).toNat * 65536 + (g % 256).toNat * 256 + (b % 256).toNat)

/-- Red channel of a packed colour. -/
def qRed (c : QRgb) : Nat := (c / 65536) % 256

/-- Green channel of a packed colour. -/
def qGreen (c : QRgb) : Nat := (c / 256) % 256

/-- Blue channel of a packed colour. -/
def qBlue (c : QRgb) : Nat := c % 256

/-- A `QColor` given by its red, green and blue channels (each `0..255`). -/
structure QColor where
  red : Nat
  green : Nat
  blue : Nat
deriving DecidableEq, Repr

namespace QColor

/-- The method `QColor::rgb()`. -/
def rgb (c : QColor) : QRgb := qRgb c.red c.green c.blue

/-- The colour `Qt::black`. -/
def black : QColor := ⟨0, 0, 0⟩

/-- The colour `Qt::white`. -/
def white : QColor := ⟨255, 255, 255⟩

end QColor

/-- Functions of the Qt library used by the gradient code; they are not part of the
repository and are taken as parameters. The HSV accessors stand for
`c.toHsv().hueF()`, `c.toHsv().saturationF()` and `c.toHsv().valueF()`. -/
structure Qt where
  qLn : ℚ → ℚ
  hueF : QColor → ℚ
  saturationF : QColor → ℚ
  valueF : QColor → ℚ
  fromHsvF : ℚ → ℚ → ℚ → QColor

/-- Modelled from the spec: `QCPRange` (declared in range.h, which is not among the sources)
is a pair `[lower, upper]` whose `size()` is `upper - lower`. -/
structure QCPRange where
  lower : ℚ
  upper : ℚ
deriving DecidableEq, Repr

/-- Modelled from the spec: `QCPRange::size()` is the width `upper - lower`. -/
def QCPRange.size (r : QCPRange) : ℚ := r.upper - r.lower

/-- Conversion `double → int` of C++: truncation toward zero. -/
def truncToInt (x : ℚ) : Int := Int.tdiv x.num (x.den : Int)

/-! ## `QMap<double, T>` as an ascending association list -/

namespace QMap

/-- The method `QMap::insert`: the value of an existing key is replaced, a new key is put at
its place in ascending order. -/
def insert {β : Type} : List (ℚ × β) → ℚ → β → List (ℚ × β)
  | [], k, v => [(k, v)]
  | (k', v') :: m, k, v =>
    if k < k' then (k, v) :: (k', v') :: m
    else if k = k' then (k, v) :: m
    else (k', v') :: insert m k v

/-- The method `QMap::lowerBound`: position of the first entry whose key is not less than
`k`; the length of the list stands for `constEnd()`. -/
def lowerBound {β : Type} : List (ℚ × β) → ℚ → Nat
  | [], _ => 0
  | (k', _) :: m, k => if k' < k then lowerBound m k + 1 else 0

/-- Key under an iterator, `it.key()`. -/
def keyAt {β : Type} (m : List (ℚ × β)) (it : Nat) : ℚ :=
  match m.get? it with
  | some e => e.1
  | none => 0

/-- Value under an iterator, `it.value()`. -/
def valueAt (m : List (ℚ × QColor)) (it : Nat) : QColor :=
  match m.get? it with
  | some e => e.2
  | none => QColor.black

/-- Class invariant of `QMap`: keys strictly ascending (hence unique). -/
def WellFormed {β : Type} (m : List (ℚ × β)) : Prop :=
  m.Pairwise (fun a b => a.1 < b.1)

end QMap

/-! ## `QVector<QRgb>` -/

namespace QVector

/-- The method `QVector::resize` for a non-negative size: a prefix is kept, new entries
are zero. -/
def resize (v : List QRgb) (n : Int) : List QRgb :=
  v.take n.toNat ++ List.replicate (n.toNat - v.length) 0

/-- The method `QVector::fill(value)`: every entry becomes `value`, the size is kept. -/
def fill (v : List QRgb) (value : QRgb) : List QRgb :=
  List.replicate v.length value

/-- The method `QVector::fill(value, size)`: the vector gets `size` entries `value`. -/
def fillN (_v : List QRgb) (value : QRgb) (size : Int) : List QRgb :=
  List.replicate size.toNat value

/-- The method `QVector::at(i)`; the caller has to pass `0 ≤ i < size()`. -/
def at' (v : List QRgb) (i : Int) : QRgb := v.getD i.toNat 0

end QVector

/-! ## `QCPColorGradient` -/

/-- The enum `QCPColorGradient::ColorInterpolation`. -/
inductive ColorInterpolation where
  | ciRGB
  | ciHSV
deriving DecidableEq, Repr

/-- The enum `QCPColorGradient::GradientPreset`. -/
inductive GradientPreset where
  | gpGrayscale | gpHot | gpCold | gpNight | gpCandy | gpGeography
  | gpIon | gpPolar | gpSpectrum | gpJet | gpHues
deriving DecidableEq, Repr

/-- The member variables of `QCPColorGradient`. -/
structure QCPColorGradient where
  mLevelCount : Int
  mColorStops : List (ℚ × QColor)
  mColorInterpolation : ColorInterpolation
  mPeriodic : Bool
  mColorBuffer : List QRgb
  mColorBufferInvalidated : Bool
deriving DecidableEq, Repr

namespace QCPColorGradient

open ColorInterpolation GradientPreset

/-- Method `QCPColorGradient::setLevelCount` (colorgradient.cpp:59). -/
def setLevelCount (g : QCPColorGradient) (n : Int) : QCPColorGradient :=
  let n := if n < 2 then 2 else n
  if n ≠ g.mLevelCount then
    { g with mLevelCount := n, mColorBufferInvalidated := true }
  else g

/-- Method `QCPColorGradient::setColorStops` (colorgradient.cpp:73). -/
def setColorStops (g : QCPColorGradient) (colorStops : List (ℚ × QColor)) :
    QCPColorGradient :=
  { g with mColorStops := colorStops, mColorBufferInvalidated := true }

/-- Method `QCPColorGradient::setColorStopAt` (colorgradient.cpp:79). -/
def setColorStopAt (g : QCPColorGradient) (position : ℚ) (color : QColor) :
    QCPColorGradient :=
  { g with mColorStops := QMap.insert g.mColorStops position color,
           mColorBufferInvalidated := true }

/-- Method `QCPColorGradient::setColorInterpolation` (colorgradient.cpp:85). -/
def setColorInterpolation (g : QCPColorGradient) (interpolation : ColorInterpolation) :
    QCPColorGradient :=
  if interpolation ≠ g.mColorInterpolation then
    { g with mColorInterpolation := interpolation, mColorBufferInvalidated := true }
  else g

/-- Method `QCPColorGradient::setPeriodic` (colorgradient.cpp:94). -/
def setPeriodic (g : QCPColorGradient) (enabled : Bool) : QCPColorGradient :=
  { g with mPeriodic := enabled }

/-- Method `QCPColorGradient::clearColorStops` (colorgradient.cpp:285). -/
def clearColorStops (g : QCPColorGradient) : QCPColorGradient :=
  { g with mColorStops := [], mColorBufferInvalidated := true }

/-- The hue computed in the `ciHSV` case of `updateColorBuffer` (colorgradient.cpp:335-344). -/
def interpolatedHue (lowHue highHue t : ℚ) : ℚ :=
  let hueDiff := highHue - lowHue
  let hue :=
    if hueDiff > 1/2 then lowHue - t * (1 - hueDiff)
    else if hueDiff < -(1/2) then lowHue + t * (1 + hueDiff)
    else lowHue + t * hueDiff
  if hue < 0 then hue + 1 else if hue ≥ 1 then hue - 1 else hue

/-- The body of the loop of `updateColorBuffer` (colorgradient.cpp:309-349): the colour
written to `mColorBuffer[i]`. -/
def bufferEntry (qt : Qt) (g : QCPColorGradient) (i : Nat) : QRgb :=
  let indexToPosFactor : ℚ := 1 / ((g.mLevelCount - 1 : Int) : ℚ)
  let position : ℚ := (i : ℚ) * indexToPosFactor
  let it := QMap.lowerBound g.mColorStops position
  if it = g.mColorStops.length then
    (QMap.valueAt g.mColorStops (it - 1)).rgb
  else if it = 0 then
    (QMap.valueAt g.mColorStops it).rgb
  else
    let high := it
    let low := it - 1
    let lowValue := QMap.valueAt g.mColorStops low
    let highValue := QMap.valueAt g.mColorStops high
    let t : ℚ := (position - QMap.keyAt g.mColorStops low) /
      (QMap.keyAt g.mColorStops high - QMap.keyAt g.mColorStops low)
    match g.mColorInterpolation with
    | ciRGB =>
      qRgb (truncToInt ((1 - t) * lowValue.red + t * highValue.red))
           (truncToInt ((1 - t) * lowValue.green + t * highValue.green))
           (truncToInt ((1 - t) * lowValue.blue + t * highValue.blue))
    | ciHSV =>
      let hue := interpolatedHue (qt.hueF lowValue) (qt.hueF highValue) t
      (qt.fromHsvF hue
        ((1 - t) * qt.saturationF lowValue + t * qt.saturationF highValue)
        ((1 - t) * qt.valueF lowValue + t * qt.valueF highValue)).rgb

/-- Method `QCPColorGradient::updateColorBuffer` (colorgradient.cpp:300). -/
def updateColorBuffer (qt : Qt) (g : QCPColorGradient) : QCPColorGradient :=
  let buf0 :=
    if (g.mColorBuffer.length : Int) ≠ g.mLevelCount then
      QVector.resize g.mColorBuffer g.mLevelCount
    else g.mColorBuffer
  let buf :=
    if g.mColorStops.length > 1 then
      (List.range g.mLevelCount.toNat).foldl
        (fun b i => b.set i (bufferEntry qt g i)) buf0
    else if g.mColorStops.length = 1 then
      QVector.fill buf0 (QMap.valueAt g.mColorStops 0).rgb
    else
      QVector.fill buf0 (qRgb 0 0 0)
  { g with mColorBuffer := buf, mColorBufferInvalidated := false }

/-- The index computed by `color` (colorgradient.cpp:170-186) before the buffer is read. -/
def colorIndex (qt : Qt) (g : QCPColorGradient) (position : ℚ) (range : QCPRange)
    (logarithmic : Bool) : Int :=
  let index : Int :=
    if !logarithmic then
      truncToInt ((position - range.lower) * g.mLevelCount / range.size)
    else
      truncToInt (qt.qLn (position / range.lower) / qt.qLn (range.upper / range.lower)
        * g.mLevelCount)
  if g.mPeriodic then
    let index := Int.tmod index g.mLevelCount
    if index < 0 then index + g.mLevelCount else index
  else
    if index < 0 then 0
    else if index ≥ g.mLevelCount then g.mLevelCount - 1
    else index

/-- Method `QCPColorGradient::color` (colorgradient.cpp:165): the gradient after the call (its
buffer may have been rebuilt) and the returned colour. -/
def color (qt : Qt) (g : QCPColorGradient) (position : ℚ) (range : QCPRange)
    (logarithmic : Bool) : QCPColorGradient × QRgb :=
  let g := if g.mColorBufferInvalidated then updateColorBuffer qt g else g
  (g, QVector.at' g.mColorBuffer (colorIndex qt g position range logarithmic))

/-- Method `QCPColorGradient::colorize` (colorgradient.cpp:99). The pointers `data` and `scanLine`
are `none` when null; the result is the gradient after the call and the contents of the
memory behind `scanLine`. -/
def colorize (qt : Qt) (g : QCPColorGradient) (data : Option (List ℚ)) (range : QCPRange)
    (scanLine : Option (List QRgb)) (n : Int) (dataIndexFactor : Int)
    (logarithmic : Bool) : QCPColorGradient × Option (List QRgb) :=
  match data, scanLine with
  | none, _ => (g, scanLine)
  | some _, none => (g, none)
  | some data, some scanLine =>
    let g := if g.mColorBufferInvalidated then updateColorBuffer qt g else g
    let read (i : Nat) : ℚ := data.getD (dataIndexFactor * i).toNat 0
    if !logarithmic then
      let posToIndexFactor : ℚ := g.mLevelCount / range.size
      if g.mPeriodic then
        (g, some ((List.range n.toNat).foldl (fun sl i =>
          let index := Int.tmod (truncToInt ((read i - range.lower) * posToIndexFactor))
            g.mLevelCount
          let index := if index < 0 then index + g.mLevelCount else index
          sl.set i (QVector.at' g.mColorBuffer index)) scanLine))
      else
        (g, some ((List.range n.toNat).foldl (fun sl i =>
          let index := truncToInt ((read i - range.lower) * posToIndexFactor)
          let index :=
            if index < 0 then 0
            else if index ≥ g.mLevelCount then g.mLevelCount - 1
            else index
          sl.set i (QVector.at' g.mColorBuffer index)) scanLine))
    else
      if g.mPeriodic then
        (g, some ((List.range n.toNat).foldl (fun sl i =>
          let index := Int.tmod (truncToInt (qt.qLn (read i / range.lower) /
            qt.qLn (range.upper / range.lower) * g.mLevelCount)) g.mLevelCount
          let index := if index < 0 then index + g.mLevelCount else index
          sl.set i (QVector.at' g.mColorBuffer index)) scanLine))
      else
        (g, some ((List.range n.toNat).foldl (fun sl i =>
          let index := truncToInt (qt.qLn (read i / range.lower) /
            qt.qLn (range.upper / range.lower) * g.mLevelCount)
          let index :=
            if index < 0 then 0
            else if index ≥ g.mLevelCount then g.mLevelCount - 1
            else index
          sl.set i (QVector.at' g.mColorBuffer index)) scanLine))

/-- Method `QCPColorGradient::loadPreset` (colorgradient.cpp:190). -/
def loadPreset (g : QCPColorGradient) (preset : GradientPreset) : QCPColorGradient :=
  let g := clearColorStops g
  let stops (g : QCPColorGradient) (l : List (ℚ × QColor)) : QCPColorGradient :=
    l.foldl (fun g s => setColorStopAt g s.1 s.2) g
  match preset with
  | gpGrayscale =>
    stops (setColorInterpolation g ciRGB) [(0, QColor.black), (1, QColor.white)]
  | gpHot =>
    stops (setColorInterpolation g ciRGB)
      [(0, ⟨50, 0, 0⟩), (0.2, ⟨180, 10, 0⟩), (0.4, ⟨245, 50, 0⟩), (0.6, ⟨255, 150, 10⟩),
       (0.8, ⟨255, 255, 50⟩), (1, ⟨255, 255, 255⟩)]
  | gpCold =>
    stops (setColorInterpolation g ciRGB)
      [(0, ⟨0, 0, 50⟩), (0.2, ⟨0, 10, 180⟩), (0.4, ⟨0, 50, 245⟩), (0.6, ⟨10, 150, 255⟩),
       (0.8, ⟨50, 255, 255⟩), (1, ⟨255, 255, 255⟩)]
  | gpNight =>
    stops (setColorInterpolation g ciHSV) [(0, ⟨10, 20, 30⟩), (1, ⟨250, 255, 250⟩)]
  | gpCandy =>
    stops (setColorInterpolation g ciHSV) [(0, ⟨0, 0, 255⟩), (1, ⟨255, 250, 250⟩)]
  | gpGeography =>
    stops (setColorInterpolation g ciRGB)
      [(0, ⟨70, 170, 210⟩), (0.20, ⟨90, 160, 180⟩), (0.25, ⟨45, 130, 175⟩),
       (0.30, ⟨100, 140, 125⟩), (0.5, ⟨100, 140, 100⟩), (0.6, ⟨130, 145, 120⟩),
       (0.7, ⟨140, 130, 120⟩), (0.9, ⟨180, 190, 190⟩), (1, ⟨210, 210, 230⟩)]
  | gpIon =>
    stops (setColorInterpolation g ciHSV)
      [(0, ⟨60, 45, 20⟩), (0.45, ⟨0, 0, 255⟩), (0.8, ⟨0, 255, 255⟩), (1, ⟨0, 255, 0⟩)]
  | gpPolar =>
    stops (setColorInterpolation g ciRGB)
      [(0, ⟨50, 255, 255⟩), (0.18, ⟨10, 70, 255⟩), (0.28, ⟨10, 10, 190⟩), (0.5, ⟨0, 0, 0⟩),
       (0.72, ⟨190, 10, 10⟩), (0.82, ⟨255, 70, 10⟩), (1, ⟨255, 255, 50⟩)]
  | gpSpectrum =>
    stops (setColorInterpolation g ciHSV)
      [(0, ⟨50, 0, 50⟩), (0.15, ⟨0, 0, 255⟩), (0.35, ⟨0, 255, 255⟩), (0.6, ⟨255, 255, 0⟩),
       (0.75, ⟨255, 30, 0⟩), (1, ⟨50, 0, 0⟩)]
  | gpJet =>
    stops (setColorInterpolation g ciRGB)
      [(0, ⟨0, 0, 100⟩), (0.15, ⟨0, 50, 255⟩), (0.35, ⟨0, 255, 255⟩), (0.65, ⟨255, 255, 0⟩),
       (0.85, ⟨255, 30, 0⟩), (1, ⟨100, 0, 0⟩)]
  | gpHues =>
    stops (setColorInterpolation g ciHSV)
      [(0, ⟨255, 0, 0⟩), (1 / 3, ⟨0, 255, 0⟩), (2 / 3, ⟨0, 0, 255⟩), (1, ⟨255, 0, 0⟩)]

/-- The constructor `QCPColorGradient::QCPColorGradient(preset)` (colorgradient.cpp:37). -/
def mk' (preset : GradientPreset) : QCPColorGradient :=
  loadPreset
    { mLevelCount := 350
      mColorStops := []
      mColorInterpolation := ciRGB
      mPeriodic := false
      mColorBuffer := QVector.fillN [] (qRgb 0 0 0) 350
      mColorBufferInvalidated := true }
    preset

/-- Method `QCPColorGradient::inverted` (colorgradient.cpp:291): a copy of the gradient whose
stops are cleared and then inserted again at `1.0 - key`. -/
def inverted (g : QCPColorGradient) : QCPColorGradient :=
  let result := g
  let result := clearColorStops result
  g.mColorStops.foldl (fun result it => setColorStopAt result (1 - it.1) it.2) result

/-- What holds of the gradients the class can produce: at least two levels, and a buffer
that is not marked invalid has `mLevelCount` entries. -/
def Valid (g : QCPColorGradient) : Prop :=
  2 ≤ g.mLevelCount ∧
  (g.mColorBufferInvalidated = false → (g.mColorBuffer.length : Int) = g.mLevelCount)

end QCPColorGradient

/-- An instance of the Qt functions, used to evaluate the definitions on concrete inputs:
every colour is treated as a gray of the brightness of its red channel. -/
def Qt.gray : Qt where
  qLn := fun x => x - 1
  hueF := fun _ => 0
  saturationF := fun _ => 0
  valueF := fun c => (c.red : ℚ) / 255
  fromHsvF := fun _ _ v => ⟨(truncToInt (v * 255)).toNat, (truncToInt (v * 255)).toNat,
    (truncToInt (v * 255)).toNat⟩

/-- What holds of the buffer of the gradients the class can produce: a buffer that is not
marked invalid is the one `updateColorBuffer` builds from the current settings. -/
def QCPColorGradient.BufferCurrent (qt : Qt) (g : QCPColorGradient) : Prop :=
  g.mColorBufferInvalidated = false →
    g.mColorBuffer = (QCPColorGradient.updateColorBuffer qt g).mColorBuffer

instance QMap.decidableWellFormed {β : Type} (m : List (ℚ × β)) :
    Decidable (QMap.WellFormed m) := by
  unfold QMap.WellFormed
  infer_instance

instance QCPColorGradient.decidableValid (g : QCPColorGradient) :
    Decidable (QCPColorGradient.Valid g) := by
  unfold QCPColorGradient.Valid
  infer_instance

instance QCPColorGradient.decidableBufferCurrent (qt : Qt) (g : QCPColorGradient) :
    Decidable (QCPColorGradient.BufferCurrent qt g) := by
  unfold QCPColorGradient.BufferCurrent
  infer_instance

/-- The range `[0, 1]`. -/
def unitRange : QCPRange := ⟨0, 1⟩

/-- A gradient with four levels and the stops `0 ↦ black`, `1/2 ↦ red`, `1 ↦ white`,
RGB interpolation, not periodic. -/
def threeStopGradient : QCPColorGradient :=
  QCPColorGradient.setColorStopAt
    (QCPColorGradient.setLevelCount (QCPColorGradient.mk' GradientPreset.gpGrayscale) 4)
    (1 / 2) ⟨255, 0, 0⟩

/-- The periodic grayscale gradient with four levels. -/
def periodicGrayGradient : QCPColorGradient :=
  QCPColorGradient.setPeriodic
    (QCPColorGradient.setLevelCount (QCPColorGradient.mk' GradientPreset.gpGrayscale) 4) true

/-- Operator `QCPColorGradient::operator==` (colorgradient.cpp:51). -/
def QCPColorGradient.operatorEq (this other : QCPColorGradient) : Bool :=
  decide (other.mLevelCount = this.mLevelCount) &&
  decide (other.mColorInterpolation = this.mColorInterpolation) &&
  decide (other.mPeriodic = this.mPeriodic) &&
  decide (other.mColorStops = this.mColorStops)

/-- The interpolation that the `switch` of `loadPreset` (colorgradient.cpp:193-282) sets for
a preset. -/
def GradientPreset.colorInterpolation : GradientPreset → ColorInterpolation
  | .gpGrayscale => .ciRGB
  | .gpHot => .ciRGB
  | .gpCold => .ciRGB
  | .gpNight => .ciHSV
  | .gpCandy => .ciHSV
  | .gpGeography => .ciRGB
  | .gpIon => .ciHSV
  | .gpPolar => .ciRGB
  | .gpSpectrum => .ciHSV
  | .gpJet => .ciRGB
  | .gpHues => .ciHSV

/-- The stop table of a preset: the positions and colours listed for it in the `switch` of
`loadPreset` (colorgradient.cpp:193-282), as a table in ascending order of position. -/
def GradientPreset.colorStops : GradientPreset → List (ℚ × QColor)
  | .gpGrayscale => [(0, ⟨0, 0, 0⟩), (1, ⟨255, 255, 255⟩)]
  | .gpHot =>
    [(0, ⟨50, 0, 0⟩), (1 / 5, ⟨180, 10, 0⟩), (2 / 5, ⟨245, 50, 0⟩), (3 / 5, ⟨255, 150, 10⟩),
     (4 / 5, ⟨255, 255, 50⟩), (1, ⟨255, 255, 255⟩)]
  | .gpCold =>
    [(0, ⟨0, 0, 50⟩), (1 / 5, ⟨0, 10, 180⟩), (2 / 5, ⟨0, 50, 245⟩), (3 / 5, ⟨10, 150, 255⟩),
     (4 / 5, ⟨50, 255, 255⟩), (1, ⟨255, 255, 255⟩)]
  | .gpNight => [(0, ⟨10, 20, 30⟩), (1, ⟨250, 255, 250⟩)]
  | .gpCandy => [(0, ⟨0, 0, 255⟩), (1, ⟨255, 250, 250⟩)]
  | .gpGeography =>
    [(0, ⟨70, 170, 210⟩), (1 / 5, ⟨90, 160, 180⟩), (1 / 4, ⟨45, 130, 175⟩),
     (3 / 10, ⟨100, 140, 125⟩), (1 / 2, ⟨100, 140, 100⟩), (3 / 5, ⟨130, 145, 120⟩),
     (7 / 10, ⟨140, 130, 120⟩), (9 / 10, ⟨180, 190, 190⟩), (1, ⟨210, 210, 230⟩)]
  | .gpIon =>
    [(0, ⟨60, 45, 20⟩), (9 / 20, ⟨0, 0, 255⟩), (4 / 5, ⟨0, 255, 255⟩), (1, ⟨0, 255, 0⟩)]
  | .gpPolar =>
    [(0, ⟨50, 255, 255⟩), (9 / 50, ⟨10, 70, 255⟩), (7 / 25, ⟨10, 10, 190⟩),
     (1 / 2, ⟨0, 0, 0⟩), (18 / 25, ⟨190, 10, 10⟩), (41 / 50, ⟨255, 70, 10⟩),
     (1, ⟨255, 255, 50⟩)]
  | .gpSpectrum =>
    [(0, ⟨50, 0, 50⟩), (3 / 20, ⟨0, 0, 255⟩), (7 / 20, ⟨0, 255, 255⟩), (3 / 5, ⟨255, 255, 0⟩),
     (3 / 4, ⟨255, 30, 0⟩), (1, ⟨50, 0, 0⟩)]
  | .gpJet =>
    [(0, ⟨0, 0, 100⟩), (3 / 20, ⟨0, 50, 255⟩), (7 / 20, ⟨0, 255, 255⟩),
     (13 / 20, ⟨255, 255, 0⟩), (17 / 20, ⟨255, 30, 0⟩), (1, ⟨100, 0, 0⟩)]
  | .gpHues =>
    [(0, ⟨255, 0, 0⟩), (1 / 3, ⟨0, 255, 0⟩), (2 / 3, ⟨0, 0, 255⟩), (1, ⟨255, 0, 0⟩)]

/-! ## `QCPColorMapData` -/

/-- The member variables of `QCPColorMapData`. The pointer `mData` is `none` when null and
otherwise the array it points to. -/
structure QCPColorMapData where
  mKeySize : Int
  mValueSize : Int
  mKeyRange : QCPRange
  mValueRange : QCPRange
  mIsEmpty : Bool
  mData : Option (List ℚ)
  mDataBounds : QCPRange
  mDataModified : Bool
deriving DecidableEq, Repr

namespace QCPColorMapData

/-- The read `mData[i]`. -/
def mDataAt (d : QCPColorMapData) (i : Int) : ℚ :=
  match d.mData with
  | some a => a.getD i.toNat 0
  | none => 0

/-- The write `mData[i] = z`. -/
def mDataSet (d : QCPColorMapData) (i : Int) (z : ℚ) : QCPColorMapData :=
  { d with mData := d.mData.map (fun a => a.set i.toNat z) }

/-- The expression `new double[n]`: the allocation succeeds and gives an array of `n`
cells (whose contents the callers overwrite). -/
def newArray (n : Int) : Option (List ℚ) := some (List.replicate n.toNat 0)

/-- Method `QCPColorMapData::fill` (plottable-colormap.cpp:358). -/
def fill (d : QCPColorMapData) (z : ℚ) : QCPColorMapData :=
  let dataCount : Int := d.mValueSize * d.mKeySize
  let d := (List.range dataCount.toNat).foldl (fun d (i : Nat) => mDataSet d i z) d
  { d with mDataBounds := ⟨z, z⟩ }

/-- Method `QCPColorMapData::setSize` (plottable-colormap.cpp:164). -/
def setSize (d : QCPColorMapData) (keySize valueSize : Int) : QCPColorMapData :=
  if keySize ≠ d.mKeySize ∨ valueSize ≠ d.mValueSize then
    let d := { d with mKeySize := keySize, mValueSize := valueSize }
    let d := { d with mIsEmpty := decide (d.mKeySize = 0) || decide (d.mValueSize = 0) }
    let d :=
      if !d.mIsEmpty then
        let d := { d with mData := newArray (d.mKeySize * d.mValueSize) }
        if d.mData.isSome then fill d 0 else d
      else { d with mData := none }
    { d with mDataModified := true }
  else d

/-- Method `QCPColorMapData::setKeySize` (plottable-colormap.cpp:202). -/
def setKeySize (d : QCPColorMapData) (keySize : Int) : QCPColorMapData :=
  setSize d keySize d.mValueSize

/-- Method `QCPColorMapData::setValueSize` (plottable-colormap.cpp:217). -/
def setValueSize (d : QCPColorMapData) (valueSize : Int) : QCPColorMapData :=
  setSize d d.mKeySize valueSize

/-- Method `QCPColorMapData::setKeyRange` (plottable-colormap.cpp:248). -/
def setKeyRange (d : QCPColorMapData) (keyRange : QCPRange) : QCPColorMapData :=
  { d with mKeyRange := keyRange }

/-- Method `QCPColorMapData::setValueRange` (plottable-colormap.cpp:263). -/
def setValueRange (d : QCPColorMapData) (valueRange : QCPRange) : QCPColorMapData :=
  { d with mValueRange := valueRange }

/-- Method `QCPColorMapData::setRange` (plottable-colormap.cpp:232). -/
def setRange (d : QCPColorMapData) (keyRange valueRange : QCPRange) : QCPColorMapData :=
  setValueRange (setKeyRange d keyRange) valueRange

/-- The constructor `QCPColorMapData::QCPColorMapData(keySize, valueSize, keyRange,
valueRange)` (plottable-colormap.cpp:81); `mDataBounds` starts as the default range
`(0, 0)`. -/
def mk' (keySize valueSize : Int) (keyRange valueRange : QCPRange) : QCPColorMapData :=
  fill
    (setSize
      { mKeySize := 0
        mValueSize := 0
        mKeyRange := keyRange
        mValueRange := valueRange
        mIsEmpty := true
        mData := none
        mDataBounds := ⟨0, 0⟩
        mDataModified := true }
      keySize valueSize)
    0

/-- Method `QCPColorMapData::data` (plottable-colormap.cpp:133). -/
def data (d : QCPColorMapData) (key value : ℚ) : ℚ :=
  let keyCell : Int := truncToInt
    ((key - d.mKeyRange.lower) / (d.mKeyRange.upper - d.mKeyRange.lower)
      * ((d.mKeySize - 1 : Int) : ℚ) + 1 / 2)
  let valueCell : Int := truncToInt
    ((1 - (value - d.mValueRange.lower) / (d.mValueRange.upper - d.mValueRange.lower))
      * ((d.mValueSize - 1 : Int) : ℚ) + 1 / 2)
  if keyCell ≥ 0 ∧ keyCell < d.mKeySize ∧ valueCell ≥ 0 ∧ valueCell < d.mValueSize then
    mDataAt d (valueCell * d.mKeySize + keyCell)
  else 0

/-- Method `QCPColorMapData::cell` (plottable-colormap.cpp:144). -/
def cell (d : QCPColorMapData) (keyIndex valueIndex : Int) : ℚ :=
  if keyIndex ≥ 0 ∧ keyIndex < d.mKeySize ∧ valueIndex ≥ 0 ∧ valueIndex < d.mValueSize then
    mDataAt d (valueIndex * d.mKeySize + keyIndex)
  else 0

/-- Method `QCPColorMapData::setData` (plottable-colormap.cpp:274). -/
def setData (d : QCPColorMapData) (key value z : ℚ) : QCPColorMapData :=
  let keyCell : Int := truncToInt
    ((key - d.mKeyRange.lower) / (d.mKeyRange.upper - d.mKeyRange.lower)
      * ((d.mKeySize - 1 : Int) : ℚ) + 1 / 2)
  let valueCell : Int := truncToInt
    ((value - d.mValueRange.lower) / (d.mValueRange.upper - d.mValueRange.lower)
      * ((d.mValueSize - 1 : Int) : ℚ) + 1 / 2)
  if keyCell ≥ 0 ∧ keyCell < d.mKeySize ∧ valueCell ≥ 0 ∧ valueCell < d.mValueSize then
    let d := mDataSet d (valueCell * d.mKeySize + keyCell) z
    let d :=
      if z < d.mDataBounds.lower then { d with mDataBounds := { d.mDataBounds with lower := z } }
      else d
    let d :=
      if z > d.mDataBounds.upper then { d with mDataBounds := { d.mDataBounds with upper := z } }
      else d
    { d with mDataModified := true }
  else d

/-- Method `QCPColorMapData::setCell` (plottable-colormap.cpp:300). -/
def setCell (d : QCPColorMapData) (keyIndex valueIndex : Int) (z : ℚ) : QCPColorMapData :=
  if keyIndex ≥ 0 ∧ keyIndex < d.mKeySize ∧ valueIndex ≥ 0 ∧ valueIndex < d.mValueSize then
    let d := mDataSet d (valueIndex * d.mKeySize + keyIndex) z
    let d :=
      if z < d.mDataBounds.lower then { d with mDataBounds := { d.mDataBounds with lower := z } }
      else d
    let d :=
      if z > d.mDataBounds.upper then { d with mDataBounds := { d.mDataBounds with upper := z } }
      else d
    { d with mDataModified := true }
  else d

/-- Method `QCPColorMapData::recalculateDataBounds` (plottable-colormap.cpp:326). -/
def recalculateDataBounds (d : QCPColorMapData) : QCPColorMapData :=
  if d.mKeySize > 0 ∧ d.mValueSize > 0 then
    let minHeight : ℚ := mDataAt d 0
    let maxHeight : ℚ := mDataAt d 0
    let dataCount : Int := d.mValueSize * d.mKeySize
    let heights : ℚ × ℚ := (List.range dataCount.toNat).foldl (fun h (i : Nat) =>
      let maxHeight := if mDataAt d i > h.2 then mDataAt d i else h.2
      let minHeight := if mDataAt d i < h.1 then mDataAt d i else h.1
      (minHeight, maxHeight)) (minHeight, maxHeight)
    { d with mDataBounds := { lower := heights.1, upper := heights.2 } }
  else d

/-- Method `QCPColorMapData::clear` (plottable-colormap.cpp:350). -/
def clear (d : QCPColorMapData) : QCPColorMapData :=
  setSize d 0 0

/-- Method `QCPColorMapData::coordToCell` (plottable-colormap.cpp:378). The output
parameters `keyIndex` and `valueIndex` are `none` when the pointer is null and otherwise
hold the integer pointed to; the result is their contents after the call. -/
def coordToCell (d : QCPColorMapData) (key value : ℚ) (keyIndex valueIndex : Option Int) :
    Option Int × Option Int :=
  let keyIndex := keyIndex.map (fun _ => truncToInt
    ((key - d.mKeyRange.lower) / (d.mKeyRange.upper - d.mKeyRange.lower)
      * ((d.mKeySize - 1 : Int) : ℚ) + 1 / 2))
  let valueIndex := valueIndex.map (fun _ => truncToInt
    ((value - d.mValueRange.lower) / (d.mValueRange.upper - d.mValueRange.lower)
      * ((d.mValueSize - 1 : Int) : ℚ) + 1 / 2))
  (keyIndex, valueIndex)

/-- Method `QCPColorMapData::cellToCoord` (plottable-colormap.cpp:396). The output
parameters `key` and `value` are `none` when the pointer is null and otherwise hold the
double pointed to; the result is their contents after the call. -/
def cellToCoord (d : QCPColorMapData) (keyIndex valueIndex : Int) (key value : Option ℚ) :
    Option ℚ × Option ℚ :=
  let key := key.map (fun _ =>
    (keyIndex : ℚ) / ((d.mKeySize - 1 : Int) : ℚ) * (d.mKeyRange.upper - d.mKeyRange.lower)
      + d.mKeyRange.lower)
  let value := value.map (fun _ =>
    (valueIndex : ℚ) / ((d.mValueSize - 1 : Int) : ℚ)
      * (d.mValueRange.upper - d.mValueRange.lower) + d.mValueRange.lower)
  (key, value)

/-- What holds of the fields the class can produce (with non-negative sizes): the field is
marked empty exactly if a size is zero, an empty field has no array, and the array of a
non-empty field has `mKeySize * mValueSize` cells. -/
def Valid (d : QCPColorMapData) : Prop :=
  0 ≤ d.mKeySize ∧ 0 ≤ d.mValueSize ∧
  d.mIsEmpty = (decide (d.mKeySize = 0) || decide (d.mValueSize = 0)) ∧
  match d.mData with
  | none => d.mIsEmpty = true
  | some a => d.mIsEmpty = false ∧ (a.length : Int) = d.mKeySize * d.mValueSize

instance decidableValid (d : QCPColorMapData) : Decidable (Valid d) := by
  unfold Valid
  cases d.mData <;> infer_instance

end QCPColorMapData

namespace QCPColorMapData

/-- Modelled from the spec: the getter `isEmpty()` (inline in the header, which is not among
the sources) reports whether the field is empty; it reads the member `mIsEmpty` that
`setSize` maintains. -/
def isEmpty (d : QCPColorMapData) : Bool := d.mIsEmpty

/-- The call `memcpy(dst, src, sizeof(double)*count)`: the first `count` cells of `dst`
become those of `src`. -/
def memcpy (dst src : Option (List ℚ)) (count : Int) : Option (List ℚ) :=
  dst.map (fun a =>
    (List.range count.toNat).foldl (fun a (i : Nat) => a.set i ((src.getD []).getD i 0)) a)

/-- Operator `QCPColorMapData::operator=` (plottable-colormap.cpp:116); `sameObject` tells
whether `other` is the object assigned to (`&other == this`). -/
def operatorAssign (this other : QCPColorMapData) (sameObject : Bool) : QCPColorMapData :=
  if !sameObject then
    let keySize := other.mKeySize
    let valueSize := other.mValueSize
    let d := setSize this keySize valueSize
    let d := setRange d other.mKeyRange other.mValueRange
    let d :=
      if !d.mIsEmpty then
        { d with mData := memcpy d.mData other.mData (keySize * valueSize) }
      else d
    let d := { d with mDataBounds := other.mDataBounds }
    { d with mDataModified := true }
  else this

/-- The copy constructor `QCPColorMapData::QCPColorMapData(const QCPColorMapData &)`
(plottable-colormap.cpp:103); the ranges and bounds start as the default range `(0, 0)`. -/
def mkCopy (other : QCPColorMapData) : QCPColorMapData :=
  operatorAssign
    { mKeySize := 0
      mValueSize := 0
      mKeyRange := ⟨0, 0⟩
      mValueRange := ⟨0, 0⟩
      mIsEmpty := true
      mData := none
      mDataBounds := ⟨0, 0⟩
      mDataModified := true }
    other false

/-- The fields that the constructors and methods of the class produce, with non-negative
sizes passed to the constructor and to the resizing methods. The last rule is the reset of
the modified flag by `QCPColorMap::updateMapImage`. -/
inductive Reachable : QCPColorMapData → Prop
  | construct (keySize valueSize : Int) (keyRange valueRange : QCPRange) :
      0 ≤ keySize → 0 ≤ valueSize → Reachable (mk' keySize valueSize keyRange valueRange)
  | copy (other : QCPColorMapData) : Reachable other → Reachable (mkCopy other)
  | assign (this other : QCPColorMapData) (sameObject : Bool) :
      Reachable this → Reachable other → (sameObject = true → other = this) →
      Reachable (operatorAssign this other sameObject)
  | setSize (d : QCPColorMapData) (keySize valueSize : Int) :
      Reachable d → 0 ≤ keySize → 0 ≤ valueSize → Reachable (setSize d keySize valueSize)
  | setKeySize (d : QCPColorMapData) (keySize : Int) :
      Reachable d → 0 ≤ keySize → Reachable (setKeySize d keySize)
  | setValueSize (d : QCPColorMapData) (valueSize : Int) :
      Reachable d → 0 ≤ valueSize → Reachable (setValueSize d valueSize)
  | setRange (d : QCPColorMapData) (keyRange valueRange : QCPRange) :
      Reachable d → Reachable (setRange d keyRange valueRange)
  | setKeyRange (d : QCPColorMapData) (keyRange : QCPRange) :
      Reachable d → Reachable (setKeyRange d keyRange)
  | setValueRange (d : QCPColorMapData) (valueRange : QCPRange) :
      Reachable d → Reachable (setValueRange d valueRange)
  | setData (d : QCPColorMapData) (key value z : ℚ) :
      Reachable d → Reachable (setData d key value z)
  | setCell (d : QCPColorMapData) (keyIndex valueIndex : Int) (z : ℚ) :
      Reachable d → Reachable (setCell d keyIndex valueIndex z)
  | recalculateDataBounds (d : QCPColorMapData) :
      Reachable d → Reachable (recalculateDataBounds d)
  | clear (d : QCPColorMapData) : Reachable d → Reachable (clear d)
  | fill (d : QCPColorMapData) (z : ℚ) : Reachable d → Reachable (fill d z)
  | imageUpdated (d : QCPColorMapData) :
      Reachable d → Reachable { d with mDataModified := false }

/-- The cached bounds enclose the data: every cell of the array lies between them. -/
def Encloses (d : QCPColorMapData) : Prop :=
  ∀ a, d.mData = some a → ∀ x ∈ a, d.mDataBounds.lower ≤ x ∧ x ≤ d.mDataBounds.upper

/-- The cached bounds are exact: the lower bound is the minimum and the upper bound the
maximum of the cells of the array. -/
def ExactBounds (d : QCPColorMapData) : Prop :=
  ∃ a, d.mData = some a ∧
    d.mDataBounds.lower ∈ a ∧ (∀ x ∈ a, d.mDataBounds.lower ≤ x) ∧
    d.mDataBounds.upper ∈ a ∧ (∀ x ∈ a, x ≤ d.mDataBounds.upper)

/-- What increasing writes keep of exact bounds: the upper bound is the maximum of the
cells of the array, and the lower bound is at most every cell. -/
def UpperExact (d : QCPColorMapData) : Prop :=
  ∃ a, d.mData = some a ∧ d.mDataBounds.upper ∈ a ∧ (∀ x ∈ a, x ≤ d.mDataBounds.upper) ∧
    (∀ x ∈ a, d.mDataBounds.lower ≤ x)

/-- A sequence of `setCell(keyIndex, valueIndex, z)` calls, each of them accepted and each
storing a value that is at least the value the cell holds at that moment. -/
def IncreasingWrites : QCPColorMapData → List (Int × Int × ℚ) → Prop
  | _, [] => True
  | d, w :: ws =>
    0 ≤ w.1 ∧ w.1 < d.mKeySize ∧ 0 ≤ w.2.1 ∧ w.2.1 < d.mValueSize ∧
    cell d w.1 w.2.1 ≤ w.2.2 ∧ IncreasingWrites (setCell d w.1 w.2.1 w.2.2) ws

/-- The field after a sequence of `setCell` calls. -/
def setCells (d : QCPColorMapData) (ws : List (Int × Int × ℚ)) : QCPColorMapData :=
  ws.foldl (fun d w => setCell d w.1 w.2.1 w.2.2) d

end QCPColorMapData

/-- A field of two cells holding `0` and `1`, with exact bounds `(0, 1)`. -/
def twoCellField : QCPColorMapData :=
  (QCPColorMapData.mk' 2 1 ⟨0, 1⟩ ⟨0, 1⟩).setCell 1 0 1

/-- A field of one cell. -/
def oneCellField : QCPColorMapData :=
  QCPColorMapData.mk' 1 1 ⟨0, 1⟩ ⟨0, 1⟩

/-- The field of scenario B: three key cells, one value cell, key range `[0, 2]`. -/
def threeCellField (valueRange : QCPRange) : QCPColorMapData :=
  QCPColorMapData.mk' 3 1 ⟨0, 2⟩ valueRange

/-- A field of `3 × 2` cells with the key range `[2, 3]` and the value range `[0, 1]`,
holding the values `0, ..., 5` in the order of the array. -/
def sampleField : QCPColorMapData :=
  ((((((QCPColorMapData.mk' 3 2 ⟨2, 3⟩ ⟨0, 1⟩).setCell 1 0 1).setCell 2 0 2).setCell
    0 1 3).setCell 1 1 4).setCell 2 1 5)

/-- A field of `3 × 2` cells whose key range is the single point `5`. -/
def degenerateField : QCPColorMapData :=
  QCPColorMapData.mk' 3 2 ⟨5, 5⟩ ⟨0, 1⟩

/-! ## `QCPColorMap` -/

/-- The enum `Qt::Orientation`. -/
inductive QtOrientation where
  | Horizontal
  | Vertical
deriving DecidableEq, Repr

/-- The enum `QCPAxis::ScaleType`. -/
inductive ScaleType where
  | stLinear
  | stLogarithmic
deriving DecidableEq, Repr

/-- Modelled from the spec: an axis (class `QCPAxis`, declared in axis.h, which is not among
the sources) exposes its orientation (horizontal or vertical) and a reversed-range flag. -/
structure QCPAxis where
  orientation : QtOrientation
  rangeReversed : Bool
deriving DecidableEq, Repr

/-- Functions of `QCPRange` (range.cpp is not among the sources) that the colour map code
calls; they are taken as parameters. -/
structure QCPRangeFns where
  validRange : QCPRange → Bool
  sanitizedForLogScale : QCPRange → QCPRange
  sanitizedForLinScale : QCPRange → QCPRange

/-- A `QImage` of format `Format_RGB32`: its size and its scan lines, counted from the
top. -/
structure QImage where
  width : Int
  height : Int
  lines : List (List QRgb)
deriving DecidableEq, Repr

namespace QImage

/-- The constructor `QImage(QSize(width, height), QImage::Format_RGB32)`: an image of
`width × height` pixels (whose contents the callers overwrite), the null image if a size
is not positive. -/
def mk' (width height : Int) : QImage :=
  if 0 < width ∧ 0 < height then
    ⟨width, height, List.replicate height.toNat (List.replicate width.toNat 0)⟩
  else ⟨0, 0, []⟩

/-- The method `QImage::scanLine(i)`: pointer to the pixels of line `i`, null outside the
image. -/
def scanLine (img : QImage) (i : Int) : Option (List QRgb) :=
  if 0 ≤ i then img.lines[i.toNat]? else none

/-- The pixels behind the pointer `scanLine(i)` after they have been written through it. -/
def setScanLine (img : QImage) (i : Int) (pixels : Option (List QRgb)) : QImage :=
  match pixels with
  | some row => if 0 ≤ i then { img with lines := img.lines.set i.toNat row } else img
  | none => img

/-- The method `QImage::pixel(x, y)`: the pixel in column `x` of line `y`, if there is
one. -/
def pixel (img : QImage) (x y : Int) : Option QRgb :=
  match img.scanLine y with
  | some row => if 0 ≤ x then row[x.toNat]? else none
  | none => none

/-- Class invariant of `QImage`: `height` scan lines of `width` pixels each. -/
def WellFormed (img : QImage) : Prop :=
  (img.lines.length : Int) = img.height ∧
  ∀ row ∈ img.lines, (row.length : Int) = img.width

end QImage

/-- The member variables of `QCPColorMap` that the data range, the gradient and the map
image depend on; `mKeyAxis` and `mValueAxis` are `none` when the guarded pointer is
null, `mMapData` is the field the colour map owns. -/
structure QCPColorMap where
  mKeyAxis : Option QCPAxis
  mValueAxis : Option QCPAxis
  mDataRange : QCPRange
  mDataScaleType : ScaleType
  mMapData : QCPColorMapData
  mGradient : QCPColorGradient
  mInterpolate : Bool
  mTightBoundary : Bool
  mMapImage : QImage
  mMapImageInvalidated : Bool

namespace QCPColorMap

open QtOrientation ScaleType

/-- Method `QCPColorMap::setDataRange` (plottable-colormap.cpp:567). -/
def setDataRange (rf : QCPRangeFns) (m : QCPColorMap) (dataRange : QCPRange) :
    QCPColorMap :=
  if !rf.validRange dataRange then m
  else if m.mDataRange.lower ≠ dataRange.lower ∨ m.mDataRange.upper ≠ dataRange.upper then
    let m :=
      if m.mDataScaleType = stLogarithmic then
        { m with mDataRange := rf.sanitizedForLogScale dataRange }
      else
        { m with mDataRange := rf.sanitizedForLinScale dataRange }
    { m with mMapImageInvalidated := true }
  else m

/-- Method `QCPColorMap::setDataScaleType` (plottable-colormap.cpp:586). -/
def setDataScaleType (rf : QCPRangeFns) (m : QCPColorMap) (scaleType : ScaleType) :
    QCPColorMap :=
  if m.mDataScaleType ≠ scaleType then
    let m := { m with mDataScaleType := scaleType, mMapImageInvalidated := true }
    if m.mDataScaleType = stLogarithmic then
      setDataRange rf m (rf.sanitizedForLogScale m.mDataRange)
    else m
  else m

/-- Method `QCPColorMap::setGradient` (plottable-colormap.cpp:609). -/
def setGradient (m : QCPColorMap) (gradient : QCPColorGradient) : QCPColorMap :=
  if !(QCPColorGradient.operatorEq m.mGradient gradient) then
    { m with mGradient := gradient, mMapImageInvalidated := true }
  else m

/-- Method `QCPColorMap::rescaleDataRange` (plottable-colormap.cpp:706). -/
def rescaleDataRange (rf : QCPRangeFns) (m : QCPColorMap) (recalculateDataBounds : Bool) :
    QCPColorMap :=
  let m :=
    if recalculateDataBounds then
      { m with mMapData := QCPColorMapData.recalculateDataBounds m.mMapData }
    else m
  setDataRange rf m m.mMapData.mDataBounds

/-- The pointer `rawData + offset`. -/
def offsetPointer (rawData : Option (List ℚ)) (offset : Int) : Option (List ℚ) :=
  rawData.map (fun a => a.drop offset.toNat)

/-- The body of the two loops of `updateMapImage` (plottable-colormap.cpp:795-796 and
805-806): scan line `y` of the map image is colorized from `n` cells read from `data` with
the stride `dataIndexFactor`. -/
def colorizeLine (qt : Qt) (m : QCPColorMap) (data : Option (List ℚ)) (y n : Int)
    (dataIndexFactor : Int) : QCPColorMap :=
  let pixels := m.mMapImage.scanLine y
  let r := QCPColorGradient.colorize qt m.mGradient data m.mDataRange pixels n
    dataIndexFactor (decide (m.mDataScaleType = stLogarithmic))
  { m with mGradient := r.1, mMapImage := m.mMapImage.setScanLine y r.2 }

/-- Method `QCPColorMap::updateMapImage` (plottable-colormap.cpp:776). -/
def updateMapImage (qt : Qt) (m : QCPColorMap) : QCPColorMap :=
  match m.mKeyAxis with
  | none => m
  | some keyAxis =>
    let m :=
      if keyAxis.orientation = Horizontal ∧
          (m.mMapImage.width ≠ m.mMapData.mKeySize ∨
            m.mMapImage.height ≠ m.mMapData.mValueSize) then
        { m with mMapImage := QImage.mk' m.mMapData.mKeySize m.mMapData.mValueSize }
      else if keyAxis.orientation = Vertical ∧
          (m.mMapImage.width ≠ m.mMapData.mValueSize ∨
            m.mMapImage.height ≠ m.mMapData.mKeySize) then
        { m with mMapImage := QImage.mk' m.mMapData.mValueSize m.mMapData.mKeySize }
      else m
    let keySize := m.mMapData.mKeySize
    let valueSize := m.mMapData.mValueSize
    let rawData := m.mMapData.mData
    let m :=
      if keyAxis.orientation = Horizontal then
        let lineCount := valueSize
        let rowCount := keySize
        (List.range lineCount.toNat).foldl (fun m (line : Nat) =>
          colorizeLine qt m (offsetPointer rawData (line * rowCount))
            (lineCount - 1 - line) rowCount 1) m
      else
        let lineCount := keySize
        let rowCount := valueSize
        (List.range lineCount.toNat).foldl (fun m (line : Nat) =>
          colorizeLine qt m (offsetPointer rawData line)
            (lineCount - 1 - line) rowCount lineCount) m
    { m with
      mMapData := { m.mMapData with mDataModified := false }
      mMapImageInvalidated := false }

/-- The changes that `QCPColorMap::draw` (plottable-colormap.cpp:816) makes to the colour
map; what it paints is not part of the embedding. -/
def draw (qt : Qt) (m : QCPColorMap) : QCPColorMap :=
  if QCPColorMapData.isEmpty m.mMapData then m
  else if m.mKeyAxis.isNone ∨ m.mValueAxis.isNone then m
  else if m.mMapData.mDataModified ∨ m.mMapImageInvalidated then updateMapImage qt m
  else m

end QCPColorMap

/-- An instance of the `QCPRange` functions, used to evaluate the definitions on concrete
inputs: a range is valid if its width is not zero, and sanitizing orders the bounds. -/
def QCPRangeFns.simple : QCPRangeFns where
  validRange := fun r => decide (r.lower - r.upper ≠ 0)
  sanitizedForLogScale := fun r => if r.lower ≤ r.upper then r else ⟨r.upper, r.lower⟩
  sanitizedForLinScale := fun r => if r.lower ≤ r.upper then r else ⟨r.upper, r.lower⟩

/-- A colour map over the sample field with the gradient of three stops, a key axis of the
given orientation and the data range `[0, 5]`, before its first drawing. -/
def sampleColorMap (keyOrientation : QtOrientation) : QCPColorMap where
  mKeyAxis := some ⟨keyOrientation, false⟩
  mValueAxis := some ⟨QtOrientation.Vertical, false⟩
  mDataRange := ⟨0, 5⟩
  mDataScaleType := ScaleType.stLinear
  mMapData := sampleField
  mGradient := threeStopGradient
  mInterpolate := true
  mTightBoundary := false
  mMapImage := ⟨0, 0, []⟩
  mMapImageInvalidated := true

/-- A colour map with the data range `[0, 5]` over a field of `3 × 2` cells that all hold
the value `7`, so that the cached bounds of the field are `(7, 7)`. -/
def constantColorMap : QCPColorMap :=
  { sampleColorMap QtOrientation.Horizontal with
    mMapData := QCPColorMapData.fill sampleField 7 }

/-- A colour map with the data range `[0, 1]` over the sample field, whose cached bounds
are `(0, 5)`. -/
def unscaledColorMap : QCPColorMap :=
  { sampleColorMap QtOrientation.Vertical with mDataRange := ⟨0, 1⟩ }

/-- The sample colour map with a horizontal key axis after its image has been generated:
the image shows the sample field and both flags are cleared. -/
def cleanColorMap : QCPColorMap :=
  QCPColorMap.updateMapImage Qt.gray (sampleColorMap QtOrientation.Horizontal)

/-- The colour map with the generated image, after `fill(7)` on its field. -/
def filledColorMap : QCPColorMap :=
  { cleanColorMap with mMapData := QCPColorMapData.fill cleanColorMap.mMapData 7 }

/-- The colour map with the generated image of `3 × 2` pixels, after `clear()` on its
field. -/
def clearedColorMap : QCPColorMap :=
  { cleanColorMap with mMapData := QCPColorMapData.clear cleanColorMap.mMapData }

/-- The gradient of three stops after its buffer has been built. -/
def cleanGradient : QCPColorGradient :=
  QCPColorGradient.updateColorBuffer Qt.gray threeStopGradient

/-- The gradients that the constructor and the public methods of the class produce. The
rules for `color` and `colorize` give the gradient these methods leave, whose buffer may
have been rebuilt; `colorize` may be passed null pointers. -/
inductive QCPColorGradient.Reachable (qt : Qt) : QCPColorGradient → Prop
  | construct (preset : GradientPreset) : Reachable qt (QCPColorGradient.mk' preset)
  | setLevelCount (g : QCPColorGradient) (n : Int) :
      Reachable qt g → Reachable qt (QCPColorGradient.setLevelCount g n)
  | setColorStops (g : QCPColorGradient) (colorStops : List (ℚ × QColor)) :
      Reachable qt g → Reachable qt (QCPColorGradient.setColorStops g colorStops)
  | setColorStopAt (g : QCPColorGradient) (position : ℚ) (color : QColor) :
      Reachable qt g → Reachable qt (QCPColorGradient.setColorStopAt g position color)
  | clearColorStops (g : QCPColorGradient) :
      Reachable qt g → Reachable qt (QCPColorGradient.clearColorStops g)
  | setColorInterpolation (g : QCPColorGradient) (interpolation : ColorInterpolation) :
      Reachable qt g → Reachable qt (QCPColorGradient.setColorInterpolation g interpolation)
  | setPeriodic (g : QCPColorGradient) (enabled : Bool) :
      Reachable qt g → Reachable qt (QCPColorGradient.setPeriodic g enabled)
  | loadPreset (g : QCPColorGradient) (preset : GradientPreset) :
      Reachable qt g → Reachable qt (QCPColorGradient.loadPreset g preset)
  | color (g : QCPColorGradient) (position : ℚ) (range : QCPRange) (logarithmic : Bool) :
      Reachable qt g → Reachable qt (QCPColorGradient.color qt g position range logarithmic).1
  | colorize (g : QCPColorGradient) (data : Option (List ℚ)) (range : QCPRange)
      (scanLine : Option (List QRgb)) (n dataIndexFactor : Int) (logarithmic : Bool) :
      Reachable qt g →
      Reachable qt
        (QCPColorGradient.colorize qt g data range scanLine n dataIndexFactor logarithmic).1
  | inverted (g : QCPColorGradient) :
      Reachable qt g → Reachable qt (QCPColorGradient.inverted g)

/-! ## The conversion to a 32 bit `int` -/

namespace Ieee

/-- The binary logarithm of `n`, rounded down, computed in at most `fuel` halvings. -/
def log2Aux : Nat → Nat → Nat
  | 0, _ => 0
  | fuel + 1, n => if n < 2 then 0 else log2Aux fuel (n / 2) + 1

/-- The binary logarithm of `n ≥ 1`, rounded down. -/
def log2 (n : Nat) : Nat := log2Aux n n

/-- Exponent of the unit in the last place of the doubles around `a/d` (for `a, d > 0`):
`e - 52` for `2^e ≤ a/d < 2^(e+1)`, and `-1074` in the subnormal range. -/
def ulpExponent (a d : Nat) : Int :=
  let e0 : Int := (log2 a : Int) - (log2 d : Int)
  let e : Int := if d * 2 ^ e0.toNat ≤ a * 2 ^ (-e0).toNat then e0 else e0 - 1
  max (e - 52) (-1074)

/-- Rounding of a real number to the nearest double, ties to the even significand. -/
def round (x : ℚ) : ℚ :=
  if x = 0 then 0 else
    let a := x.num.natAbs
    let d := x.den
    let q := ulpExponent a d
    let n := a * 2 ^ (-q).toNat
    let dd := d * 2 ^ q.toNat
    let m0 := n / dd
    let r := n % dd
    let m := if dd < 2 * r ∨ (2 * r = dd ∧ m0 % 2 = 1) then m0 + 1 else m0
    let y : ℚ := (m : ℚ) * (2 : ℚ) ^ q
    if x < 0 then -y else y

/-- The rational `x` is (the value of) a double. -/
def IsDouble (x : ℚ) : Prop := round x = x

instance decidableIsDouble (x : ℚ) : Decidable (IsDouble x) := by
  unfold IsDouble
  infer_instance

/-- The sum `a + b` of two doubles. -/
def add (a b : ℚ) : ℚ := round (a + b)

/-- The difference `a - b` of two doubles. -/
def sub (a b : ℚ) : ℚ := round (a - b)

/-- The product `a * b` of two doubles. -/
def mul (a b : ℚ) : ℚ := round (a * b)

/-- The quotient `a / b` of two doubles. -/
def div (a b : ℚ) : ℚ := round (a / b)

/-- The conversion `int → double`. -/
def ofInt (n : Int) : ℚ := round (n : ℚ)

/-- Modelled from the spec: `QCPRange::size()` is `upper - lower`, here a difference of
doubles. -/
def size (r : QCPRange) : ℚ := sub r.upper r.lower

namespace QCPColorGradient

open ColorInterpolation

/-- The hue computed in the `ciHSV` case of `updateColorBuffer` (colorgradient.cpp:335-344),
in double arithmetic. -/
def interpolatedHue (lowHue highHue t : ℚ) : ℚ :=
  let hueDiff := sub highHue lowHue
  let hue :=
    if hueDiff > 1/2 then sub lowHue (mul t (sub 1 hueDiff))
    else if hueDiff < -(1/2) then add lowHue (mul t (add 1 hueDiff))
    else add lowHue (mul t hueDiff)
  if hue < 0 then add hue 1 else if hue ≥ 1 then sub hue 1 else hue

/-- The body of the loop of `updateColorBuffer` (colorgradient.cpp:309-349) in double
arithmetic: the colour written to `mColorBuffer[i]`. -/
def bufferEntry (qt : Qt) (g : QCPColorGradient) (i : Nat) : QRgb :=
  let indexToPosFactor : ℚ := div 1 (ofInt (g.mLevelCount - 1))
  let position : ℚ := mul (ofInt i) indexToPosFactor
  let it := QMap.lowerBound g.mColorStops position
  if it = g.mColorStops.length then
    (QMap.valueAt g.mColorStops (it - 1)).rgb
  else if it = 0 then
    (QMap.valueAt g.mColorStops it).rgb
  else
    let high := it
    let low := it - 1
    let lowValue := QMap.valueAt g.mColorStops low
    let highValue := QMap.valueAt g.mColorStops high
    let t : ℚ := div (sub position (QMap.keyAt g.mColorStops low))
      (sub (QMap.keyAt g.mColorStops high) (QMap.keyAt g.mColorStops low))
    match g.mColorInterpolation with
    | ciRGB =>
      qRgb
        (truncToInt (add (mul (sub 1 t) (ofInt lowValue.red)) (mul t (ofInt highValue.red))))
        (truncToInt
          (add (mul (sub 1 t) (ofInt lowValue.green)) (mul t (ofInt highValue.green))))
        (truncToInt
          (add (mul (sub 1 t) (ofInt lowValue.blue)) (mul t (ofInt highValue.blue))))
    | ciHSV =>
      let hue := interpolatedHue (qt.hueF lowValue) (qt.hueF highValue) t
      (qt.fromHsvF hue
        (add (mul (sub 1 t) (qt.saturationF lowValue)) (mul t (qt.saturationF highValue)))
        (add (mul (sub 1 t) (qt.valueF lowValue)) (mul t (qt.valueF highValue)))).rgb

/-- Method `QCPColorGradient::updateColorBuffer` (colorgradient.cpp:300) in double
arithmetic. -/
def updateColorBuffer (qt : Qt) (g : QCPColorGradient) : QCPColorGradient :=
  let buf0 :=
    if (g.mColorBuffer.length : Int) ≠ g.mLevelCount then
      QVector.resize g.mColorBuffer g.mLevelCount
    else g.mColorBuffer
  let buf :=
    if g.mColorStops.length > 1 then
      (List.range g.mLevelCount.toNat).foldl
        (fun b i => b.set i (bufferEntry qt g i)) buf0
    else if g.mColorStops.length = 1 then
      QVector.fill buf0 (QMap.valueAt g.mColorStops 0).rgb
    else
      QVector.fill buf0 (qRgb 0 0 0)
  { g with mColorBuffer := buf, mColorBufferInvalidated := false }

/-- The index computed by `color` (colorgradient.cpp:170-186) in double arithmetic; the
conversion to `int` truncates and is defined for doubles of magnitude below `2^31`. -/
def colorIndex (qt : Qt) (g : QCPColorGradient) (position : ℚ) (range : QCPRange)
    (logarithmic : Bool) : Int :=
  let index : Int :=
    if !logarithmic then
      truncToInt (div (mul (sub position range.lower) (ofInt g.mLevelCount)) (size range))
    else
      truncToInt (mul (div (qt.qLn (div position range.lower))
        (qt.qLn (div range.upper range.lower))) (ofInt g.mLevelCount))
  if g.mPeriodic then
    let index := Int.tmod index g.mLevelCount
    if index < 0 then index + g.mLevelCount else index
  else
    if index < 0 then 0
    else if index ≥ g.mLevelCount then g.mLevelCount - 1
    else index

/-- Method `QCPColorGradient::color` (colorgradient.cpp:165) in double arithmetic: the
gradient after the call and the returned colour. -/
def color (qt : Qt) (g : QCPColorGradient) (position : ℚ) (range : QCPRange)
    (logarithmic : Bool) : QCPColorGradient × QRgb :=
  let g := if g.mColorBufferInvalidated then updateColorBuffer qt g else g
  (g, QVector.at' g.mColorBuffer (colorIndex qt g position range logarithmic))

/-- Method `QCPColorGradient::colorize` (colorgradient.cpp:99) in double arithmetic. The
pointers `data` and `scanLine` are `none` when null; the result is the gradient after the
call and the contents of the memory behind `scanLine`. -/
def colorize (qt : Qt) (g : QCPColorGradient) (data : Option (List ℚ)) (range : QCPRange)
    (scanLine : Option (List QRgb)) (n : Int) (dataIndexFactor : Int)
    (logarithmic : Bool) : QCPColorGradient × Option (List QRgb) :=
  match data, scanLine with
  | none, _ => (g, scanLine)
  | some _, none => (g, none)
  | some data, some scanLine =>
    let g := if g.mColorBufferInvalidated then updateColorBuffer qt g else g
    let read (i : Nat) : ℚ := data.getD (dataIndexFactor * i).toNat 0
    if !logarithmic then
      let posToIndexFactor : ℚ := div (ofInt g.mLevelCount) (size range)
      if g.mPeriodic then
        (g, some ((List.range n.toNat).foldl (fun sl i =>
          let index := Int.tmod
            (truncToInt (mul (sub (read i) range.lower) posToIndexFactor)) g.mLevelCount
          let index := if index < 0 then index + g.mLevelCount else index
          sl.set i (QVector.at' g.mColorBuffer index)) scanLine))
      else
        (g, some ((List.range n.toNat).foldl (fun sl i =>
          let index := truncToInt (mul (sub (read i) range.lower) posToIndexFactor)
          let index :=
            if index < 0 then 0
            else if index ≥ g.mLevelCount then g.mLevelCount - 1
            else index
          sl.set i (QVector.at' g.mColorBuffer index)) scanLine))
    else
      if g.mPeriodic then
        (g, some ((List.range n.toNat).foldl (fun sl i =>
          let index := Int.tmod (truncToInt (mul (div (qt.qLn (div (read i) range.lower))
            (qt.qLn (div range.upper range.lower))) (ofInt g.mLevelCount))) g.mLevelCount
          let index := if index < 0 then index + g.mLevelCount else index
          sl.set i (QVector.at' g.mColorBuffer index)) scanLine))
      else
        (g, some ((List.range n.toNat).foldl (fun sl i =>
          let index := truncToInt (mul (div (qt.qLn (div (read i) range.lower))
            (qt.qLn (div range.upper range.lower))) (ofInt g.mLevelCount))
          let index :=
            if index < 0 then 0
            else if index ≥ g.mLevelCount then g.mLevelCount - 1
            else index
          sl.set i (QVector.at' g.mColorBuffer index)) scanLine))

/-- The index that the loops of `colorize` compute for one data value
(colorgradient.cpp:122-124, 131-135, 145-147 and 154-158), in double arithmetic; the
linear loops multiply by `posToIndexFactor` (colorgradient.cpp:117). -/
def colorizeIndex (qt : Qt) (g : QCPColorGradient) (value : ℚ) (range : QCPRange)
    (logarithmic : Bool) : Int :=
  if !logarithmic then
    let posToIndexFactor : ℚ := div (ofInt g.mLevelCount) (size range)
    if g.mPeriodic then
      let index := Int.tmod
        (truncToInt (mul (sub value range.lower) posToIndexFactor)) g.mLevelCount
      if index < 0 then index + g.mLevelCount else index
    else
      let index := truncToInt (mul (sub value range.lower) posToIndexFactor)
      if index < 0 then 0
      else if index ≥ g.mLevelCount then g.mLevelCount - 1
      else index
  else
    if g.mPeriodic then
      let index := Int.tmod (truncToInt (mul (div (qt.qLn (div value range.lower))
        (qt.qLn (div range.upper range.lower))) (ofInt g.mLevelCount))) g.mLevelCount
      if index < 0 then index + g.mLevelCount else index
    else
      let index := truncToInt (mul (div (qt.qLn (div value range.lower))
        (qt.qLn (div range.upper range.lower))) (ofInt g.mLevelCount))
      if index < 0 then 0
      else if index ≥ g.mLevelCount then g.mLevelCount - 1
      else index

/-- The colour that `colorize` writes to the scan line for one data value: the entry of the
buffer, rebuilt if it was dirty, at `colorizeIndex`. -/
def colorizeEntry (qt : Qt) (g : QCPColorGradient) (value : ℚ) (range : QCPRange)
    (logarithmic : Bool) : QRgb :=
  let g := if g.mColorBufferInvalidated then updateColorBuffer qt g else g
  QVector.at' g.mColorBuffer (colorizeIndex qt g value range logarithmic)

end QCPColorGradient

namespace QCPColorMap

open QtOrientation ScaleType

/-- The body of the two loops of `updateMapImage` (plottable-colormap.cpp:795-796 and
805-806), with `colorize` in double arithmetic. -/
def colorizeLine (qt : Qt) (m : QCPColorMap) (data : Option (List ℚ)) (y n : Int)
    (dataIndexFactor : Int) : QCPColorMap :=
  let pixels := m.mMapImage.scanLine y
  let r := Ieee.QCPColorGradient.colorize qt m.mGradient data m.mDataRange pixels n
    dataIndexFactor (decide (m.mDataScaleType = stLogarithmic))
  { m with mGradient := r.1, mMapImage := m.mMapImage.setScanLine y r.2 }

/-- Method `QCPColorMap::updateMapImage` (plottable-colormap.cpp:776), with `colorize` in
double arithmetic. -/
def updateMapImage (qt : Qt) (m : QCPColorMap) : QCPColorMap :=
  match m.mKeyAxis with
  | none => m
  | some keyAxis =>
    let m :=
      if keyAxis.orientation = Horizontal ∧
          (m.mMapImage.width ≠ m.mMapData.mKeySize ∨
            m.mMapImage.height ≠ m.mMapData.mValueSize) then
        { m with mMapImage := QImage.mk' m.mMapData.mKeySize m.mMapData.mValueSize }
      else if keyAxis.orientation = Vertical ∧
          (m.mMapImage.width ≠ m.mMapData.mValueSize ∨
            m.mMapImage.height ≠ m.mMapData.mKeySize) then
        { m with mMapImage := QImage.mk' m.mMapData.mValueSize m.mMapData.mKeySize }
      else m
    let keySize := m.mMapData.mKeySize
    let valueSize := m.mMapData.mValueSize
    let rawData := m.mMapData.mData
    let m :=
      if keyAxis.orientation = Horizontal then
        let lineCount := valueSize
        let rowCount := keySize
        (List.range lineCount.toNat).foldl (fun m (line : Nat) =>
          colorizeLine qt m (QCPColorMap.offsetPointer rawData (line * rowCount))
            (lineCount - 1 - line) rowCount 1) m
      else
        let lineCount := keySize
        let rowCount := valueSize
        (List.range lineCount.toNat).foldl (fun m (line : Nat) =>
          colorizeLine qt m (QCPColorMap.offsetPointer rawData line)
            (lineCount - 1 - line) rowCount lineCount) m
    { m with
      mMapData := { m.mMapData with mDataModified := false }
      mMapImageInvalidated := false }

end QCPColorMap

end Ieee

/-- The grayscale gradient with two levels. -/
def twoLevelGradient : QCPColorGradient :=
  QCPColorGradient.setLevelCount (QCPColorGradient.mk' GradientPreset.gpGrayscale) 2

/-- The periodic grayscale gradient with three levels. -/
def periodicThreeLevelGradient : QCPColorGradient :=
  QCPColorGradient.setPeriodic
    (QCPColorGradient.setLevelCount (QCPColorGradient.mk' GradientPreset.gpGrayscale) 3) true

/-- The grayscale gradient with fifty levels. -/
def fiftyLevelGradient : QCPColorGradient :=
  QCPColorGradient.setLevelCount (QCPColorGradient.mk' GradientPreset.gpGrayscale) 50

/-- The range `[0, 3.8]`, its upper bound being the double nearest to `3.8`. -/
def wideRange : QCPRange := ⟨0, Ieee.round (19 / 5)⟩

/-- The range `[0, 1.4]`, its upper bound being the double nearest to `1.4`. -/
def periodRange : QCPRange := ⟨0, Ieee.round (7 / 5)⟩

/-- A colour map over a field of one cell holding the double nearest to `1.9`, with the
data range `[0, 3.8]`, the grayscale gradient with two levels and a horizontal key
axis, before its first drawing. -/
def oneCellColorMap : QCPColorMap where
  mKeyAxis := some ⟨QtOrientation.Horizontal, false⟩
  mValueAxis := some ⟨QtOrientation.Vertical, false⟩
  mDataRange := wideRange
  mDataScaleType := ScaleType.stLinear
  mMapData := QCPColorMapData.setCell oneCellField 0 0 (Ieee.round (19 / 10))
  mGradient := twoLevelGradient
  mInterpolate := true
  mTightBoundary := false
  mMapImage := ⟨0, 0, []⟩
  mMapImageInvalidated := true

/-! ## Conversion to `int` -/

theorem truncToInt_of_nonneg {x : ℚ} (h : 0 ≤ x) : truncToInt x = ⌊x⌋ := by
  unfold truncToInt
  rw [Rat.floor_def, Int.tdiv_eq_ediv (Rat.num_nonneg.mpr h) (Int.ofNat_nonneg _)]

theorem truncToInt_neg (x : ℚ) : truncToInt (-x) = -truncToInt x := by
  simp [truncToInt, Int.neg_tdiv]

theorem truncToInt_intCast (n : Int) : truncToInt (n : ℚ) = n := by
  simp [truncToInt]

theorem truncToInt_zero : truncToInt 0 = 0 := by
  simp [truncToInt]

theorem truncToInt_nonneg {x : ℚ} (h : 0 ≤ x) : 0 ≤ truncToInt x := by
  rw [truncToInt_of_nonneg h]
  exact Int.floor_nonneg.mpr h

theorem truncToInt_nonpos {x : ℚ} (h : x ≤ 0) : truncToInt x ≤ 0 := by
  have h1 := truncToInt_nonneg (neg_nonneg.mpr h)
  rw [truncToInt_neg] at h1
  omega

theorem foldl_set_length {α : Type} (f : Nat → α) (n : Nat) (l : List α) :
    ((List.range n).foldl (fun sl i => sl.set i (f i)) l).length = l.length := by
  induction n with
  | zero => simp
  | succ n ih => simp [List.range_succ, List.foldl_append, ih]

theorem foldl_set_getElem? {α : Type} (f : Nat → α) (n : Nat) (l : List α) (i : Nat) :
    ((List.range n).foldl (fun sl i => sl.set i (f i)) l)[i]? =
      if i < n ∧ i < l.length then some (f i) else l[i]? := by
  induction n with
  | zero => simp
  | succ n ih =>
    simp only [List.range_succ, List.foldl_append, List.foldl_cons, List.foldl_nil]
    rw [List.getElem?_set, ih, foldl_set_length]
    by_cases h1 : n = i
    · subst h1
      by_cases h2 : n < l.length
      · simp [h2]
      · simp [h2]
        omega
    · have h3 : (i < n + 1) = (i < n) := by
        apply propext; constructor <;> intro h <;> omega
      simp [h1, h3]

/-! ## The colour buffer built by `updateColorBuffer` -/

namespace QCPColorGradient

open ColorInterpolation GradientPreset

theorem resize_length (v : List QRgb) (n : Int) : (QVector.resize v n).length = n.toNat := by
  simp only [QVector.resize, List.length_append, List.length_take, List.length_replicate]
  omega

/-- The buffer that the loop of `updateColorBuffer` starts from has `mLevelCount` entries. -/
theorem resized_length (g : QCPColorGradient) :
    (if (g.mColorBuffer.length : Int) ≠ g.mLevelCount then
      QVector.resize g.mColorBuffer g.mLevelCount else g.mColorBuffer).length
      = g.mLevelCount.toNat := by
  split
  · exact resize_length _ _
  · rename_i h
    have h1 : (g.mColorBuffer.length : Int) = g.mLevelCount := not_not.mp h
    omega

/-- Closed form of the buffer built by `updateColorBuffer`, whatever the buffer was before. -/
theorem updateColorBuffer_buffer (qt : Qt) (g : QCPColorGradient) :
    (updateColorBuffer qt g).mColorBuffer =
      if g.mColorStops.length > 1 then
        (List.range g.mLevelCount.toNat).map (bufferEntry qt g)
      else if g.mColorStops.length = 1 then
        List.replicate g.mLevelCount.toNat (QMap.valueAt g.mColorStops 0).rgb
      else List.replicate g.mLevelCount.toNat (qRgb 0 0 0) := by
  have hlen := resized_length g
  simp only [updateColorBuffer]
  split
  · apply List.ext_getElem?
    intro i
    rw [foldl_set_getElem?, hlen]
    by_cases hi : i < g.mLevelCount.toNat
    · simp [hi]
    · simp only [hi, and_self, if_false]
      rw [List.getElem?_eq_none (by rw [hlen]; omega),
        List.getElem?_eq_none (by simp; omega)]
  · split
    · simp only [QVector.fill, hlen]
    · simp only [QVector.fill, hlen]

theorem updateColorBuffer_length (qt : Qt) (g : QCPColorGradient) :
    (updateColorBuffer qt g).mColorBuffer.length = g.mLevelCount.toNat := by
  rw [updateColorBuffer_buffer]
  split
  · simp
  · split <;> simp

@[simp] theorem updateColorBuffer_levelCount (qt : Qt) (g : QCPColorGradient) :
    (updateColorBuffer qt g).mLevelCount = g.mLevelCount := rfl

@[simp] theorem updateColorBuffer_periodic (qt : Qt) (g : QCPColorGradient) :
    (updateColorBuffer qt g).mPeriodic = g.mPeriodic := rfl

@[simp] theorem updateColorBuffer_stops (qt : Qt) (g : QCPColorGradient) :
    (updateColorBuffer qt g).mColorStops = g.mColorStops := rfl

@[simp] theorem updateColorBuffer_interpolation (qt : Qt) (g : QCPColorGradient) :
    (updateColorBuffer qt g).mColorInterpolation = g.mColorInterpolation := rfl

@[simp] theorem updateColorBuffer_invalidated (qt : Qt) (g : QCPColorGradient) :
    (updateColorBuffer qt g).mColorBufferInvalidated = false := rfl

/-- In RGB mode the buffer entries do not depend on the Qt HSV functions. -/
theorem bufferEntry_rgb (qt qt' : Qt) (g : QCPColorGradient) (i : Nat)
    (h : g.mColorInterpolation = ciRGB) : bufferEntry qt g i = bufferEntry qt' g i := by
  simp only [bufferEntry, h]

/-- The buffer entries depend on the level count, the stops and the interpolation only. -/
theorem bufferEntry_congr (qt : Qt) (g g' : QCPColorGradient) (i : Nat)
    (hL : g.mLevelCount = g'.mLevelCount) (hs : g.mColorStops = g'.mColorStops)
    (hi : g.mColorInterpolation = g'.mColorInterpolation) :
    bufferEntry qt g i = bufferEntry qt g' i := by
  simp only [bufferEntry, hL, hs, hi]

end QCPColorGradient

open QCPColorGradient ColorInterpolation GradientPreset

/-- C7: for every level count and interpolation mode, `updateColorBuffer` on an empty stop
table yields a buffer of `mLevelCount` entries that are all black `qRgb(0,0,0)`, and on a
stop table with exactly one stop `(p, c)` a buffer of `mLevelCount` entries that are all
`c.rgb()`. -/
theorem C7_updateColorBuffer_few_stops (qt : Qt) (g : QCPColorGradient) (p : ℚ) (c : QColor) :
    (updateColorBuffer qt { g with mColorStops := [] }).mColorBuffer
        = List.replicate g.mLevelCount.toNat (qRgb 0 0 0) ∧
    (updateColorBuffer qt { g with mColorStops := [(p, c)] }).mColorBuffer
        = List.replicate g.mLevelCount.toNat c.rgb := by
  constructor
  · rw [updateColorBuffer_buffer]; simp
  · rw [updateColorBuffer_buffer]; simp [QMap.valueAt]

/-- C8: for the gradient with the stops `0 ↦ black`, `1 ↦ white`, RGB interpolation and four
levels, the buffer built by `updateColorBuffer` is black, `(85,85,85)`, `(170,170,170)`,
white, whatever the buffer, the dirty flag and the periodic flag were before. -/
theorem C8_scenario_four_gray_levels (qt : Qt) (periodic invalidated : Bool)
    (buffer : List QRgb) :
    (updateColorBuffer qt
      { mLevelCount := 4
        mColorStops := [(0, QColor.black), (1, QColor.white)]
        mColorInterpolation := ciRGB
        mPeriodic := periodic
        mColorBuffer := buffer
        mColorBufferInvalidated := invalidated }).mColorBuffer
      = [qRgb 0 0 0, qRgb 85 85 85, qRgb 170 170 170, qRgb 255 255 255] := by
  rw [updateColorBuffer_buffer]
  have h : bufferEntry qt
      { mLevelCount := 4
        mColorStops := [(0, QColor.black), (1, QColor.white)]
        mColorInterpolation := ciRGB
        mPeriodic := periodic
        mColorBuffer := buffer
        mColorBufferInvalidated := invalidated }
      = bufferEntry Qt.gray
      { mLevelCount := 4
        mColorStops := [(0, QColor.black), (1, QColor.white)]
        mColorInterpolation := ciRGB
        mPeriodic := false
        mColorBuffer := []
        mColorBufferInvalidated := true } := by
    funext i
    rw [bufferEntry_rgb qt Qt.gray _ i rfl]
    exact bufferEntry_congr _ _ _ i rfl rfl rfl
  rw [h]
  dsimp only
  decide!

/-! ## `colorize` against `color` -/

/-- The colour returned by `color` is the entry of the (possibly rebuilt) buffer at
`colorIndex`. -/
theorem QCPColorGradient.color_snd (qt : Qt) (g g' : QCPColorGradient) (v : ℚ)
    (range : QCPRange) (logarithmic : Bool)
    (hg' : g' = if g.mColorBufferInvalidated then updateColorBuffer qt g else g) :
    (color qt g v range logarithmic).2
      = QVector.at' g'.mColorBuffer (colorIndex qt g' v range logarithmic) := by
  simp only [color, hg']

/-- The reads `data[dataIndexFactor*i]` of `colorize` stay inside an array of at least
`dataIndexFactor*(n-1)+1` entries. -/
theorem colorize_read_inside (data : List ℚ) (n s : Int) (hs : 1 ≤ s)
    (hdata : s * (n - 1) + 1 ≤ data.length) (i : Nat) (hi : (i : Int) < n) :
    ∃ v, data[(s * i).toNat]? = some v ∧ data.getD (s * i).toNat 0 = v := by
  have e : s * (n - 1) = s * n - s := by ring
  have h1 : s * i + s ≤ s * n := by nlinarith
  have h2 : 0 ≤ s * i := by positivity
  have h3 : (s * i).toNat < data.length := by omega
  refine ⟨data[(s * i).toNat], List.getElem?_eq_getElem h3, ?_⟩
  simp [List.getD_eq_getElem?_getD, List.getElem?_eq_getElem h3]

/-! ## The state in which a lookup reads the buffer -/

namespace QCPColorGradient

/-- The gradient after the lazy rebuild at the start of `color` and `colorize`. -/
theorem color_fst (qt : Qt) (g : QCPColorGradient) (v : ℚ) (range : QCPRange)
    (logarithmic : Bool) :
    (color qt g v range logarithmic).1
      = if g.mColorBufferInvalidated then updateColorBuffer qt g else g := by
  simp only [color]

theorem colorize_fst (qt : Qt) (g : QCPColorGradient) (data : List ℚ) (range : QCPRange)
    (scanLine : List QRgb) (n s : Int) (logarithmic : Bool) :
    (colorize qt g (some data) range (some scanLine) n s logarithmic).1
      = if g.mColorBufferInvalidated then updateColorBuffer qt g else g := by
  simp only [colorize]
  cases logarithmic <;>
    by_cases hp :
      (if g.mColorBufferInvalidated then updateColorBuffer qt g else g).mPeriodic = true <;>
    simp only [hp, Bool.not_false, Bool.not_true, if_true, if_false, Bool.false_eq_true]

theorem rebuilt_levelCount (qt : Qt) (g : QCPColorGradient) :
    (if g.mColorBufferInvalidated then updateColorBuffer qt g else g).mLevelCount
      = g.mLevelCount := by
  split <;> rfl

theorem rebuilt_length (qt : Qt) (g : QCPColorGradient) (hv : Valid g) :
    ((if g.mColorBufferInvalidated then updateColorBuffer qt g else g).mColorBuffer.length
      : Int) = g.mLevelCount := by
  split
  · rw [updateColorBuffer_length]
    have := hv.1
    omega
  · rename_i h
    exact hv.2 (by simpa using h)

theorem setLevelCount_levelCount (g : QCPColorGradient) (n : Int) :
    (setLevelCount g n).mLevelCount = max n 2 := by
  simp only [setLevelCount]
  split <;> split <;> simp_all <;> omega

theorem setLevelCount_valid (g : QCPColorGradient) (n : Int) (hv : Valid g) :
    Valid (setLevelCount g n) := by
  refine ⟨by rw [setLevelCount_levelCount]; omega, ?_⟩
  simp only [setLevelCount]
  by_cases h : (if n < 2 then 2 else n) ≠ g.mLevelCount
  · rw [if_pos h]
    intro h'
    simp at h'
  · rw [if_neg h]
    exact hv.2

/-- The index read by a non-periodic linear lookup is the floor of the scaled value,
clamped to the buffer. -/
theorem colorIndex_clamped (qt : Qt) (g : QCPColorGradient) (value : ℚ) (range : QCPRange)
    (hL : 1 ≤ g.mLevelCount) (hp : g.mPeriodic = false) :
    colorIndex qt g value range false
      = max 0 (min ⌊(value - range.lower) * g.mLevelCount / range.size⌋
          (g.mLevelCount - 1)) := by
  simp only [colorIndex, hp, Bool.not_false, if_true, Bool.false_eq_true, if_false]
  rcases le_or_lt 0 ((value - range.lower) * g.mLevelCount / range.size) with hx | hx
  · have h1 := truncToInt_of_nonneg hx
    have h2 : 0 ≤ ⌊(value - range.lower) * g.mLevelCount / range.size⌋ :=
      Int.floor_nonneg.mpr hx
    rw [h1]
    simp only [max_def, min_def]
    split_ifs <;> omega
  · have h1 := truncToInt_nonpos hx.le
    have h2 : ⌊(value - range.lower) * g.mLevelCount / range.size⌋ < 0 :=
      Int.floor_lt.mpr (by simpa using hx)
    simp only [max_def, min_def]
    split_ifs <;> omega

end QCPColorGradient

/-- C6: for every integer `n`, after `setLevelCount(n)` on a gradient and a lookup
(`color`, or `colorize` with non-null arguments), the colour buffer has exactly
`max(n, 2)` entries and the level count is `max(n, 2)`. -/
theorem C6_levelCount_buffer_size (qt : Qt) (g : QCPColorGradient) (n : Int) (position : ℚ)
    (range : QCPRange) (logarithmic : Bool) (data : List ℚ) (scanLine : List QRgb)
    (count stride : Int) (hv : Valid g) :
    (((color qt (setLevelCount g n) position range logarithmic).1.mColorBuffer.length : Int)
        = max n 2 ∧
      (color qt (setLevelCount g n) position range logarithmic).1.mLevelCount = max n 2) ∧
    (((colorize qt (setLevelCount g n) (some data) range (some scanLine) count stride
        logarithmic).1.mColorBuffer.length : Int) = max n 2 ∧
      (colorize qt (setLevelCount g n) (some data) range (some scanLine) count stride
        logarithmic).1.mLevelCount = max n 2) := by
  have hv' := setLevelCount_valid g n hv
  rw [color_fst, colorize_fst, rebuilt_length qt _ hv', rebuilt_levelCount,
    setLevelCount_levelCount]
  exact ⟨⟨rfl, rfl⟩, rfl, rfl⟩

/-! ## Stop tables and `inverted` -/

/-- A key below every key of the table is inserted at the front. -/
theorem QMap.insert_of_lt_all {β : Type} (m : List (ℚ × β)) (k : ℚ) (v : β)
    (h : ∀ e ∈ m, k < e.1) : QMap.insert m k v = (k, v) :: m := by
  cases m with
  | nil => rfl
  | cons e m =>
    obtain ⟨k', v'⟩ := e
    have hk : k < k' := h (k', v') (List.mem_cons_self _ _)
    simp only [QMap.insert, hk, if_true]

/-- The stops of a table in ascending order, mirrored at `1/2`, are in descending order;
read backwards they are a table again. -/
theorem QMap.wellFormed_mirrored (m : List (ℚ × QColor)) (h : QMap.WellFormed m) :
    QMap.WellFormed (m.map (fun s => ((1 : ℚ) - s.1, s.2))).reverse := by
  unfold QMap.WellFormed at *
  rw [List.pairwise_reverse, List.pairwise_map]
  exact h.imp (fun hab => by simpa using hab)

namespace QCPColorGradient

/-- The loop of `inverted`: inserting the mirrored stops of an ascending list, all of them
below the keys already present, puts them in front in reverse order. -/
theorem inverted_loop_stops (l : List (ℚ × QColor)) :
    ∀ result : QCPColorGradient, QMap.WellFormed l →
      (∀ e ∈ result.mColorStops, ∀ s ∈ l, 1 - s.1 < e.1) →
      (l.foldl (fun result it => setColorStopAt result (1 - it.1) it.2) result).mColorStops
        = (l.map (fun s => ((1 : ℚ) - s.1, s.2))).reverse ++ result.mColorStops := by
  induction l with
  | nil => intro result _ _; simp
  | cons x xs ih =>
    intro result hl hacc
    have hx : ∀ s ∈ xs, x.1 < s.1 := (List.pairwise_cons.mp hl).1
    have hxs : QMap.WellFormed xs := (List.pairwise_cons.mp hl).2
    have hins : (setColorStopAt result (1 - x.1) x.2).mColorStops
        = (1 - x.1, x.2) :: result.mColorStops := by
      simp only [setColorStopAt]
      exact QMap.insert_of_lt_all _ _ _
        (fun e he => hacc e he x (List.mem_cons_self _ _))
    rw [List.foldl_cons, ih _ hxs, hins]
    · simp
    · intro e he s hs
      rw [hins] at he
      rcases List.mem_cons.mp he with rfl | he
      · have := hx s hs
        simp only
        linarith
      · exact hacc e he s (List.mem_cons_of_mem _ hs)

/-- The loop of `inverted` touches the stop table and the dirty flag only. -/
theorem inverted_loop_settings (l : List (ℚ × QColor)) :
    ∀ result : QCPColorGradient,
      (l.foldl (fun result it => setColorStopAt result (1 - it.1) it.2) result).mLevelCount
        = result.mLevelCount ∧
      (l.foldl (fun result it => setColorStopAt result (1 - it.1) it.2)
        result).mColorInterpolation = result.mColorInterpolation ∧
      (l.foldl (fun result it => setColorStopAt result (1 - it.1) it.2) result).mPeriodic
        = result.mPeriodic := by
  induction l with
  | nil => intro result; simp
  | cons x xs ih =>
    intro result
    rw [List.foldl_cons]
    exact ih _

/-- The stop table of `inverted` is the mirrored stop table of the receiver. -/
theorem inverted_stops (g : QCPColorGradient) (h : QMap.WellFormed g.mColorStops) :
    (inverted g).mColorStops
      = (g.mColorStops.map (fun s => ((1 : ℚ) - s.1, s.2))).reverse := by
  simp only [inverted]
  rw [inverted_loop_stops _ _ h]
  · simp [clearColorStops]
  · intro e he
    simp [clearColorStops] at he

end QCPColorGradient

/-- C9: for every gradient `g` (its stop table being a `QMap`, keys ascending and unique;
positions exact), `g.inverted().inverted()` has the stop table of `g`: the same positions
with the same colours. -/
theorem C9_inverted_inverted_stops (g : QCPColorGradient)
    (h : QMap.WellFormed g.mColorStops) :
    (inverted (inverted g)).mColorStops = g.mColorStops := by
  have h1 := inverted_stops g h
  have h2 : QMap.WellFormed (inverted g).mColorStops := by
    rw [h1]; exact QMap.wellFormed_mirrored _ h
  rw [inverted_stops _ h2, h1, List.map_reverse, List.reverse_reverse, List.map_map]
  have hid : ((fun s : ℚ × QColor => ((1 : ℚ) - s.1, s.2)) ∘
      (fun s : ℚ × QColor => ((1 : ℚ) - s.1, s.2))) = id := by
    funext s
    simp
  rw [hid, List.map_id]

/-- C10: for every gradient `g` (its stop table being a `QMap`), the gradient returned by
`g.inverted()` has the stops `(1 - p, c)` for the stops `(p, c)` of `g` and no others, in
ascending order of position, and the level count, interpolation mode and periodic flag of
`g`. The method is `const`: it is a function of `g` and returns the new gradient only. -/
theorem C10_inverted_mirrors_stops (g : QCPColorGradient)
    (h : QMap.WellFormed g.mColorStops) :
    (inverted g).mColorStops
        = (g.mColorStops.map (fun s => ((1 : ℚ) - s.1, s.2))).reverse ∧
    QMap.WellFormed (inverted g).mColorStops ∧
    (∀ p c, (p, c) ∈ (inverted g).mColorStops ↔ (1 - p, c) ∈ g.mColorStops) ∧
    (inverted g).mColorStops.length = g.mColorStops.length ∧
    (inverted g).mLevelCount = g.mLevelCount ∧
    (inverted g).mColorInterpolation = g.mColorInterpolation ∧
    (inverted g).mPeriodic = g.mPeriodic := by
  have h1 := inverted_stops g h
  have hs := inverted_loop_settings g.mColorStops (clearColorStops g)
  refine ⟨h1, ?_, ?_, ?_, hs.1, hs.2.1, hs.2.2⟩
  · rw [h1]; exact QMap.wellFormed_mirrored _ h
  · intro p c
    rw [h1, List.mem_reverse, List.mem_map]
    constructor
    · rintro ⟨s, hs1, hs2⟩
      obtain ⟨k, v⟩ := s
      simp only [Prod.mk.injEq] at hs2
      obtain ⟨rfl, rfl⟩ := hs2
      simpa using hs1
    · intro hm
      exact ⟨(1 - p, c), hm, by simp⟩
  · rw [h1]; simp

/-! ## Lookups at stop positions -/

/-- In a table the position of a key is its lower bound. -/
theorem QMap.lowerBound_of_getElem? {β : Type} (m : List (ℚ × β)) :
    ∀ (j : Nat) (p : ℚ) (c : β), QMap.WellFormed m → m[j]? = some (p, c) →
      QMap.lowerBound m p = j := by
  induction m with
  | nil => intro j p c _ h; simp at h
  | cons e m ih =>
    intro j p c hwf h
    obtain ⟨k', v'⟩ := e
    cases j with
    | zero =>
      simp only [List.getElem?_cons_zero, Option.some.injEq, Prod.mk.injEq] at h
      simp [QMap.lowerBound, h.1]
    | succ j =>
      simp only [List.getElem?_cons_succ] at h
      have hlt : k' < p :=
        (List.pairwise_cons.mp hwf).1 (p, c) (List.getElem?_mem h)
      simp only [QMap.lowerBound, hlt, if_true]
      rw [ih j p c (List.pairwise_cons.mp hwf).2 h]

/-- In a table the key before a position is smaller. -/
theorem QMap.key_before_lt {β : Type} (m : List (ℚ × β)) :
    ∀ (j : Nat) (p : ℚ) (c : β), QMap.WellFormed m → m[j + 1]? = some (p, c) →
      ∃ e, m[j]? = some e ∧ e.1 < p := by
  induction m with
  | nil => intro j p c _ h; simp at h
  | cons e m ih =>
    intro j p c hwf h
    simp only [List.getElem?_cons_succ] at h
    cases j with
    | zero =>
      exact ⟨e, by simp, (List.pairwise_cons.mp hwf).1 (p, c) (List.getElem?_mem h)⟩
    | succ j =>
      obtain ⟨e', h1, h2⟩ := ih j p c (List.pairwise_cons.mp hwf).2 h
      exact ⟨e', by simpa using h1, h2⟩

theorem truncToInt_natCast (n : Nat) : truncToInt (n : ℚ) = (n : Int) := by
  have := truncToInt_intCast (n : Int)
  simpa using this

namespace QCPColorGradient

/-- The scaled value of a stop lying on sample `k` of the buffer is read at index `k`. -/
theorem colorIndex_at_sample (qt : Qt) (g : QCPColorGradient) (k : Nat) (range : QCPRange)
    (hL : 2 ≤ g.mLevelCount) (hp : g.mPeriodic = false)
    (hk : (k : Int) ≤ g.mLevelCount - 1) (hsize : 0 < range.size) :
    colorIndex qt g
      (range.lower + (k : ℚ) * (1 / ((g.mLevelCount - 1 : Int) : ℚ)) * range.size)
      range false = k := by
  rw [colorIndex_clamped qt g _ range (by omega) hp]
  have hLq : ((g.mLevelCount : Int) : ℚ) = ((g.mLevelCount - 1 : Int) : ℚ) + 1 := by
    push_cast; ring
  have hm : (0 : ℚ) < ((g.mLevelCount - 1 : Int) : ℚ) := by
    have : (0 : Int) < g.mLevelCount - 1 := by omega
    exact_mod_cast this
  have hkc : (k : ℚ) ≤ ((g.mLevelCount - 1 : Int) : ℚ) := by exact_mod_cast hk
  have hkeq : (k : Int) = g.mLevelCount - 1 → (k : ℚ) = ((g.mLevelCount - 1 : Int) : ℚ) := by
    intro h; exact_mod_cast h
  have hklt : (k : Int) < g.mLevelCount - 1 → (k : ℚ) < ((g.mLevelCount - 1 : Int) : ℚ) := by
    intro h; exact_mod_cast h
  generalize ((g.mLevelCount - 1 : Int) : ℚ) = m at *
  have hsz : range.size ≠ 0 := hsize.ne'
  have hx : (range.lower + (k : ℚ) * (1 / m) * range.size - range.lower)
      * (g.mLevelCount : ℚ) / range.size = (k : ℚ) + (k : ℚ) / m := by
    rw [hLq]
    field_simp
    ring
  rw [hx]
  have hk0 : (0 : ℚ) ≤ (k : ℚ) := Nat.cast_nonneg k
  have hkk : (((k : Int) : ℚ)) = (k : ℚ) := Int.cast_natCast k
  rcases lt_or_eq_of_le hk with hlt | heq
  · have hfl : ⌊(k : ℚ) + (k : ℚ) / m⌋ = (k : Int) := by
      rw [Int.floor_eq_iff, hkk]
      have h1 : (0 : ℚ) ≤ (k : ℚ) / m := div_nonneg hk0 hm.le
      have h2 : (k : ℚ) / m < 1 := by
        rw [div_lt_one hm]; exact hklt hlt
      constructor <;> linarith
    rw [hfl]
    simp only [max_def, min_def]; split_ifs <;> omega
  · have hfl : ⌊(k : ℚ) + (k : ℚ) / m⌋ = g.mLevelCount := by
      rw [hkeq heq, div_self hm.ne', ← hLq, Int.floor_intCast]
    rw [hfl]
    simp only [max_def, min_def]; split_ifs <;> omega

end QCPColorGradient

/-- For a gradient whose clean buffer is current, a lookup reads the buffer that
`updateColorBuffer` builds. -/
theorem QCPColorGradient.rebuilt_buffer (qt : Qt) (g : QCPColorGradient)
    (hcur : BufferCurrent qt g) :
    (if g.mColorBufferInvalidated then updateColorBuffer qt g else g).mColorBuffer
      = (updateColorBuffer qt g).mColorBuffer := by
  split
  · rfl
  · rename_i h
    exact hcur (by simpa using h)

/-- C4 evaluated below `range.lower`: for the periodic grayscale gradient with four
levels and the range `[0, 1]`, the value `-1/8` has the scaled position `x = -1/2`; the
conversion to `int` truncates it to `0`, so `color` returns buffer entry `0` (black),
whereas `((floor(x) mod 4) + 4) mod 4 = 3` is the entry of white. Below `range.lower` the
colours are therefore not the periodic continuation: `1/8` is coloured black, but
`1/8 - range.size()`, one period lower, is coloured `(85, 85, 85)`. -/
theorem C4_periodic_below_lower_reads_entry_zero :
    periodicGrayGradient.mPeriodic = true ∧
    periodicGrayGradient.mLevelCount = 4 ∧
    0 < unitRange.size ∧
    ((-1 / 8 : ℚ) - unitRange.lower) * 4 / unitRange.size = -1 / 2 ∧
    colorIndex Qt.gray periodicGrayGradient (-1 / 8) unitRange false = 0 ∧
    ((⌊(-1 / 2 : ℚ)⌋ % 4) + 4) % 4 = 3 ∧
    (color Qt.gray periodicGrayGradient (-1 / 8) unitRange false).1.mColorBuffer
      = [qRgb 0 0 0, qRgb 85 85 85, qRgb 170 170 170, qRgb 255 255 255] ∧
    (color Qt.gray periodicGrayGradient (-1 / 8) unitRange false).2 = qRgb 0 0 0 ∧
    (color Qt.gray periodicGrayGradient (1 / 8) unitRange false).2 = qRgb 0 0 0 ∧
    (color Qt.gray periodicGrayGradient (1 / 8 - unitRange.size) unitRange false).2
      = qRgb 85 85 85 := by
  decide!

/-- For a periodic gradient with `L ≥ 1` levels and a value at or above `range.lower`
(scaled position `x ≥ 0`), the index read by a linear lookup is
`((floor(x) mod L) + L) mod L`. -/
theorem QCPColorGradient.colorIndex_periodic_of_nonneg (qt : Qt) (g : QCPColorGradient)
    (value : ℚ) (range : QCPRange) (hL : 1 ≤ g.mLevelCount) (hp : g.mPeriodic = true)
    (hx : 0 ≤ (value - range.lower) * g.mLevelCount / range.size) :
    colorIndex qt g value range false
      = ((⌊(value - range.lower) * g.mLevelCount / range.size⌋ % g.mLevelCount)
          + g.mLevelCount) % g.mLevelCount := by
  have h1 := truncToInt_of_nonneg hx
  have h2 : 0 ≤ ⌊(value - range.lower) * g.mLevelCount / range.size⌋ :=
    Int.floor_nonneg.mpr hx
  simp only [colorIndex, hp, Bool.not_false, if_true, h1]
  rw [Int.tmod_eq_emod h2 (by omega)]
  have h3 := Int.emod_nonneg ⌊(value - range.lower) * g.mLevelCount / range.size⌋
    (show g.mLevelCount ≠ 0 by omega)
  rw [if_neg (by omega)]
  simp [Int.add_emod_self]

/-! ## The statements above at concrete gradients -/

theorem C6_levelCount_buffer_size_witness :
    (((color Qt.gray (setLevelCount threeStopGradient 1) 0 unitRange
          false).1.mColorBuffer.length : Int) = max 1 2 ∧
      (color Qt.gray (setLevelCount threeStopGradient 1) 0 unitRange false).1.mLevelCount
        = max 1 2) ∧
    (((colorize Qt.gray (setLevelCount threeStopGradient 1) (some [0]) unitRange
        (some [0]) 1 1 false).1.mColorBuffer.length : Int) = max 1 2 ∧
      (colorize Qt.gray (setLevelCount threeStopGradient 1) (some [0]) unitRange
        (some [0]) 1 1 false).1.mLevelCount = max 1 2) :=
  C6_levelCount_buffer_size Qt.gray threeStopGradient 1 0 unitRange false [0] [0] 1 1
    (by decide!)

theorem C9_inverted_inverted_stops_witness :
    (inverted (inverted (QCPColorGradient.mk' gpHot))).mColorStops
      = (QCPColorGradient.mk' gpHot).mColorStops :=
  C9_inverted_inverted_stops (QCPColorGradient.mk' gpHot) (by decide!)

theorem C10_inverted_mirrors_stops_witness :
    (inverted (QCPColorGradient.mk' gpJet)).mColorStops
        = ((QCPColorGradient.mk' gpJet).mColorStops.map
            (fun s => ((1 : ℚ) - s.1, s.2))).reverse ∧
    QMap.WellFormed (inverted (QCPColorGradient.mk' gpJet)).mColorStops ∧
    (∀ p c, (p, c) ∈ (inverted (QCPColorGradient.mk' gpJet)).mColorStops
      ↔ (1 - p, c) ∈ (QCPColorGradient.mk' gpJet).mColorStops) ∧
    (inverted (QCPColorGradient.mk' gpJet)).mColorStops.length
      = (QCPColorGradient.mk' gpJet).mColorStops.length ∧
    (inverted (QCPColorGradient.mk' gpJet)).mLevelCount
      = (QCPColorGradient.mk' gpJet).mLevelCount ∧
    (inverted (QCPColorGradient.mk' gpJet)).mColorInterpolation
      = (QCPColorGradient.mk' gpJet).mColorInterpolation ∧
    (inverted (QCPColorGradient.mk' gpJet)).mPeriodic
      = (QCPColorGradient.mk' gpJet).mPeriodic :=
  C10_inverted_mirrors_stops (QCPColorGradient.mk' gpJet) (by decide!)

/-! ## Equality of gradients and presets -/

/-- C11: `a == b` holds exactly if the two gradients have equal level count, equal
interpolation mode, equal periodic flag and equal stop tables; replacing the buffers and
the dirty flags of `a` and of `b` by any others does not change the result. -/
theorem C11_operatorEq_compares_settings (a b : QCPColorGradient) :
    (operatorEq a b = true ↔
      (b.mLevelCount = a.mLevelCount ∧ b.mColorInterpolation = a.mColorInterpolation ∧
        b.mPeriodic = a.mPeriodic ∧ b.mColorStops = a.mColorStops)) ∧
    (∀ (bufferA bufferB : List QRgb) (dirtyA dirtyB : Bool),
      operatorEq
        { a with mColorBuffer := bufferA, mColorBufferInvalidated := dirtyA }
        { b with mColorBuffer := bufferB, mColorBufferInvalidated := dirtyB }
        = operatorEq a b) := by
  constructor
  · simp only [operatorEq, Bool.and_eq_true, decide_eq_true_eq]
    tauto
  · intro bufferA bufferB dirtyA dirtyB
    rfl

namespace QCPColorGradient

/-- The loop of `setColorStopAt` calls in `loadPreset` inserts the stops into the stop
table and leaves the other settings alone. -/
theorem setColorStopAt_loop (l : List (ℚ × QColor)) :
    ∀ g : QCPColorGradient,
      (l.foldl (fun g s => setColorStopAt g s.1 s.2) g).mColorStops
        = l.foldl (fun m s => QMap.insert m s.1 s.2) g.mColorStops ∧
      (l.foldl (fun g s => setColorStopAt g s.1 s.2) g).mLevelCount = g.mLevelCount ∧
      (l.foldl (fun g s => setColorStopAt g s.1 s.2) g).mColorInterpolation
        = g.mColorInterpolation ∧
      (l.foldl (fun g s => setColorStopAt g s.1 s.2) g).mPeriodic = g.mPeriodic := by
  induction l with
  | nil => intro g; simp
  | cons x xs ih =>
    intro g
    rw [List.foldl_cons, List.foldl_cons]
    exact ih _

/-- The state in which `loadPreset` starts to insert stops. -/
theorem cleared_settings (g : QCPColorGradient) (m : ColorInterpolation) :
    (setColorInterpolation (clearColorStops g) m).mColorStops = [] ∧
    (setColorInterpolation (clearColorStops g) m).mLevelCount = g.mLevelCount ∧
    (setColorInterpolation (clearColorStops g) m).mColorInterpolation = m ∧
    (setColorInterpolation (clearColorStops g) m).mPeriodic = g.mPeriodic := by
  simp only [setColorInterpolation, clearColorStops]
  split
  · exact ⟨rfl, rfl, rfl, rfl⟩
  · rename_i h
    exact ⟨rfl, rfl, (not_not.mp h).symm, rfl⟩

end QCPColorGradient

/-- C12: for every gradient state and every preset, after `loadPreset(preset)` the stop
table is the table of the preset (a `QMap` in ascending order) and the interpolation mode
is the one of the preset, whatever stops were there before; the level count and the
periodic flag are unchanged. For `gpGrayscale` the table is `0 ↦ black`, `1 ↦ white` and
the mode is RGB. -/
theorem C12_loadPreset_installs_preset (g : QCPColorGradient) (preset : GradientPreset) :
    (loadPreset g preset).mColorStops = preset.colorStops ∧
    (loadPreset g preset).mColorInterpolation = preset.colorInterpolation ∧
    QMap.WellFormed (loadPreset g preset).mColorStops ∧
    (loadPreset g preset).mLevelCount = g.mLevelCount ∧
    (loadPreset g preset).mPeriodic = g.mPeriodic ∧
    (loadPreset g gpGrayscale).mColorStops = [(0, QColor.black), (1, QColor.white)] ∧
    (loadPreset g gpGrayscale).mColorInterpolation = ciRGB := by
  have key : ∀ p : GradientPreset,
      (loadPreset g p).mColorStops = p.colorStops ∧
      (loadPreset g p).mColorInterpolation = p.colorInterpolation ∧
      (loadPreset g p).mLevelCount = g.mLevelCount ∧
      (loadPreset g p).mPeriodic = g.mPeriodic := by
    intro p
    cases p <;>
    · simp only [loadPreset]
      refine ⟨?_, ?_, ?_, ?_⟩
      · rw [(setColorStopAt_loop _ _).1, (cleared_settings g _).1]
        decide!
      · rw [(setColorStopAt_loop _ _).2.2.1, (cleared_settings g _).2.2.1]
        rfl
      · rw [(setColorStopAt_loop _ _).2.1, (cleared_settings g _).2.1]
      · rw [(setColorStopAt_loop _ _).2.2.2, (cleared_settings g _).2.2.2]
  have hwf : ∀ p : GradientPreset, QMap.WellFormed p.colorStops := by
    intro p
    cases p <;> decide!
  refine ⟨(key preset).1, (key preset).2.1, ?_, (key preset).2.2.1, (key preset).2.2.2,
    (key gpGrayscale).1, (key gpGrayscale).2.1⟩
  rw [(key preset).1]
  exact hwf preset

/-! ## Cells of a field -/

namespace QCPColorMapData

/-- An accepted `setCell` writes one cell of the array, widens the bounds and sets the
modified flag. -/
theorem setCell_of_inside (d : QCPColorMapData) (keyIndex valueIndex : Int) (z : ℚ)
    (hk0 : 0 ≤ keyIndex) (hk1 : keyIndex < d.mKeySize)
    (hv0 : 0 ≤ valueIndex) (hv1 : valueIndex < d.mValueSize) :
    setCell d keyIndex valueIndex z =
      { d with
        mData := d.mData.map (fun a => a.set (valueIndex * d.mKeySize + keyIndex).toNat z)
        mDataBounds := ⟨min d.mDataBounds.lower z, max d.mDataBounds.upper z⟩
        mDataModified := true } := by
  have hin : keyIndex ≥ 0 ∧ keyIndex < d.mKeySize ∧ valueIndex ≥ 0 ∧
      valueIndex < d.mValueSize := ⟨hk0, hk1, hv0, hv1⟩
  simp only [setCell, if_pos hin, mDataSet]
  by_cases h1 : z < d.mDataBounds.lower <;> by_cases h2 : z > d.mDataBounds.upper
  · simp [h1, h2, min_eq_right h1.le, max_eq_right h2.le]
  · simp [h1, h2, min_eq_right h1.le, max_eq_left (not_lt.mp h2)]
  · simp [h1, h2, min_eq_left (not_lt.mp h1), max_eq_right h2.le]
  · simp [h1, h2, min_eq_left (not_lt.mp h1), max_eq_left (not_lt.mp h2)]

/-- A rejected `setCell` does nothing. -/
theorem setCell_of_outside (d : QCPColorMapData) (keyIndex valueIndex : Int) (z : ℚ)
    (h : keyIndex < 0 ∨ keyIndex ≥ d.mKeySize ∨ valueIndex < 0 ∨
      valueIndex ≥ d.mValueSize) :
    setCell d keyIndex valueIndex z = d := by
  have hout : ¬ (keyIndex ≥ 0 ∧ keyIndex < d.mKeySize ∧ valueIndex ≥ 0 ∧
      valueIndex < d.mValueSize) := by
    rintro ⟨h1, h2, h3, h4⟩
    omega
  simp only [setCell, if_neg hout]

/-- The array of a valid field with a cell `(keyIndex, valueIndex)`. -/
theorem array_of_valid (d : QCPColorMapData) (keyIndex valueIndex : Int) (hd : Valid d)
    (hk0 : 0 ≤ keyIndex) (hk1 : keyIndex < d.mKeySize)
    (hv0 : 0 ≤ valueIndex) (hv1 : valueIndex < d.mValueSize) :
    ∃ a, d.mData = some a ∧ (a.length : Int) = d.mKeySize * d.mValueSize ∧
      (valueIndex * d.mKeySize + keyIndex).toNat < a.length := by
  obtain ⟨_, _, he, hm⟩ := hd
  cases hdata : d.mData with
  | none =>
    rw [hdata] at hm
    simp only at hm
    rw [hm] at he
    have hK : d.mKeySize ≠ 0 := by omega
    have hV : d.mValueSize ≠ 0 := by omega
    simp [hK, hV] at he
  | some a =>
    rw [hdata] at hm
    simp only at hm
    refine ⟨a, rfl, hm.2, ?_⟩
    have h1 : valueIndex * d.mKeySize + keyIndex < d.mKeySize * d.mValueSize := by
      have : (valueIndex + 1) * d.mKeySize ≤ d.mValueSize * d.mKeySize :=
        Int.mul_le_mul_of_nonneg_right (by omega) (by omega)
      have e1 : (valueIndex + 1) * d.mKeySize = valueIndex * d.mKeySize + d.mKeySize := by
        ring
      have e2 : d.mValueSize * d.mKeySize = d.mKeySize * d.mValueSize := by ring
      omega
    have h2 : 0 ≤ valueIndex * d.mKeySize := Int.mul_nonneg hv0 (by omega)
    omega

/-- The flat index `valueIndex * mKeySize + keyIndex` determines the cell. -/
theorem flat_index_injective (K k v k' v' : Int) (hk0 : 0 ≤ k) (hk1 : k < K)
    (hk0' : 0 ≤ k') (hk1' : k' < K) (h : v * K + k = v' * K + k') : k = k' ∧ v = v' := by
  have hv : v = v' := by
    rcases lt_trichotomy v v' with hlt | heq | hgt
    · have : (v + 1) * K ≤ v' * K := Int.mul_le_mul_of_nonneg_right (by omega) (by omega)
      have e : (v + 1) * K = v * K + K := by ring
      omega
    · exact heq
    · have : (v' + 1) * K ≤ v * K := Int.mul_le_mul_of_nonneg_right (by omega) (by omega)
      have e : (v' + 1) * K = v' * K + K := by ring
      omega
  subst hv
  exact ⟨by omega, rfl⟩

end QCPColorMapData

open QCPColorMapData in
/-- C13: for a field and a `setCell(keyIndex, valueIndex, z)` with `0 ≤ keyIndex < keySize`
and `0 ≤ valueIndex < valueSize`: afterwards the array cell at the flat index
`valueIndex*keySize + keyIndex` holds `z`, so `cell(keyIndex, valueIndex)` returns `z`;
every other array cell and every other `cell(k, v)` is unchanged; sizes, ranges and the
empty flag are unchanged; the bounds are `(min(old lower, z), max(old upper, z))`; the
modified flag is set. -/
theorem C13_setCell_writes_cell (d : QCPColorMapData) (keyIndex valueIndex : Int) (z : ℚ)
    (hd : Valid d) (hk0 : 0 ≤ keyIndex) (hk1 : keyIndex < d.mKeySize)
    (hv0 : 0 ≤ valueIndex) (hv1 : valueIndex < d.mValueSize) :
    (∃ a, d.mData = some a ∧ (valueIndex * d.mKeySize + keyIndex).toNat < a.length ∧
      (setCell d keyIndex valueIndex z).mData
        = some (a.set (valueIndex * d.mKeySize + keyIndex).toNat z)) ∧
    mDataAt (setCell d keyIndex valueIndex z) (valueIndex * d.mKeySize + keyIndex) = z ∧
    cell (setCell d keyIndex valueIndex z) keyIndex valueIndex = z ∧
    (∀ i : Int, 0 ≤ i → i ≠ valueIndex * d.mKeySize + keyIndex →
      mDataAt (setCell d keyIndex valueIndex z) i = mDataAt d i) ∧
    (∀ k v : Int, (k, v) ≠ (keyIndex, valueIndex) →
      cell (setCell d keyIndex valueIndex z) k v = cell d k v) ∧
    (setCell d keyIndex valueIndex z).mKeySize = d.mKeySize ∧
    (setCell d keyIndex valueIndex z).mValueSize = d.mValueSize ∧
    (setCell d keyIndex valueIndex z).mKeyRange = d.mKeyRange ∧
    (setCell d keyIndex valueIndex z).mValueRange = d.mValueRange ∧
    (setCell d keyIndex valueIndex z).mIsEmpty = d.mIsEmpty ∧
    (setCell d keyIndex valueIndex z).mDataBounds
      = ⟨min d.mDataBounds.lower z, max d.mDataBounds.upper z⟩ ∧
    (setCell d keyIndex valueIndex z).mDataModified = true := by
  obtain ⟨a, ha, hlen, hidx⟩ := array_of_valid d keyIndex valueIndex hd hk0 hk1 hv0 hv1
  have hflat0 : 0 ≤ valueIndex * d.mKeySize + keyIndex := by
    have : 0 ≤ valueIndex * d.mKeySize := Int.mul_nonneg hv0 (by omega)
    omega
  rw [setCell_of_inside d keyIndex valueIndex z hk0 hk1 hv0 hv1]
  have hat : ∀ i : Int, mDataAt
      { d with
        mData := d.mData.map (fun a => a.set (valueIndex * d.mKeySize + keyIndex).toNat z)
        mDataBounds := ⟨min d.mDataBounds.lower z, max d.mDataBounds.upper z⟩
        mDataModified := true } i
      = (a.set (valueIndex * d.mKeySize + keyIndex).toNat z).getD i.toNat 0 := by
    intro i
    simp [mDataAt, ha]
  have hat0 : ∀ i : Int, mDataAt d i = a.getD i.toNat 0 := by
    intro i
    simp [mDataAt, ha]
  have hsame : (a.set (valueIndex * d.mKeySize + keyIndex).toNat z).getD
      (valueIndex * d.mKeySize + keyIndex).toNat 0 = z := by
    simp [List.getD_eq_getElem?_getD, List.getElem?_set, hidx]
  have hother : ∀ i : Int, 0 ≤ i → i ≠ valueIndex * d.mKeySize + keyIndex →
      (a.set (valueIndex * d.mKeySize + keyIndex).toNat z).getD i.toNat 0
        = a.getD i.toNat 0 := by
    intro i hi hne
    have hne' : (valueIndex * d.mKeySize + keyIndex).toNat ≠ i.toNat := by omega
    simp [List.getD_eq_getElem?_getD, List.getElem?_set, hne']
  refine ⟨⟨a, ha, hidx, by simp [ha]⟩, ?_, ?_, ?_, ?_, rfl, rfl, rfl, rfl, rfl, rfl, rfl⟩
  · rw [hat, hsame]
  · have hin : keyIndex ≥ 0 ∧ keyIndex < d.mKeySize ∧ valueIndex ≥ 0 ∧
        valueIndex < d.mValueSize := ⟨hk0, hk1, hv0, hv1⟩
    simp only [cell, if_pos hin]
    rw [hat, hsame]
  · intro i hi hne
    rw [hat, hat0, hother i hi hne]
  · intro k v hne
    simp only [cell]
    by_cases hin : k ≥ 0 ∧ k < d.mKeySize ∧ v ≥ 0 ∧ v < d.mValueSize
    · rw [if_pos hin, if_pos hin, hat, hat0]
      apply hother
      · have : 0 ≤ v * d.mKeySize := Int.mul_nonneg hin.2.2.1 (by omega)
        omega
      · intro heq
        obtain ⟨h1, h2⟩ := flat_index_injective d.mKeySize k v keyIndex valueIndex
          hin.1 hin.2.1 hk0 hk1 heq
        exact hne (by rw [h1, h2])
    · rw [if_neg hin, if_neg hin]

open QCPColorMapData in
/-- C14: for a field and an index pair with `keyIndex < 0`, `keyIndex ≥ keySize`,
`valueIndex < 0` or `valueIndex ≥ valueSize`, `setCell(keyIndex, valueIndex, z)` leaves
the whole field as it is and `cell(keyIndex, valueIndex)` returns `0`. -/
theorem C14_setCell_outside_ignored (d : QCPColorMapData) (keyIndex valueIndex : Int)
    (z : ℚ)
    (h : keyIndex < 0 ∨ keyIndex ≥ d.mKeySize ∨ valueIndex < 0 ∨
      valueIndex ≥ d.mValueSize) :
    setCell d keyIndex valueIndex z = d ∧ cell d keyIndex valueIndex = 0 := by
  refine ⟨setCell_of_outside d keyIndex valueIndex z h, ?_⟩
  have hout : ¬ (keyIndex ≥ 0 ∧ keyIndex < d.mKeySize ∧ valueIndex ≥ 0 ∧
      valueIndex < d.mValueSize) := by
    rintro ⟨h1, h2, h3, h4⟩
    omega
  simp only [cell, if_neg hout]

open QCPColorMapData in
/-- C15: for every field, key, value and `z`, `setData(key, value, z)` gives the field
that `coordToCell(key, value, &keyIndex, &valueIndex)` followed by
`setCell(keyIndex, valueIndex, z)` gives, whether or not the indices are inside the
field. -/
theorem C15_setData_eq_coordToCell_setCell (d : QCPColorMapData) (key value z : ℚ)
    (keyIndex valueIndex : Int) :
    ∃ k v : Int,
      coordToCell d key value (some keyIndex) (some valueIndex) = (some k, some v) ∧
      setData d key value z = setCell d k v z := by
  exact ⟨_, _, rfl, rfl⟩

/-! ## Coordinates and cells -/

theorem truncToInt_add_half (i : Int) (h : 0 ≤ i) : truncToInt ((i : ℚ) + 1 / 2) = i := by
  have h0 : (0 : ℚ) ≤ (i : ℚ) := by exact_mod_cast h
  rw [truncToInt_of_nonneg (by linarith), Int.floor_eq_iff]
  constructor <;> linarith

namespace QCPColorMapData

/-- For a scaled key coordinate `x ≥ -1/2` the key index of `coordToCell` is the nearest
integer `round x` (halves rounded up). -/
theorem coordToCell_key_of_ge (d : QCPColorMapData) (key value : ℚ) (keyIndex : Int)
    (valueIndex : Option Int)
    (hx : -(1 / 2) ≤ (key - d.mKeyRange.lower) / (d.mKeyRange.upper - d.mKeyRange.lower)
      * ((d.mKeySize - 1 : Int) : ℚ)) :
    (coordToCell d key value (some keyIndex) valueIndex).1
      = some (round ((key - d.mKeyRange.lower) / (d.mKeyRange.upper - d.mKeyRange.lower)
          * ((d.mKeySize - 1 : Int) : ℚ))) := by
  simp only [coordToCell, Option.map_some']
  rw [truncToInt_of_nonneg (by linarith), round_eq]

/-- For a scaled value coordinate `x ≥ -1/2` the value index of `coordToCell` is the
nearest integer `round x` (halves rounded up). -/
theorem coordToCell_value_of_ge (d : QCPColorMapData) (key value : ℚ)
    (keyIndex : Option Int) (valueIndex : Int)
    (hx : -(1 / 2) ≤ (value - d.mValueRange.lower)
      / (d.mValueRange.upper - d.mValueRange.lower) * ((d.mValueSize - 1 : Int) : ℚ)) :
    (coordToCell d key value keyIndex (some valueIndex)).2
      = some (round ((value - d.mValueRange.lower)
          / (d.mValueRange.upper - d.mValueRange.lower)
          * ((d.mValueSize - 1 : Int) : ℚ))) := by
  simp only [coordToCell, Option.map_some']
  rw [truncToInt_of_nonneg (by linarith), round_eq]

/-- The coordinate that `cellToCoord` gives for an index, scaled back by `coordToCell`,
is the index plus one half. -/
theorem scaled_cell_coordinate (i n : Int) (lower upper : ℚ) (hn : 2 ≤ n)
    (hr : upper ≠ lower) :
    ((i : ℚ) / ((n - 1 : Int) : ℚ) * (upper - lower) + lower - lower) / (upper - lower)
      * ((n - 1 : Int) : ℚ) + 1 / 2 = (i : ℚ) + 1 / 2 := by
  have h1 : ((n - 1 : Int) : ℚ) ≠ 0 := by
    have : (n - 1 : Int) ≠ 0 := by omega
    exact_mod_cast this
  have h2 : upper - lower ≠ 0 := sub_ne_zero.mpr hr
  generalize ((n - 1 : Int) : ℚ) = m at h1 ⊢
  field_simp
  ring

end QCPColorMapData

open QCPColorMapData in
/-- C16 evaluated below `keyRange.lower`: in the field with three key cells and the key
range `[0, 2]` the key `-1` has the scaled coordinate `x = -1`, whose nearest integer is
`-1`; `coordToCell` converts `x + 0.5 = -0.5` to `int` by truncation and returns the key
index `0`, and `setData(-1, 0, 7)` writes cell `(0, 0)`, whose centre is the key `0`. -/
theorem C16_coordToCell_below_lower_truncates :
    (threeCellField unitRange).mKeySize = 3 ∧
    (threeCellField unitRange).mKeyRange = ⟨0, 2⟩ ∧
    (threeCellField unitRange).mKeyRange.upper ≠ (threeCellField unitRange).mKeyRange.lower ∧
    ((-1 : ℚ) - 0) / (2 - 0) * (((3 : Int) - 1 : Int) : ℚ) = -1 ∧
    round (-1 : ℚ) = -1 ∧
    coordToCell (threeCellField unitRange) (-1) 0 (some 0) (some 0) = (some 0, some 0) ∧
    (cellToCoord (threeCellField unitRange) 0 0 (some 0) none).1 = some 0 ∧
    (threeCellField unitRange).mData = some [0, 0, 0] ∧
    (setData (threeCellField unitRange) (-1) 0 7).mData = some [7, 0, 0] := by
  decide!

open QCPColorMapData in
/-- C17 (amended): for a field with at least two cells in each dimension and key and
value ranges that are not single points, and every cell `(i, j)` with `0 ≤ i < keySize`
and `0 ≤ j < valueSize`, `cellToCoord` followed by `coordToCell` returns `(i, j)`. -/
theorem C17_cell_coord_roundtrip (d : QCPColorMapData) (i j : Int) (key0 value0 : ℚ)
    (keyIndex0 valueIndex0 : Int)
    (hK : 2 ≤ d.mKeySize) (hV : 2 ≤ d.mValueSize)
    (hkr : d.mKeyRange.upper ≠ d.mKeyRange.lower)
    (hvr : d.mValueRange.upper ≠ d.mValueRange.lower)
    (hi0 : 0 ≤ i) (_hi1 : i < d.mKeySize) (hj0 : 0 ≤ j) (_hj1 : j < d.mValueSize) :
    ∃ key value : ℚ,
      cellToCoord d i j (some key0) (some value0) = (some key, some value) ∧
      coordToCell d key value (some keyIndex0) (some valueIndex0) = (some i, some j) := by
  refine ⟨_, _, rfl, ?_⟩
  simp only [coordToCell, Option.map_some']
  rw [scaled_cell_coordinate i d.mKeySize _ _ hK hkr,
    scaled_cell_coordinate j d.mValueSize _ _ hV hvr,
    truncToInt_add_half i hi0, truncToInt_add_half j hj0]

open QCPColorMapData in
/-- C17 fails as stated: the field of `3 × 2` cells with the key range `[5, 5]` is not
empty and `(0, 0)`, `(1, 0)` are cells of it, but `cellToCoord` gives both the key `5`, and
`coordToCell` at the coordinates of cell `(1, 0)` (where it divides by the width `0` of
the key range) does not return `(1, 0)`. -/
theorem C17_degenerate_range_no_roundtrip :
    degenerateField.mIsEmpty = false ∧
    (0 : Int) ≤ 1 ∧ 1 < degenerateField.mKeySize ∧
    (0 : Int) ≤ 0 ∧ 0 < degenerateField.mValueSize ∧
    cellToCoord degenerateField 0 0 (some 0) (some 0) = (some 5, some 0) ∧
    cellToCoord degenerateField 1 0 (some 0) (some 0) = (some 5, some 0) ∧
    degenerateField.mKeyRange.upper - degenerateField.mKeyRange.lower = 0 ∧
    coordToCell degenerateField 5 0 (some 0) (some 0) ≠ (some 1, some 0) := by
  decide!

open QCPColorMapData in
/-- C18: in a field with `keySize ≥ 2`, `cellToCoord` maps the key index `0` to
`keyRange.lower`, the key index `keySize-1` to `keyRange.upper` and every key index `i`
to `keyRange.lower + i*(keyRange.upper - keyRange.lower)/(keySize-1)`, so consecutive
indices are equally spaced; with `valueSize ≥ 2` the same holds for the value dimension.
In the field with three key cells and key range `[2, 3]` the keys are `2`, `5/2`, `3`. -/
theorem C18_cellToCoord_equally_spaced (d : QCPColorMapData) :
    (2 ≤ d.mKeySize → ∀ (j : Int) (key0 : ℚ) (value : Option ℚ),
      (cellToCoord d 0 j (some key0) value).1 = some d.mKeyRange.lower ∧
      (cellToCoord d (d.mKeySize - 1) j (some key0) value).1 = some d.mKeyRange.upper ∧
      ∀ i : Int, (cellToCoord d i j (some key0) value).1 = some (d.mKeyRange.lower
        + i * ((d.mKeyRange.upper - d.mKeyRange.lower) / ((d.mKeySize - 1 : Int) : ℚ)))) ∧
    (2 ≤ d.mValueSize → ∀ (i : Int) (key : Option ℚ) (value0 : ℚ),
      (cellToCoord d i 0 key (some value0)).2 = some d.mValueRange.lower ∧
      (cellToCoord d i (d.mValueSize - 1) key (some value0)).2
        = some d.mValueRange.upper ∧
      ∀ j : Int, (cellToCoord d i j key (some value0)).2 = some (d.mValueRange.lower
        + j * ((d.mValueRange.upper - d.mValueRange.lower)
          / ((d.mValueSize - 1 : Int) : ℚ)))) ∧
    (sampleField.mKeySize = 3 ∧ sampleField.mKeyRange = ⟨2, 3⟩ ∧
      (cellToCoord sampleField 0 0 (some 0) none).1 = some 2 ∧
      (cellToCoord sampleField 1 0 (some 0) none).1 = some (5 / 2) ∧
      (cellToCoord sampleField 2 0 (some 0) none).1 = some 3) := by
  refine ⟨fun hK j key0 value => ?_, fun hV i key value0 => ?_, by decide!⟩
  · have h1 : ((d.mKeySize - 1 : Int) : ℚ) ≠ 0 := by
      have : (d.mKeySize - 1 : Int) ≠ 0 := by omega
      exact_mod_cast this
    simp only [cellToCoord, Option.map_some', Option.some.injEq]
    refine ⟨by simp, ?_, fun i => by ring⟩
    rw [div_self h1]; ring
  · have h1 : ((d.mValueSize - 1 : Int) : ℚ) ≠ 0 := by
      have : (d.mValueSize - 1 : Int) ≠ 0 := by omega
      exact_mod_cast this
    simp only [cellToCoord, Option.map_some', Option.some.injEq]
    refine ⟨by simp, ?_, fun j => by ring⟩
    rw [div_self h1]; ring

open QCPColorMapData in
/-- C19: in a field of size `(3, 1)` with the key range `[0, 2]` (and a value range that is
not a single point), `coordToCell(1, 0)` yields the indices `(1, 0)`, `cellToCoord(0, 0)`
yields the key `0` and `cellToCoord(2, 0)` yields the key `2`. -/
theorem C19_scenario_three_cells (d : QCPColorMapData) (keyIndex0 valueIndex0 : Int)
    (key0 : ℚ) (value : Option ℚ)
    (hK : d.mKeySize = 3) (hV : d.mValueSize = 1) (hkr : d.mKeyRange = ⟨0, 2⟩)
    (_hvr : d.mValueRange.upper ≠ d.mValueRange.lower) :
    coordToCell d 1 0 (some keyIndex0) (some valueIndex0) = (some 1, some 0) ∧
    (cellToCoord d 0 0 (some key0) value).1 = some 0 ∧
    (cellToCoord d 2 0 (some key0) value).1 = some 2 := by
  have e1 : ((1 : ℚ) - 0) / (2 - 0) * (((3 : Int) - 1 : Int) : ℚ) + 1 / 2
      = ((1 : Int) : ℚ) + 1 / 2 := by norm_num
  have e2 : ((0 : ℚ) - d.mValueRange.lower) / (d.mValueRange.upper - d.mValueRange.lower)
      * (((1 : Int) - 1 : Int) : ℚ) + 1 / 2 = ((0 : Int) : ℚ) + 1 / 2 := by simp
  refine ⟨?_, ?_, ?_⟩
  · simp only [coordToCell, Option.map_some', hK, hV, hkr]
    rw [e1, e2, truncToInt_add_half 1 (by decide), truncToInt_add_half 0 (by decide)]
  · simp [cellToCoord, hK, hkr]
  · simp only [cellToCoord, Option.map_some', hK, hkr, Option.some.injEq]
    norm_num

/-! ## Recalculating the data bounds -/

/-- The scan of `recalculateDataBounds` over the first `n` cells: the running minimum is
the start value or a scanned cell, is at most the start value and at most every scanned
cell; likewise for the running maximum. -/
theorem scan_bounds (r : Nat → ℚ) (h0 : ℚ × ℚ) (n : Nat) :
    ((((List.range n).foldl (fun (h : ℚ × ℚ) i =>
          (if r i < h.1 then r i else h.1, if r i > h.2 then r i else h.2)) h0).1 = h0.1 ∨
        ∃ i, i < n ∧ ((List.range n).foldl (fun (h : ℚ × ℚ) i =>
          (if r i < h.1 then r i else h.1, if r i > h.2 then r i else h.2)) h0).1 = r i) ∧
      ((List.range n).foldl (fun (h : ℚ × ℚ) i =>
          (if r i < h.1 then r i else h.1, if r i > h.2 then r i else h.2)) h0).1 ≤ h0.1 ∧
      ∀ i, i < n → ((List.range n).foldl (fun (h : ℚ × ℚ) i =>
          (if r i < h.1 then r i else h.1, if r i > h.2 then r i else h.2)) h0).1 ≤ r i) ∧
    ((((List.range n).foldl (fun (h : ℚ × ℚ) i =>
          (if r i < h.1 then r i else h.1, if r i > h.2 then r i else h.2)) h0).2 = h0.2 ∨
        ∃ i, i < n ∧ ((List.range n).foldl (fun (h : ℚ × ℚ) i =>
          (if r i < h.1 then r i else h.1, if r i > h.2 then r i else h.2)) h0).2 = r i) ∧
      h0.2 ≤ ((List.range n).foldl (fun (h : ℚ × ℚ) i =>
          (if r i < h.1 then r i else h.1, if r i > h.2 then r i else h.2)) h0).2 ∧
      ∀ i, i < n → r i ≤ ((List.range n).foldl (fun (h : ℚ × ℚ) i =>
          (if r i < h.1 then r i else h.1, if r i > h.2 then r i else h.2)) h0).2) := by
  induction n with
  | zero => simp
  | succ n ih =>
    simp only [List.range_succ, List.foldl_append, List.foldl_cons, List.foldl_nil]
    generalize (List.range n).foldl (fun (h : ℚ × ℚ) i =>
      (if r i < h.1 then r i else h.1, if r i > h.2 then r i else h.2)) h0 = h at ih
    obtain ⟨⟨hmin1, hmin2, hmin3⟩, hmax1, hmax2, hmax3⟩ := ih
    refine ⟨⟨?_, ?_, ?_⟩, ?_, ?_, ?_⟩
    · by_cases hc : r n < h.1
      · rw [if_pos hc]; exact Or.inr ⟨n, by omega, rfl⟩
      · rw [if_neg hc]
        rcases hmin1 with h1 | ⟨i, hi, h1⟩
        · exact Or.inl h1
        · exact Or.inr ⟨i, by omega, h1⟩
    · by_cases hc : r n < h.1
      · rw [if_pos hc]; linarith
      · rw [if_neg hc]; exact hmin2
    · intro i hi
      by_cases hc : r n < h.1
      · rw [if_pos hc]
        rcases Nat.lt_succ_iff_lt_or_eq.mp hi with hlt | heq
        · have := hmin3 i hlt; linarith
        · rw [heq]
      · rw [if_neg hc]
        rcases Nat.lt_succ_iff_lt_or_eq.mp hi with hlt | heq
        · exact hmin3 i hlt
        · rw [heq]; exact not_lt.mp hc
    · by_cases hc : r n > h.2
      · rw [if_pos hc]; exact Or.inr ⟨n, by omega, rfl⟩
      · rw [if_neg hc]
        rcases hmax1 with h1 | ⟨i, hi, h1⟩
        · exact Or.inl h1
        · exact Or.inr ⟨i, by omega, h1⟩
    · by_cases hc : r n > h.2
      · rw [if_pos hc]; linarith
      · rw [if_neg hc]; exact hmax2
    · intro i hi
      by_cases hc : r n > h.2
      · rw [if_pos hc]
        rcases Nat.lt_succ_iff_lt_or_eq.mp hi with hlt | heq
        · have := hmax3 i hlt; linarith
        · rw [heq]
      · rw [if_neg hc]
        rcases Nat.lt_succ_iff_lt_or_eq.mp hi with hlt | heq
        · exact hmax3 i hlt
        · rw [heq]; exact not_lt.mp hc

open QCPColorMapData in
/-- C20: for a field with `keySize > 0` and `valueSize > 0`, after
`recalculateDataBounds()` the lower bound is the minimum of the cells (a cell value that
is at most every cell value) and the upper bound is their maximum, whatever the bounds
were before; on a field with a size that is not positive the call changes nothing. In
both cases the array, the sizes, the ranges and the flags are as before. -/
theorem C20_recalculateDataBounds_exact (d : QCPColorMapData) (hd : Valid d) :
    (0 < d.mKeySize → 0 < d.mValueSize →
      ∃ a, d.mData = some a ∧ a ≠ [] ∧
        (recalculateDataBounds d).mDataBounds.lower ∈ a ∧
        (∀ x ∈ a, (recalculateDataBounds d).mDataBounds.lower ≤ x) ∧
        (recalculateDataBounds d).mDataBounds.upper ∈ a ∧
        (∀ x ∈ a, x ≤ (recalculateDataBounds d).mDataBounds.upper)) ∧
    (¬ (0 < d.mKeySize ∧ 0 < d.mValueSize) → recalculateDataBounds d = d) ∧
    (recalculateDataBounds d).mData = d.mData ∧
    (recalculateDataBounds d).mKeySize = d.mKeySize ∧
    (recalculateDataBounds d).mValueSize = d.mValueSize ∧
    (recalculateDataBounds d).mKeyRange = d.mKeyRange ∧
    (recalculateDataBounds d).mValueRange = d.mValueRange ∧
    (recalculateDataBounds d).mIsEmpty = d.mIsEmpty ∧
    (recalculateDataBounds d).mDataModified = d.mDataModified := by
  have hfields : (recalculateDataBounds d).mData = d.mData ∧
      (recalculateDataBounds d).mKeySize = d.mKeySize ∧
      (recalculateDataBounds d).mValueSize = d.mValueSize ∧
      (recalculateDataBounds d).mKeyRange = d.mKeyRange ∧
      (recalculateDataBounds d).mValueRange = d.mValueRange ∧
      (recalculateDataBounds d).mIsEmpty = d.mIsEmpty ∧
      (recalculateDataBounds d).mDataModified = d.mDataModified := by
    simp only [recalculateDataBounds]
    split <;> exact ⟨rfl, rfl, rfl, rfl, rfl, rfl, rfl⟩
  refine ⟨fun hK hV => ?_, fun hne => ?_, hfields⟩
  · obtain ⟨a, ha, hlen, _⟩ := array_of_valid d 0 0 hd le_rfl hK le_rfl hV
    have hpos : 0 < d.mKeySize * d.mValueSize := Int.mul_pos hK hV
    have hcount : (d.mValueSize * d.mKeySize).toNat = a.length := by
      have e : d.mValueSize * d.mKeySize = d.mKeySize * d.mValueSize := by ring
      omega
    have hlen0 : 0 < a.length := by omega
    have hread : ∀ i : Nat, mDataAt d (i : Int) = a.getD i 0 := by
      intro i
      simp [mDataAt, ha]
    have hread0 : mDataAt d 0 = a.getD 0 0 := hread 0
    have hmem : ∀ i : Nat, i < a.length → a.getD i 0 ∈ a := by
      intro i hi
      rw [List.getD_eq_getElem?_getD, List.getElem?_eq_getElem hi]
      exact List.getElem_mem hi
    have hall : ∀ x ∈ a, ∃ i : Nat, i < a.length ∧ a.getD i 0 = x := by
      intro x hx
      obtain ⟨i, hi, rfl⟩ := List.mem_iff_getElem.mp hx
      exact ⟨i, hi, by rw [List.getD_eq_getElem?_getD, List.getElem?_eq_getElem hi]; rfl⟩
    have hin : d.mKeySize > 0 ∧ d.mValueSize > 0 := ⟨hK, hV⟩
    have hscan := scan_bounds (fun i => a.getD i 0) (a.getD 0 0, a.getD 0 0) a.length
    refine ⟨a, ha, List.ne_nil_of_length_pos hlen0, ?_⟩
    simp only [recalculateDataBounds, if_pos hin, hcount, hread, hread0]
    obtain ⟨⟨hmin1, hmin2, hmin3⟩, hmax1, hmax2, hmax3⟩ := hscan
    refine ⟨?_, ?_, ?_, ?_⟩
    · rcases hmin1 with h1 | ⟨i, hi, h1⟩
      · rw [h1]; exact hmem 0 hlen0
      · rw [h1]; exact hmem i hi
    · intro x hx
      obtain ⟨i, hi, rfl⟩ := hall x hx
      exact hmin3 i hi
    · rcases hmax1 with h1 | ⟨i, hi, h1⟩
      · rw [h1]; exact hmem 0 hlen0
      · rw [h1]; exact hmem i hi
    · intro x hx
      obtain ⟨i, hi, rfl⟩ := hall x hx
      exact hmax3 i hi
  · have hout : ¬ (d.mKeySize > 0 ∧ d.mValueSize > 0) := hne
    simp only [recalculateDataBounds, if_neg hout]

/-! ## The statements on fields at concrete fields -/

open QCPColorMapData in
theorem C13_setCell_writes_cell_witness :
    (∃ a, sampleField.mData = some a ∧
      ((1 : Int) * sampleField.mKeySize + 1).toNat < a.length ∧
      (setCell sampleField 1 1 9).mData
        = some (a.set ((1 : Int) * sampleField.mKeySize + 1).toNat 9)) ∧
    mDataAt (setCell sampleField 1 1 9) (1 * sampleField.mKeySize + 1) = 9 ∧
    cell (setCell sampleField 1 1 9) 1 1 = 9 ∧
    (∀ i : Int, 0 ≤ i → i ≠ 1 * sampleField.mKeySize + 1 →
      mDataAt (setCell sampleField 1 1 9) i = mDataAt sampleField i) ∧
    (∀ k v : Int, (k, v) ≠ (1, 1) →
      cell (setCell sampleField 1 1 9) k v = cell sampleField k v) ∧
    (setCell sampleField 1 1 9).mKeySize = sampleField.mKeySize ∧
    (setCell sampleField 1 1 9).mValueSize = sampleField.mValueSize ∧
    (setCell sampleField 1 1 9).mKeyRange = sampleField.mKeyRange ∧
    (setCell sampleField 1 1 9).mValueRange = sampleField.mValueRange ∧
    (setCell sampleField 1 1 9).mIsEmpty = sampleField.mIsEmpty ∧
    (setCell sampleField 1 1 9).mDataBounds
      = ⟨min sampleField.mDataBounds.lower 9, max sampleField.mDataBounds.upper 9⟩ ∧
    (setCell sampleField 1 1 9).mDataModified = true :=
  C13_setCell_writes_cell sampleField 1 1 9 (by decide!) (by decide!) (by decide!)
    (by decide!) (by decide!)

open QCPColorMapData in
theorem C14_setCell_outside_ignored_witness :
    setCell sampleField 3 0 9 = sampleField ∧ cell sampleField 3 0 = 0 :=
  C14_setCell_outside_ignored sampleField 3 0 9 (by decide!)

open QCPColorMapData in
theorem C17_cell_coord_roundtrip_witness :
    ∃ key value : ℚ,
      cellToCoord sampleField 2 1 (some 0) (some 0) = (some key, some value) ∧
      coordToCell sampleField key value (some 0) (some 0) = (some 2, some 1) :=
  C17_cell_coord_roundtrip sampleField 2 1 0 0 0 0 (by decide!) (by decide!) (by decide!)
    (by decide!) (by decide!) (by decide!) (by decide!) (by decide!)

open QCPColorMapData in
theorem C18_cellToCoord_equally_spaced_witness :
    (∀ (j : Int) (key0 : ℚ) (value : Option ℚ),
      (cellToCoord sampleField 0 j (some key0) value).1 = some sampleField.mKeyRange.lower ∧
      (cellToCoord sampleField (sampleField.mKeySize - 1) j (some key0) value).1
        = some sampleField.mKeyRange.upper ∧
      ∀ i : Int, (cellToCoord sampleField i j (some key0) value).1
        = some (sampleField.mKeyRange.lower
          + i * ((sampleField.mKeyRange.upper - sampleField.mKeyRange.lower)
            / ((sampleField.mKeySize - 1 : Int) : ℚ)))) ∧
    (∀ (i : Int) (key : Option ℚ) (value0 : ℚ),
      (cellToCoord sampleField i 0 key (some value0)).2
        = some sampleField.mValueRange.lower ∧
      (cellToCoord sampleField i (sampleField.mValueSize - 1) key (some value0)).2
        = some sampleField.mValueRange.upper ∧
      ∀ j : Int, (cellToCoord sampleField i j key (some value0)).2
        = some (sampleField.mValueRange.lower
          + j * ((sampleField.mValueRange.upper - sampleField.mValueRange.lower)
            / ((sampleField.mValueSize - 1 : Int) : ℚ)))) :=
  ⟨(C18_cellToCoord_equally_spaced sampleField).1 (by decide!),
    (C18_cellToCoord_equally_spaced sampleField).2.1 (by decide!)⟩

open QCPColorMapData in
theorem C19_scenario_three_cells_witness :
    coordToCell (threeCellField unitRange) 1 0 (some 0) (some 0) = (some 1, some 0) ∧
    (cellToCoord (threeCellField unitRange) 0 0 (some 0) none).1 = some 0 ∧
    (cellToCoord (threeCellField unitRange) 2 0 (some 0) none).1 = some 2 :=
  C19_scenario_three_cells (threeCellField unitRange) 0 0 0 none (by decide!) (by decide!)
    (by decide!) (by decide!)

open QCPColorMapData in
theorem C20_recalculateDataBounds_exact_witness :
    (0 < (setCell sampleField 2 1 1).mKeySize → 0 < (setCell sampleField 2 1 1).mValueSize →
      ∃ a, (setCell sampleField 2 1 1).mData = some a ∧ a ≠ [] ∧
        (recalculateDataBounds (setCell sampleField 2 1 1)).mDataBounds.lower ∈ a ∧
        (∀ x ∈ a, (recalculateDataBounds (setCell sampleField 2 1 1)).mDataBounds.lower ≤ x) ∧
        (recalculateDataBounds (setCell sampleField 2 1 1)).mDataBounds.upper ∈ a ∧
        (∀ x ∈ a,
          x ≤ (recalculateDataBounds (setCell sampleField 2 1 1)).mDataBounds.upper)) ∧
    (¬ (0 < (setCell sampleField 2 1 1).mKeySize ∧
        0 < (setCell sampleField 2 1 1).mValueSize) →
      recalculateDataBounds (setCell sampleField 2 1 1) = setCell sampleField 2 1 1) ∧
    (recalculateDataBounds (setCell sampleField 2 1 1)).mData
      = (setCell sampleField 2 1 1).mData ∧
    (recalculateDataBounds (setCell sampleField 2 1 1)).mKeySize
      = (setCell sampleField 2 1 1).mKeySize ∧
    (recalculateDataBounds (setCell sampleField 2 1 1)).mValueSize
      = (setCell sampleField 2 1 1).mValueSize ∧
    (recalculateDataBounds (setCell sampleField 2 1 1)).mKeyRange
      = (setCell sampleField 2 1 1).mKeyRange ∧
    (recalculateDataBounds (setCell sampleField 2 1 1)).mValueRange
      = (setCell sampleField 2 1 1).mValueRange ∧
    (recalculateDataBounds (setCell sampleField 2 1 1)).mIsEmpty
      = (setCell sampleField 2 1 1).mIsEmpty ∧
    (recalculateDataBounds (setCell sampleField 2 1 1)).mDataModified
      = (setCell sampleField 2 1 1).mDataModified :=
  C20_recalculateDataBounds_exact (setCell sampleField 2 1 1) (by decide!)

/-! ## Filling and resizing a field -/

/-- Writing `z` to the cells `0, ..., length-1` of an array makes every cell `z`. -/
theorem foldl_set_const (a : List ℚ) (z : ℚ) (n : Nat) (h : n = a.length) :
    (List.range n).foldl (fun a i => a.set i z) a = List.replicate a.length z := by
  apply List.ext_getElem?
  intro i
  have h1 := foldl_set_getElem? (fun _ => z) n a i
  simp only at h1
  rw [h1, List.getElem?_replicate]
  by_cases hi : i < a.length
  · simp [hi, h]
  · simp only [hi, and_false, if_false]
    exact List.getElem?_eq_none (by omega)

namespace QCPColorMapData

/-- A loop of writes `mData[i] = z` changes the array only. -/
theorem foldl_mDataSet (z : ℚ) (l : List Nat) :
    ∀ d : QCPColorMapData,
      l.foldl (fun d (i : Nat) => mDataSet d i z) d
        = { d with mData := d.mData.map (fun a => l.foldl (fun a i => a.set i z) a) } := by
  induction l with
  | nil =>
    intro d
    cases d with
    | mk K V kr vr e data b m => cases data <;> rfl
  | cons x xs ih =>
    intro d
    rw [List.foldl_cons, ih]
    cases d with
    | mk K V kr vr e data b m => cases data <;> simp [mDataSet]

/-- Closed form of `fill`. -/
theorem fill_eq (d : QCPColorMapData) (z : ℚ) :
    fill d z = { d with
      mData := d.mData.map (fun a =>
        (List.range (d.mValueSize * d.mKeySize).toNat).foldl (fun a i => a.set i z) a)
      mDataBounds := ⟨z, z⟩ } := by
  simp only [fill, foldl_mDataSet]

/-- On a valid field `fill` makes every cell of the array `z`. -/
theorem fill_of_valid (d : QCPColorMapData) (z : ℚ) (hd : Valid d) :
    fill d z = { d with
      mData := d.mData.map (fun a => List.replicate a.length z)
      mDataBounds := ⟨z, z⟩ } := by
  rw [fill_eq]
  obtain ⟨_, _, _, hm⟩ := hd
  cases hdata : d.mData with
  | none => simp
  | some a =>
    rw [hdata] at hm
    simp only at hm
    have hn : (d.mValueSize * d.mKeySize).toNat = a.length := by
      have e : d.mValueSize * d.mKeySize = d.mKeySize * d.mValueSize := by ring
      omega
    simp only [Option.map_some']
    rw [foldl_set_const a z _ hn]

/-- A call of `setSize` with the current size does nothing. -/
theorem setSize_of_same (d : QCPColorMapData) (keySize valueSize : Int)
    (h : keySize = d.mKeySize ∧ valueSize = d.mValueSize) :
    setSize d keySize valueSize = d := by
  have hn : ¬ (keySize ≠ d.mKeySize ∨ valueSize ≠ d.mValueSize) := by
    rintro (h1 | h1)
    · exact h1 h.1
    · exact h1 h.2
  simp only [setSize, if_neg hn]

/-- A call of `setSize` with a new size in which a dimension is zero frees the array and
leaves the bounds alone. -/
theorem setSize_to_empty (d : QCPColorMapData) (keySize valueSize : Int)
    (h : keySize ≠ d.mKeySize ∨ valueSize ≠ d.mValueSize)
    (he : keySize = 0 ∨ valueSize = 0) :
    setSize d keySize valueSize =
      { mKeySize := keySize
        mValueSize := valueSize
        mKeyRange := d.mKeyRange
        mValueRange := d.mValueRange
        mIsEmpty := true
        mData := none
        mDataBounds := d.mDataBounds
        mDataModified := true } := by
  simp only [setSize, if_pos h]
  rcases he with he | he <;> simp [he]

/-- A call of `setSize` with a new size in which no dimension is zero allocates an array
of zeros and resets the bounds to `(0, 0)`. -/
theorem setSize_to_nonempty (d : QCPColorMapData) (keySize valueSize : Int)
    (h : keySize ≠ d.mKeySize ∨ valueSize ≠ d.mValueSize)
    (hK : keySize ≠ 0) (hV : valueSize ≠ 0) :
    setSize d keySize valueSize =
      { mKeySize := keySize
        mValueSize := valueSize
        mKeyRange := d.mKeyRange
        mValueRange := d.mValueRange
        mIsEmpty := false
        mData := some (List.replicate (keySize * valueSize).toNat 0)
        mDataBounds := ⟨0, 0⟩
        mDataModified := true } := by
  have hn : (valueSize * keySize).toNat
      = (List.replicate (keySize * valueSize).toNat (0 : ℚ)).length := by
    rw [List.length_replicate, mul_comm]
  simp only [setSize, if_pos h, hK, hV, decide_False, Bool.or_self, Bool.not_false,
    if_true, newArray, Option.isSome_some, fill_eq, Option.map_some']
  rw [foldl_set_const _ 0 _ hn, List.length_replicate]

end QCPColorMapData

open QCPColorMapData in
/-- C24: for every field (its array having `keySize*valueSize` cells) and every `z`, after
`fill(z)` every cell of the array is `z`, `cell(k, v)` returns `z` for every cell of the
field, and the bounds are `(z, z)`; sizes, ranges and flags are as before. -/
theorem C24_fill_sets_all_cells (d : QCPColorMapData) (z : ℚ) (hd : Valid d) :
    (fill d z).mData = d.mData.map (fun a => List.replicate a.length z) ∧
    (∀ a, (fill d z).mData = some a → ∀ x ∈ a, x = z) ∧
    (∀ k v : Int, 0 ≤ k → k < d.mKeySize → 0 ≤ v → v < d.mValueSize →
      cell (fill d z) k v = z) ∧
    (fill d z).mDataBounds = ⟨z, z⟩ ∧
    (fill d z).mKeySize = d.mKeySize ∧
    (fill d z).mValueSize = d.mValueSize ∧
    (fill d z).mKeyRange = d.mKeyRange ∧
    (fill d z).mValueRange = d.mValueRange ∧
    (fill d z).mIsEmpty = d.mIsEmpty ∧
    (fill d z).mDataModified = d.mDataModified := by
  rw [fill_of_valid d z hd]
  refine ⟨rfl, ?_, ?_, rfl, rfl, rfl, rfl, rfl, rfl, rfl⟩
  · intro a ha x hx
    cases hdata : d.mData with
    | none => simp [hdata] at ha
    | some a0 =>
      simp only [hdata, Option.map_some', Option.some.injEq] at ha
      rw [← ha] at hx
      exact List.eq_of_mem_replicate hx
  · intro k v hk0 hk1 hv0 hv1
    obtain ⟨a, ha, hlen, hidx⟩ := array_of_valid d k v hd hk0 hk1 hv0 hv1
    have hin : k ≥ 0 ∧ k < d.mKeySize ∧ v ≥ 0 ∧ v < d.mValueSize := ⟨hk0, hk1, hv0, hv1⟩
    simp only [cell, if_pos hin, mDataAt, ha, Option.map_some']
    rw [List.getD_eq_getElem?_getD, List.getElem?_replicate, if_pos hidx]
    rfl

open QCPColorMapData in
/-- C25: for every field and all sizes `keySize, valueSize ≥ 0`: `setSize` with the
current size leaves the field as it is; with another size the field gets the new
dimensions, the modified flag is set, the ranges are kept, and when both sizes are
positive the array consists of `keySize*valueSize` cells that are all `0` (so every
`cell(k, v)` is `0`), while with a zero size the array is freed. -/
theorem C25_setSize_discards_and_zeroes (d : QCPColorMapData) (keySize valueSize : Int)
    (_hK : 0 ≤ keySize) (_hV : 0 ≤ valueSize) :
    (keySize = d.mKeySize ∧ valueSize = d.mValueSize → setSize d keySize valueSize = d) ∧
    (keySize ≠ d.mKeySize ∨ valueSize ≠ d.mValueSize →
      (setSize d keySize valueSize).mKeySize = keySize ∧
      (setSize d keySize valueSize).mValueSize = valueSize ∧
      (setSize d keySize valueSize).mKeyRange = d.mKeyRange ∧
      (setSize d keySize valueSize).mValueRange = d.mValueRange ∧
      (setSize d keySize valueSize).mDataModified = true ∧
      (isEmpty (setSize d keySize valueSize) = true ↔ keySize = 0 ∨ valueSize = 0) ∧
      (0 < keySize → 0 < valueSize →
        (setSize d keySize valueSize).mData
          = some (List.replicate (keySize * valueSize).toNat 0) ∧
        ∀ k v : Int, cell (setSize d keySize valueSize) k v = 0) ∧
      (keySize = 0 ∨ valueSize = 0 → (setSize d keySize valueSize).mData = none)) := by
  refine ⟨setSize_of_same d keySize valueSize, fun hne => ?_⟩
  by_cases he : keySize = 0 ∨ valueSize = 0
  · rw [setSize_to_empty d keySize valueSize hne he]
    refine ⟨rfl, rfl, rfl, rfl, rfl, ?_, ?_, fun _ => rfl⟩
    · simp [isEmpty, he]
    · intro h1 h2
      omega
  · have hK0 : keySize ≠ 0 := fun h => he (Or.inl h)
    have hV0 : valueSize ≠ 0 := fun h => he (Or.inr h)
    rw [setSize_to_nonempty d keySize valueSize hne hK0 hV0]
    refine ⟨rfl, rfl, rfl, rfl, rfl, ?_, ?_, fun h => absurd h he⟩
    · simp [isEmpty, he]
    · intro _ _
      refine ⟨rfl, fun k v => ?_⟩
      simp only [cell, mDataAt]
      split
      · rw [List.getD_eq_getElem?_getD, List.getElem?_replicate]
        split <;> rfl
      · rfl

open QCPColorMapData in
/-- C26 (amended): for every field and every size with positive entries that differs from
the current size, after `setSize` the bounds are `(0, 0)`; after `setSize` to a different
size with a zero entry, and so after `clear()` on a field whose size is not `(0, 0)`, the
bounds are the ones the field had before. -/
theorem C26_setSize_bounds (d : QCPColorMapData) (keySize valueSize : Int)
    (hne : keySize ≠ d.mKeySize ∨ valueSize ≠ d.mValueSize) :
    (0 < keySize → 0 < valueSize → (setSize d keySize valueSize).mDataBounds = ⟨0, 0⟩) ∧
    (keySize = 0 ∨ valueSize = 0 →
      (setSize d keySize valueSize).mDataBounds = d.mDataBounds) ∧
    (clear d = setSize d 0 0) ∧
    (d.mKeySize ≠ 0 ∨ d.mValueSize ≠ 0 → (clear d).mDataBounds = d.mDataBounds) := by
  refine ⟨fun hK hV => ?_, fun he => ?_, rfl, fun h0 => ?_⟩
  · rw [setSize_to_nonempty d keySize valueSize hne (by omega) (by omega)]
  · rw [setSize_to_empty d keySize valueSize hne he]
  · have h1 : (0 : Int) ≠ d.mKeySize ∨ (0 : Int) ≠ d.mValueSize := by
      rcases h0 with h | h
      · exact Or.inl (fun e => h e.symm)
      · exact Or.inr (fun e => h e.symm)
    simp only [clear]
    rw [setSize_to_empty d 0 0 h1 (Or.inl rfl)]

open QCPColorMapData in
/-- C26 fails as stated: the field of `3 × 2` cells holding `0, ..., 5` has the bounds
`(0, 5)`; `clear()`, which is `setSize(0, 0)` with a size different from the current one,
leaves the bounds `(0, 5)`, and so does `setSize(0, 2)`. -/
theorem C26_clear_keeps_bounds :
    sampleField.mKeySize = 3 ∧ sampleField.mValueSize = 2 ∧
    sampleField.mDataBounds = ⟨0, 5⟩ ∧
    clear sampleField = setSize sampleField 0 0 ∧
    (clear sampleField).mIsEmpty = true ∧
    (clear sampleField).mDataBounds = ⟨0, 5⟩ ∧
    (clear sampleField).mDataBounds ≠ ⟨0, 0⟩ ∧
    (setSize sampleField 0 2).mDataBounds = ⟨0, 5⟩ := by
  decide!

/-! ## The class invariant of a field and assignment -/

/-- Copying the cells `0, ..., length-1` of an array of the same length gives that array. -/
theorem foldl_set_copy (a b : List ℚ) (n : Nat) (ha : n = a.length) (hb : n = b.length) :
    (List.range n).foldl (fun a (i : Nat) => a.set i (b.getD i 0)) a = b := by
  apply List.ext_getElem?
  intro i
  rw [foldl_set_getElem? (fun i => b.getD i 0) n a i]
  by_cases hi : i < n
  · have h1 : i < a.length := by omega
    have h2 : i < b.length := by omega
    simp [hi, h1, List.getD_eq_getElem?_getD, List.getElem?_eq_getElem h2]
  · have h1 : ¬ (i < n ∧ i < a.length) := fun h => hi h.1
    rw [if_neg h1, List.getElem?_eq_none (by omega), List.getElem?_eq_none (by omega)]

namespace QCPColorMapData

theorem valid_setSize (d : QCPColorMapData) (keySize valueSize : Int)
    (hK : 0 ≤ keySize) (hV : 0 ≤ valueSize) (hd : Valid d) :
    Valid (setSize d keySize valueSize) := by
  by_cases hne : keySize ≠ d.mKeySize ∨ valueSize ≠ d.mValueSize
  · by_cases he : keySize = 0 ∨ valueSize = 0
    · rw [setSize_to_empty d keySize valueSize hne he]
      refine ⟨hK, hV, ?_, ?_⟩
      · rcases he with he | he <;> simp [he]
      · rfl
    · have hK0 : keySize ≠ 0 := fun h => he (Or.inl h)
      have hV0 : valueSize ≠ 0 := fun h => he (Or.inr h)
      rw [setSize_to_nonempty d keySize valueSize hne hK0 hV0]
      refine ⟨hK, hV, ?_, ?_⟩
      · simp [hK0, hV0]
      · refine ⟨rfl, ?_⟩
        have : 0 ≤ keySize * valueSize := Int.mul_nonneg hK hV
        simp only [List.length_replicate]
        omega
  · have hsame : keySize = d.mKeySize ∧ valueSize = d.mValueSize := by
      constructor
      · by_contra h; exact hne (Or.inl h)
      · by_contra h; exact hne (Or.inr h)
    rw [setSize_of_same d keySize valueSize hsame]
    exact hd

theorem setSize_sizes (d : QCPColorMapData) (keySize valueSize : Int) :
    (setSize d keySize valueSize).mKeySize = keySize ∧
    (setSize d keySize valueSize).mValueSize = valueSize ∧
    (setSize d keySize valueSize).mKeyRange = d.mKeyRange ∧
    (setSize d keySize valueSize).mValueRange = d.mValueRange := by
  by_cases hne : keySize ≠ d.mKeySize ∨ valueSize ≠ d.mValueSize
  · by_cases he : keySize = 0 ∨ valueSize = 0
    · rw [setSize_to_empty d keySize valueSize hne he]
      exact ⟨rfl, rfl, rfl, rfl⟩
    · have hK0 : keySize ≠ 0 := fun h => he (Or.inl h)
      have hV0 : valueSize ≠ 0 := fun h => he (Or.inr h)
      rw [setSize_to_nonempty d keySize valueSize hne hK0 hV0]
      exact ⟨rfl, rfl, rfl, rfl⟩
  · have hsame : keySize = d.mKeySize ∧ valueSize = d.mValueSize := by
      constructor
      · by_contra h; exact hne (Or.inl h)
      · by_contra h; exact hne (Or.inr h)
    rw [setSize_of_same d keySize valueSize hsame]
    exact ⟨hsame.1.symm, hsame.2.symm, rfl, rfl⟩

theorem valid_fill (d : QCPColorMapData) (z : ℚ) (hd : Valid d) : Valid (fill d z) := by
  rw [fill_of_valid d z hd]
  obtain ⟨h1, h2, h3, h4⟩ := hd
  refine ⟨h1, h2, h3, ?_⟩
  cases hdata : d.mData with
  | none =>
    rw [hdata] at h4
    simpa using h4
  | some a =>
    rw [hdata] at h4
    simpa using h4

theorem valid_setCell (d : QCPColorMapData) (keyIndex valueIndex : Int) (z : ℚ)
    (hd : Valid d) : Valid (setCell d keyIndex valueIndex z) := by
  by_cases hin : keyIndex ≥ 0 ∧ keyIndex < d.mKeySize ∧ valueIndex ≥ 0 ∧
      valueIndex < d.mValueSize
  · rw [setCell_of_inside d keyIndex valueIndex z hin.1 hin.2.1 hin.2.2.1 hin.2.2.2]
    obtain ⟨h1, h2, h3, h4⟩ := hd
    refine ⟨h1, h2, h3, ?_⟩
    cases hdata : d.mData with
    | none =>
      rw [hdata] at h4
      simpa using h4
    | some a =>
      rw [hdata] at h4
      simpa using h4
  · simp only [setCell, if_neg hin]
    exact hd

theorem setData_eq_setCell (d : QCPColorMapData) (key value z : ℚ) :
    setData d key value z = setCell d
      (truncToInt ((key - d.mKeyRange.lower) / (d.mKeyRange.upper - d.mKeyRange.lower)
        * ((d.mKeySize - 1 : Int) : ℚ) + 1 / 2))
      (truncToInt ((value - d.mValueRange.lower)
        / (d.mValueRange.upper - d.mValueRange.lower)
        * ((d.mValueSize - 1 : Int) : ℚ) + 1 / 2)) z := rfl

theorem recalculateDataBounds_fields (d : QCPColorMapData) :
    (recalculateDataBounds d).mData = d.mData ∧
    (recalculateDataBounds d).mKeySize = d.mKeySize ∧
    (recalculateDataBounds d).mValueSize = d.mValueSize ∧
    (recalculateDataBounds d).mKeyRange = d.mKeyRange ∧
    (recalculateDataBounds d).mValueRange = d.mValueRange ∧
    (recalculateDataBounds d).mIsEmpty = d.mIsEmpty ∧
    (recalculateDataBounds d).mDataModified = d.mDataModified := by
  simp only [recalculateDataBounds]
  split <;> exact ⟨rfl, rfl, rfl, rfl, rfl, rfl, rfl⟩

theorem valid_recalculateDataBounds (d : QCPColorMapData) (hd : Valid d) :
    Valid (recalculateDataBounds d) := by
  obtain ⟨e1, e2, e3, _, _, e6, _⟩ := recalculateDataBounds_fields d
  unfold Valid at *
  rw [e1, e2, e3, e6]
  exact hd

/-- After `recalculateDataBounds` on a field with positive sizes the bounds are exact. -/
theorem recalculateDataBounds_exact (d : QCPColorMapData) (hd : Valid d)
    (hK : 0 < d.mKeySize) (hV : 0 < d.mValueSize) :
    ExactBounds (recalculateDataBounds d) := by
  obtain ⟨a, ha, hlen, _⟩ := array_of_valid d 0 0 hd le_rfl hK le_rfl hV
  have hpos : 0 < d.mKeySize * d.mValueSize := Int.mul_pos hK hV
  have hcount : (d.mValueSize * d.mKeySize).toNat = a.length := by
    have e : d.mValueSize * d.mKeySize = d.mKeySize * d.mValueSize := by ring
    omega
  have hlen0 : 0 < a.length := by omega
  have hread : ∀ i : Nat, mDataAt d (i : Int) = a.getD i 0 := by
    intro i
    simp [mDataAt, ha]
  have hread0 : mDataAt d 0 = a.getD 0 0 := hread 0
  have hmem : ∀ i : Nat, i < a.length → a.getD i 0 ∈ a := by
    intro i hi
    rw [List.getD_eq_getElem?_getD, List.getElem?_eq_getElem hi]
    exact List.getElem_mem hi
  have hall : ∀ x ∈ a, ∃ i : Nat, i < a.length ∧ a.getD i 0 = x := by
    intro x hx
    obtain ⟨i, hi, rfl⟩ := List.mem_iff_getElem.mp hx
    exact ⟨i, hi, by rw [List.getD_eq_getElem?_getD, List.getElem?_eq_getElem hi]; rfl⟩
  have hin : d.mKeySize > 0 ∧ d.mValueSize > 0 := ⟨hK, hV⟩
  obtain ⟨⟨hmin1, _, hmin3⟩, hmax1, _, hmax3⟩ :=
    scan_bounds (fun i => a.getD i 0) (a.getD 0 0, a.getD 0 0) a.length
  refine ⟨a, by rw [(recalculateDataBounds_fields d).1, ha], ?_⟩
  simp only [recalculateDataBounds, if_pos hin, hcount, hread, hread0]
  refine ⟨?_, ?_, ?_, ?_⟩
  · rcases hmin1 with h1 | ⟨i, hi, h1⟩
    · rw [h1]; exact hmem 0 hlen0
    · rw [h1]; exact hmem i hi
  · intro x hx
    obtain ⟨i, hi, rfl⟩ := hall x hx
    exact hmin3 i hi
  · rcases hmax1 with h1 | ⟨i, hi, h1⟩
    · rw [h1]; exact hmem 0 hlen0
    · rw [h1]; exact hmem i hi
  · intro x hx
    obtain ⟨i, hi, rfl⟩ := hall x hx
    exact hmax3 i hi

/-- An empty valid field has no array, a valid field that is not empty has one. -/
theorem data_of_valid (d : QCPColorMapData) (hd : Valid d) :
    (d.mIsEmpty = true → d.mData = none) ∧
    (d.mIsEmpty = false → ∃ a, d.mData = some a ∧
      (a.length : Int) = d.mKeySize * d.mValueSize) := by
  obtain ⟨_, _, _, hm⟩ := hd
  cases hdata : d.mData with
  | none =>
    rw [hdata] at hm
    simp only at hm
    exact ⟨fun _ => rfl, fun h => by rw [hm] at h; exact absurd h (by decide)⟩
  | some a =>
    rw [hdata] at hm
    simp only at hm
    exact ⟨fun h => by rw [hm.1] at h; exact absurd h (by decide), fun _ => ⟨a, rfl, hm.2⟩⟩

/-- Assignment from another object gives that object's state with the modified flag set. -/
theorem operatorAssign_of_valid (this other : QCPColorMapData) (ht : Valid this)
    (ho : Valid other) :
    operatorAssign this other false = { other with mDataModified := true } := by
  have hv := valid_setSize this other.mKeySize other.mValueSize ho.1 ho.2.1 ht
  obtain ⟨s1, s2, _, _⟩ := setSize_sizes this other.mKeySize other.mValueSize
  generalize hd : setSize this other.mKeySize other.mValueSize = d at hv s1 s2
  have hempty : d.mIsEmpty = other.mIsEmpty := by
    rw [hv.2.2.1, ho.2.2.1, s1, s2]
  have hdata : (if (!d.mIsEmpty) = true then memcpy d.mData other.mData
      (other.mKeySize * other.mValueSize) else d.mData) = other.mData := by
    cases he : d.mIsEmpty with
    | true =>
      simp only [Bool.not_true, Bool.false_eq_true, if_false]
      rw [(data_of_valid d hv).1 he, (data_of_valid other ho).1 (hempty ▸ he)]
    | false =>
      simp only [Bool.not_false, if_true]
      obtain ⟨a, ha, hla⟩ := (data_of_valid d hv).2 he
      obtain ⟨b, hb, hlb⟩ := (data_of_valid other ho).2 (hempty ▸ he)
      rw [s1, s2] at hla
      have h0 : 0 ≤ other.mKeySize * other.mValueSize := Int.mul_nonneg ho.1 ho.2.1
      simp only [memcpy, ha, hb, Option.map_some', Option.getD_some]
      rw [foldl_set_copy a b _ (by omega) (by omega)]
  have hres : operatorAssign this other false =
      { mKeySize := d.mKeySize
        mValueSize := d.mValueSize
        mKeyRange := other.mKeyRange
        mValueRange := other.mValueRange
        mIsEmpty := d.mIsEmpty
        mData := (if (!d.mIsEmpty) = true then memcpy d.mData other.mData
          (other.mKeySize * other.mValueSize) else d.mData)
        mDataBounds := other.mDataBounds
        mDataModified := true } := by
    simp only [operatorAssign, Bool.not_false, if_true, setRange, setKeyRange,
      setValueRange, hd]
    cases he : d.mIsEmpty <;> simp
  rw [hres, hdata, s1, s2, hempty]

end QCPColorMapData

namespace QCPColorMapData

theorem valid_mk' (keySize valueSize : Int) (keyRange valueRange : QCPRange)
    (hK : 0 ≤ keySize) (hV : 0 ≤ valueSize) :
    Valid (mk' keySize valueSize keyRange valueRange) := by
  apply valid_fill
  apply valid_setSize _ _ _ hK hV
  exact ⟨le_rfl, le_rfl, rfl, rfl⟩

theorem valid_operatorAssign (this other : QCPColorMapData) (sameObject : Bool)
    (ht : Valid this) (ho : Valid other) : Valid (operatorAssign this other sameObject) := by
  cases sameObject with
  | true => exact ht
  | false =>
    rw [operatorAssign_of_valid this other ht ho]
    exact ho

theorem valid_mkCopy (other : QCPColorMapData) (ho : Valid other) :
    Valid (mkCopy other) :=
  valid_operatorAssign _ other false ⟨le_rfl, le_rfl, rfl, rfl⟩ ho

/-- Every field the class produces satisfies the class invariant. -/
theorem valid_of_reachable (d : QCPColorMapData) (h : Reachable d) : Valid d := by
  induction h with
  | construct K V kr vr hK hV => exact valid_mk' K V kr vr hK hV
  | copy other _ ih => exact valid_mkCopy other ih
  | assign this other same _ _ _ ih1 ih2 => exact valid_operatorAssign this other same ih1 ih2
  | setSize d K V _ hK hV ih => exact valid_setSize d K V hK hV ih
  | setKeySize d K _ hK ih => exact valid_setSize d K d.mValueSize hK ih.2.1 ih
  | setValueSize d V _ hV ih => exact valid_setSize d d.mKeySize V ih.1 hV ih
  | setRange d kr vr _ ih => exact ih
  | setKeyRange d kr _ ih => exact ih
  | setValueRange d vr _ ih => exact ih
  | setData d key value z _ ih =>
    rw [setData_eq_setCell]
    exact valid_setCell d _ _ z ih
  | setCell d k v z _ ih => exact valid_setCell d k v z ih
  | recalculateDataBounds d _ ih => exact valid_recalculateDataBounds d ih
  | clear d _ ih => exact valid_setSize d 0 0 le_rfl le_rfl ih
  | fill d z _ ih => exact valid_fill d z ih
  | imageUpdated d _ ih => exact ih

theorem encloses_setSize (d : QCPColorMapData) (keySize valueSize : Int)
    (hd : Encloses d) : Encloses (setSize d keySize valueSize) := by
  by_cases hne : keySize ≠ d.mKeySize ∨ valueSize ≠ d.mValueSize
  · by_cases he : keySize = 0 ∨ valueSize = 0
    · rw [setSize_to_empty d keySize valueSize hne he]
      intro a ha
      simp at ha
    · have hK0 : keySize ≠ 0 := fun h => he (Or.inl h)
      have hV0 : valueSize ≠ 0 := fun h => he (Or.inr h)
      rw [setSize_to_nonempty d keySize valueSize hne hK0 hV0]
      intro a ha x hx
      simp only [Option.some.injEq] at ha
      rw [← ha] at hx
      rw [List.eq_of_mem_replicate hx]
      exact ⟨le_rfl, le_rfl⟩
  · have hsame : keySize = d.mKeySize ∧ valueSize = d.mValueSize := by
      constructor
      · by_contra h; exact hne (Or.inl h)
      · by_contra h; exact hne (Or.inr h)
    rw [setSize_of_same d keySize valueSize hsame]
    exact hd

theorem encloses_fill (d : QCPColorMapData) (z : ℚ) (hd : Valid d) :
    Encloses (fill d z) := by
  rw [fill_of_valid d z hd]
  intro a ha x hx
  cases hdata : d.mData with
  | none => simp [hdata] at ha
  | some a0 =>
    simp only [hdata, Option.map_some', Option.some.injEq] at ha
    rw [← ha] at hx
    rw [List.eq_of_mem_replicate hx]
    exact ⟨le_rfl, le_rfl⟩

theorem encloses_setCell (d : QCPColorMapData) (keyIndex valueIndex : Int) (z : ℚ)
    (hd : Encloses d) : Encloses (setCell d keyIndex valueIndex z) := by
  by_cases hin : keyIndex ≥ 0 ∧ keyIndex < d.mKeySize ∧ valueIndex ≥ 0 ∧
      valueIndex < d.mValueSize
  · rw [setCell_of_inside d keyIndex valueIndex z hin.1 hin.2.1 hin.2.2.1 hin.2.2.2]
    intro a ha x hx
    cases hdata : d.mData with
    | none => simp [hdata] at ha
    | some a0 =>
      simp only [hdata, Option.map_some', Option.some.injEq] at ha
      rw [← ha] at hx
      rcases List.mem_or_eq_of_mem_set hx with h | h
      · obtain ⟨h1, h2⟩ := hd a0 hdata x h
        exact ⟨le_trans (min_le_left _ _) h1, le_trans h2 (le_max_left _ _)⟩
      · rw [h]
        exact ⟨min_le_right _ _, le_max_right _ _⟩
  · simp only [setCell, if_neg hin]
    exact hd

theorem encloses_of_exact (d : QCPColorMapData) (h : ExactBounds d) : Encloses d := by
  obtain ⟨a, ha, _, h2, _, h4⟩ := h
  intro a' ha' x hx
  rw [ha] at ha'
  simp only [Option.some.injEq] at ha'
  rw [← ha'] at hx
  exact ⟨h2 x hx, h4 x hx⟩

theorem encloses_recalculateDataBounds (d : QCPColorMapData) (hv : Valid d)
    (hd : Encloses d) : Encloses (recalculateDataBounds d) := by
  by_cases hin : d.mKeySize > 0 ∧ d.mValueSize > 0
  · exact encloses_of_exact _ (recalculateDataBounds_exact d hv hin.1 hin.2)
  · simp only [recalculateDataBounds, if_neg hin]
    exact hd

theorem encloses_operatorAssign (this other : QCPColorMapData) (sameObject : Bool)
    (ht : Valid this) (ho : Valid other) (et : Encloses this) (eo : Encloses other) :
    Encloses (operatorAssign this other sameObject) := by
  cases sameObject with
  | true => exact et
  | false =>
    rw [operatorAssign_of_valid this other ht ho]
    exact eo

/-- In every field the class produces the cached bounds enclose the data. -/
theorem encloses_of_reachable (d : QCPColorMapData) (h : Reachable d) : Encloses d := by
  induction h with
  | construct K V kr vr hK hV =>
    apply encloses_fill
    apply valid_setSize _ _ _ hK hV
    exact ⟨le_rfl, le_rfl, rfl, rfl⟩
  | copy other ho ih =>
    exact encloses_operatorAssign _ other false ⟨le_rfl, le_rfl, rfl, rfl⟩
      (valid_of_reachable other ho) (fun a ha => by simp at ha) ih
  | assign this other same h1 h2 _ ih1 ih2 =>
    exact encloses_operatorAssign this other same (valid_of_reachable this h1)
      (valid_of_reachable other h2) ih1 ih2
  | setSize d K V _ _ _ ih => exact encloses_setSize d K V ih
  | setKeySize d K _ _ ih => exact encloses_setSize d K d.mValueSize ih
  | setValueSize d V _ _ ih => exact encloses_setSize d d.mKeySize V ih
  | setRange d kr vr _ ih => exact ih
  | setKeyRange d kr _ ih => exact ih
  | setValueRange d vr _ ih => exact ih
  | setData d key value z _ ih =>
    rw [setData_eq_setCell]
    exact encloses_setCell d _ _ z ih
  | setCell d k v z _ ih => exact encloses_setCell d k v z ih
  | recalculateDataBounds d hd ih =>
    exact encloses_recalculateDataBounds d (valid_of_reachable d hd) ih
  | clear d _ ih => exact encloses_setSize d 0 0 ih
  | fill d z hd _ => exact encloses_fill d z (valid_of_reachable d hd)
  | imageUpdated d _ ih => exact ih

/-- The value of a cell of a valid field is an entry of its array. -/
theorem cell_mem_of_valid (d : QCPColorMapData) (k v : Int) (hd : Valid d)
    (hk0 : 0 ≤ k) (hk1 : k < d.mKeySize) (hv0 : 0 ≤ v) (hv1 : v < d.mValueSize) :
    ∃ a, d.mData = some a ∧ cell d k v ∈ a := by
  obtain ⟨a, ha, _, hidx⟩ := array_of_valid d k v hd hk0 hk1 hv0 hv1
  have hin : k ≥ 0 ∧ k < d.mKeySize ∧ v ≥ 0 ∧ v < d.mValueSize := ⟨hk0, hk1, hv0, hv1⟩
  refine ⟨a, ha, ?_⟩
  simp only [cell, if_pos hin, mDataAt, ha]
  rw [List.getD_eq_getElem?_getD, List.getElem?_eq_getElem hidx]
  exact List.getElem_mem hidx

end QCPColorMapData

open QCPColorMapData in
/-- C21: in every state of a field reachable from construction through `setSize`,
`setCell`, `setData`, `fill`, `recalculateDataBounds`, `setRange` and assignment (and the
other methods of the class), with non-negative sizes, in which the field is not empty, the
cached bounds enclose the data: `bounds.lower ≤ x ≤ bounds.upper` for every cell `x` of
the array, and so for every `cell(k, v)` of the field. -/
theorem C21_bounds_enclose_data (d : QCPColorMapData) (h : Reachable d)
    (hne : isEmpty d = false) :
    (∃ a, d.mData = some a ∧ (a.length : Int) = d.mKeySize * d.mValueSize ∧
      ∀ x ∈ a, d.mDataBounds.lower ≤ x ∧ x ≤ d.mDataBounds.upper) ∧
    (∀ k v : Int, 0 ≤ k → k < d.mKeySize → 0 ≤ v → v < d.mValueSize →
      d.mDataBounds.lower ≤ cell d k v ∧ cell d k v ≤ d.mDataBounds.upper) := by
  have hv := valid_of_reachable d h
  have he := encloses_of_reachable d h
  obtain ⟨a, ha, hlen⟩ := (data_of_valid d hv).2 hne
  refine ⟨⟨a, ha, hlen, he a ha⟩, ?_⟩
  intro k v hk0 hk1 hv0 hv1
  obtain ⟨a', ha', hmem⟩ := cell_mem_of_valid d k v hv hk0 hk1 hv0 hv1
  exact he a' ha' _ hmem

open QCPColorMapData in
/-- C27: in every field state reachable from construction through `setSize`, `setKeySize`,
`setValueSize`, `clear` and assignment (and the other methods of the class) with
non-negative sizes, the backing array has exactly `keySize*valueSize` cells (none at all
when the pointer is null), and `isEmpty()` is true exactly if `keySize == 0` or
`valueSize == 0`. -/
theorem C27_array_size_and_isEmpty (d : QCPColorMapData) (h : Reachable d) :
    (((d.mData.getD []).length : Int) = d.mKeySize * d.mValueSize) ∧
    (isEmpty d = true ↔ d.mKeySize = 0 ∨ d.mValueSize = 0) ∧
    (isEmpty d = true ↔ d.mData = none) ∧
    0 ≤ d.mKeySize ∧ 0 ≤ d.mValueSize := by
  have hv := valid_of_reachable d h
  have h1 := hv.1
  have h2 := hv.2.1
  have h3 := hv.2.2.1
  have hiff : isEmpty d = true ↔ d.mKeySize = 0 ∨ d.mValueSize = 0 := by
    simp only [isEmpty, h3, Bool.or_eq_true, decide_eq_true_eq]
  refine ⟨?_, hiff, ?_, h1, h2⟩
  · cases he : d.mIsEmpty with
    | true =>
      have hz : d.mKeySize = 0 ∨ d.mValueSize = 0 := hiff.mp he
      rw [(data_of_valid d hv).1 he]
      rcases hz with hz | hz <;> simp [hz]
    | false =>
      obtain ⟨a, ha, hlen⟩ := (data_of_valid d hv).2 he
      rw [ha]
      exact hlen
  · cases he : d.mIsEmpty with
    | true =>
      simp only [isEmpty, he, true_iff]
      exact (data_of_valid d hv).1 he
    | false =>
      obtain ⟨a, ha, _⟩ := (data_of_valid d hv).2 he
      simp [isEmpty, he, ha]

open QCPColorMapData in
/-- C28: for fields `s` and `t` (two objects, each with an array of `keySize*valueSize`
cells), after `t = s` the field `t` has the key size, value size, key range, value range,
array, cell values and bounds of `s`, and its modified flag is set; the same holds for
the copy constructed from `s`. The source is passed by `const` reference: the operator is
a function of `t` and `s` that returns the new `t` only. -/
theorem C28_assignment_copies (t s : QCPColorMapData) (ht : Valid t) (hs : Valid s) :
    (operatorAssign t s false).mKeySize = s.mKeySize ∧
    (operatorAssign t s false).mValueSize = s.mValueSize ∧
    (operatorAssign t s false).mKeyRange = s.mKeyRange ∧
    (operatorAssign t s false).mValueRange = s.mValueRange ∧
    (operatorAssign t s false).mData = s.mData ∧
    (∀ i : Int, mDataAt (operatorAssign t s false) i = mDataAt s i) ∧
    (∀ k v : Int, cell (operatorAssign t s false) k v = cell s k v) ∧
    (operatorAssign t s false).mDataBounds = s.mDataBounds ∧
    (operatorAssign t s false).mDataModified = true ∧
    isEmpty (operatorAssign t s false) = isEmpty s ∧
    mkCopy s = operatorAssign t s false := by
  have hc : mkCopy s = { s with mDataModified := true } :=
    operatorAssign_of_valid _ s ⟨le_rfl, le_rfl, rfl, rfl⟩ hs
  rw [hc, operatorAssign_of_valid t s ht hs]
  exact ⟨rfl, rfl, rfl, rfl, rfl, fun _ => rfl, fun _ _ => rfl, rfl, rfl, rfl, rfl⟩

/-! ## Stale and exact bounds -/

namespace QCPColorMapData

/-- An accepted write of a value that is at least the value of the cell keeps the upper
bound exact and keeps the lower bound, which stays at most every cell. -/
theorem upperExact_setCell (d : QCPColorMapData) (k v : Int) (z : ℚ) (hd : Valid d)
    (hu : UpperExact d) (hk0 : 0 ≤ k) (hk1 : k < d.mKeySize) (hv0 : 0 ≤ v)
    (hv1 : v < d.mValueSize) (hz : cell d k v ≤ z) :
    UpperExact (setCell d k v z) ∧
    (setCell d k v z).mDataBounds.lower = d.mDataBounds.lower := by
  obtain ⟨a, ha, _, hidx⟩ := array_of_valid d k v hd hk0 hk1 hv0 hv1
  obtain ⟨a', ha', hmem, hmax, hmin⟩ := hu
  rw [ha] at ha'
  simp only [Option.some.injEq] at ha'
  subst ha'
  have hin : k ≥ 0 ∧ k < d.mKeySize ∧ v ≥ 0 ∧ v < d.mValueSize := ⟨hk0, hk1, hv0, hv1⟩
  have hcell : cell d k v = a[(v * d.mKeySize + k).toNat] := by
    simp only [cell, if_pos hin, mDataAt, ha]
    rw [List.getD_eq_getElem?_getD, List.getElem?_eq_getElem hidx]
    rfl
  rw [hcell] at hz
  have hold : a[(v * d.mKeySize + k).toNat] ∈ a := List.getElem_mem hidx
  have hlow : d.mDataBounds.lower ≤ z := le_trans (hmin _ hold) hz
  rw [setCell_of_inside d k v z hk0 hk1 hv0 hv1]
  refine ⟨⟨a.set (v * d.mKeySize + k).toNat z, by simp [ha], ?_, ?_, ?_⟩, ?_⟩
  · rcases le_or_lt d.mDataBounds.upper z with hle | hlt
    · simp only [max_eq_right hle]
      exact List.mem_set a _ hidx z
    · simp only [max_eq_left hlt.le]
      obtain ⟨j, hj⟩ := List.mem_iff_getElem?.mp hmem
      have hne : (v * d.mKeySize + k).toNat ≠ j := by
        intro e
        rw [← e, List.getElem?_eq_getElem hidx] at hj
        simp only [Option.some.injEq] at hj
        rw [hj] at hz
        exact absurd hz (not_le.mpr hlt)
      apply List.getElem?_mem (n := j)
      rw [List.getElem?_set, if_neg hne]
      exact hj
  · intro x hx
    rcases List.mem_or_eq_of_mem_set hx with h | h
    · exact le_trans (hmax x h) (le_max_left _ _)
    · rw [h]; exact le_max_right _ _
  · intro x hx
    simp only [min_eq_left hlow]
    rcases List.mem_or_eq_of_mem_set hx with h | h
    · exact hmin x h
    · rw [h]; exact hlow
  · simp only [min_eq_left hlow]

theorem upperExact_of_exact (d : QCPColorMapData) (h : ExactBounds d) : UpperExact d := by
  obtain ⟨a, ha, _, h2, h3, h4⟩ := h
  exact ⟨a, ha, h3, h4, h2⟩

/-- A sequence of increasing writes keeps the upper bound exact and the lower bound as it
was. -/
theorem upperExact_setCells (ws : List (Int × Int × ℚ)) :
    ∀ d : QCPColorMapData, Valid d → UpperExact d → IncreasingWrites d ws →
      UpperExact (setCells d ws) ∧
      (setCells d ws).mDataBounds.lower = d.mDataBounds.lower := by
  induction ws with
  | nil => intro d _ hu _; exact ⟨hu, rfl⟩
  | cons w ws ih =>
    intro d hd hu hw
    obtain ⟨hk0, hk1, hv0, hv1, hz, hrest⟩ := hw
    obtain ⟨h1, h2⟩ := upperExact_setCell d w.1 w.2.1 w.2.2 hd hu hk0 hk1 hv0 hv1 hz
    obtain ⟨h3, h4⟩ := ih (setCell d w.1 w.2.1 w.2.2) (valid_setCell d _ _ _ hd) h1 hrest
    exact ⟨h3, by rw [← h2]; exact h4⟩

end QCPColorMapData

open QCPColorMapData in
/-- C22 (amended): starting from a field whose cached bounds are exact, after any
sequence of accepted `setCell` writes each of which stores a value that is at least the
value the cell held, the cached upper bound is the true maximum of the cells; the cached
lower bound is the one from the start and is at most every cell. -/
theorem C22_increasing_writes_keep_maximum (d : QCPColorMapData)
    (ws : List (Int × Int × ℚ)) (hd : Valid d) (hex : ExactBounds d)
    (hw : IncreasingWrites d ws) :
    ∃ a, (setCells d ws).mData = some a ∧
      (setCells d ws).mDataBounds.upper ∈ a ∧
      (∀ x ∈ a, x ≤ (setCells d ws).mDataBounds.upper) ∧
      (∀ x ∈ a, (setCells d ws).mDataBounds.lower ≤ x) ∧
      (setCells d ws).mDataBounds.lower = d.mDataBounds.lower := by
  obtain ⟨⟨a, ha, h1, h2, h3⟩, h4⟩ :=
    upperExact_setCells ws d hd (upperExact_of_exact d hex) hw
  exact ⟨a, ha, h1, h2, h3, h4⟩

open QCPColorMapData in
/-- C22 fails as stated: the field of two cells `0, 1` has the exact bounds `(0, 1)`; the
accepted write `setCell(0, 0, 5)` stores `5 ≥ 0` in the cell that held the minimum; the
cells are then `5, 1` with the true minimum `1`, but the cached lower bound is still `0`,
which is no cell value. -/
theorem C22_increasing_write_stale_minimum :
    twoCellField.mData = some [0, 1] ∧
    twoCellField.mDataBounds = ⟨0, 1⟩ ∧
    twoCellField.mIsEmpty = false ∧
    (0 : Int) < twoCellField.mKeySize ∧ (0 : Int) < twoCellField.mValueSize ∧
    cell twoCellField 0 0 = 0 ∧ cell twoCellField 0 0 ≤ 5 ∧
    (setCell twoCellField 0 0 5).mData = some [5, 1] ∧
    (setCell twoCellField 0 0 5).mDataBounds = ⟨0, 5⟩ ∧
    (∀ x ∈ [(5 : ℚ), 1], 1 ≤ x) ∧
    (setCell twoCellField 0 0 5).mDataBounds.lower ∉ [(5 : ℚ), 1] ∧
    (setCell twoCellField 0 0 5).mDataBounds.lower ≠ 1 := by
  decide!

open QCPColorMapData in
/-- C23 (amended): for every field with at least two cells, after `fill(0)`,
`setCell(0,0,5)` and `setCell(0,0,2)` the cached bounds are `(0, 5)`, and after a
following `recalculateDataBounds()` they are `(0, 2)`. -/
theorem C23_scenario_stale_maximum (d : QCPColorMapData) (hd : Valid d)
    (hK : 0 < d.mKeySize) (hV : 0 < d.mValueSize) (h2 : 2 ≤ d.mKeySize * d.mValueSize) :
    (setCell (setCell (fill d 0) 0 0 5) 0 0 2).mDataBounds = ⟨0, 5⟩ ∧
    (recalculateDataBounds (setCell (setCell (fill d 0) 0 0 5) 0 0 2)).mDataBounds
      = ⟨0, 2⟩ := by
  obtain ⟨a, ha, hlen, _⟩ := array_of_valid d 0 0 hd le_rfl hK le_rfl hV
  have hv3 : Valid (setCell (setCell (fill d 0) 0 0 5) 0 0 2) :=
    valid_setCell _ _ _ _ (valid_setCell _ _ _ _ (valid_fill d 0 hd))
  have hform : setCell (setCell (fill d 0) 0 0 5) 0 0 2 =
      { d with
        mData := some ((List.replicate a.length (0 : ℚ)).set 0 2)
        mDataBounds := ⟨0, 5⟩
        mDataModified := true } := by
    have hf := fill_of_valid d 0 hd
    have hK1 : 0 < (fill d 0).mKeySize := by rw [hf]; exact hK
    have hV1 : 0 < (fill d 0).mValueSize := by rw [hf]; exact hV
    have hs := setCell_of_inside (fill d 0) 0 0 5 le_rfl hK1 le_rfl hV1
    have hK2 : 0 < (setCell (fill d 0) 0 0 5).mKeySize := by rw [hs]; exact hK1
    have hV2 : 0 < (setCell (fill d 0) 0 0 5).mValueSize := by rw [hs]; exact hV1
    rw [setCell_of_inside (setCell (fill d 0) 0 0 5) 0 0 2 le_rfl hK2 le_rfl hV2, hs, hf]
    simp [ha, List.set_set]
    norm_num
  have hex := recalculateDataBounds_exact _ hv3 (by rw [hform]; exact hK)
    (by rw [hform]; exact hV)
  rw [hform] at hex ⊢
  refine ⟨rfl, ?_⟩
  obtain ⟨a', ha', h1, h2', h3, h4⟩ := hex
  rw [(recalculateDataBounds_fields _).1] at ha'
  simp only [Option.some.injEq] at ha'
  subst ha'
  have hlen2 : 2 ≤ a.length := by omega
  have hmem2 : (2 : ℚ) ∈ (List.replicate a.length (0 : ℚ)).set 0 2 :=
    List.mem_set _ _ (by simp; omega) 2
  have hmem0 : (0 : ℚ) ∈ (List.replicate a.length (0 : ℚ)).set 0 2 := by
    apply List.getElem?_mem (n := 1)
    rw [List.getElem?_set, if_neg (by decide), List.getElem?_replicate, if_pos (by omega)]
  have hcases : ∀ x ∈ (List.replicate a.length (0 : ℚ)).set 0 2, x = 0 ∨ x = 2 := by
    intro x hx
    rcases List.mem_or_eq_of_mem_set hx with h | h
    · exact Or.inl (List.eq_of_mem_replicate h)
    · exact Or.inr h
  have hl : (recalculateDataBounds
      { d with
        mData := some ((List.replicate a.length (0 : ℚ)).set 0 2)
        mDataBounds := ⟨0, 5⟩
        mDataModified := true }).mDataBounds.lower = 0 := by
    rcases hcases _ h1 with h | h
    · exact h
    · have := h2' 0 hmem0
      rw [h] at this
      norm_num at this
  have hu : (recalculateDataBounds
      { d with
        mData := some ((List.replicate a.length (0 : ℚ)).set 0 2)
        mDataBounds := ⟨0, 5⟩
        mDataModified := true }).mDataBounds.upper = 2 := by
    rcases hcases _ h3 with h | h
    · have := h4 2 hmem2
      rw [h] at this
      norm_num at this
    · exact h
  generalize (recalculateDataBounds
      { d with
        mData := some ((List.replicate a.length (0 : ℚ)).set 0 2)
        mDataBounds := ⟨0, 5⟩
        mDataModified := true }).mDataBounds = b at hl hu
  cases b
  simp only at hl hu
  rw [hl, hu]

open QCPColorMapData in
/-- C23 fails as stated: the field of one cell is not empty; after `fill(0)`,
`setCell(0,0,5)` and `setCell(0,0,2)` its bounds are `(0, 5)`, but its only cell holds
`2`, so `recalculateDataBounds()` gives the bounds `(2, 2)`. -/
theorem C23_single_cell_field :
    oneCellField.mIsEmpty = false ∧
    oneCellField.mKeySize = 1 ∧ oneCellField.mValueSize = 1 ∧
    (setCell (setCell (fill oneCellField 0) 0 0 5) 0 0 2).mData = some [2] ∧
    (setCell (setCell (fill oneCellField 0) 0 0 5) 0 0 2).mDataBounds = ⟨0, 5⟩ ∧
    (recalculateDataBounds
      (setCell (setCell (fill oneCellField 0) 0 0 5) 0 0 2)).mDataBounds = ⟨2, 2⟩ ∧
    (recalculateDataBounds
      (setCell (setCell (fill oneCellField 0) 0 0 5) 0 0 2)).mDataBounds ≠ ⟨0, 2⟩ := by
  decide!

/-! ## The map image -/

/-- A loop that writes `l[i] = f i` for every index of `l` makes `l` the list of the
`f i`. -/
theorem foldl_set_eq_map {α : Type} (f : Nat → α) (l : List α) (n : Nat)
    (h : n = l.length) :
    (List.range n).foldl (fun sl i => sl.set i (f i)) l = (List.range n).map f := by
  apply List.ext_getElem?
  intro i
  rw [foldl_set_getElem?]
  by_cases hi : i < n
  · have h1 : i < l.length := by omega
    simp [hi, h1]
  · have h1 : ¬ (i < n ∧ i < l.length) := fun h => hi h.1
    rw [if_neg h1, List.getElem?_eq_none (by omega), List.getElem?_eq_none (by simp; omega)]

/-- A loop that writes `l[p i] = f i` for `i < n`, with distinct positions `p i` inside
`l`: afterwards `l[p i]` is `f i`, and the length is as before. -/
theorem foldl_set_at {α : Type} (p : Nat → Nat) (f : Nat → α) (n : Nat) (l : List α)
    (hinj : ∀ i j, i < n → j < n → p i = p j → i = j)
    (hin : ∀ i, i < n → p i < l.length) :
    ((List.range n).foldl (fun ls i => ls.set (p i) (f i)) l).length = l.length ∧
    ∀ i, i < n → ((List.range n).foldl (fun ls i => ls.set (p i) (f i)) l)[p i]?
      = some (f i) := by
  induction n with
  | zero => exact ⟨rfl, fun i hi => absurd hi (Nat.not_lt_zero i)⟩
  | succ n ih =>
    obtain ⟨hlen, hget⟩ := ih (fun i j hi hj => hinj i j (by omega) (by omega))
      (fun i hi => hin i (by omega))
    simp only [List.range_succ, List.foldl_append, List.foldl_cons, List.foldl_nil]
    refine ⟨by rw [List.length_set, hlen], fun i hi => ?_⟩
    rw [List.getElem?_set]
    by_cases hni : p n = p i
    · have : n = i := hinj n i (by omega) hi hni
      subst this
      simp [hlen, hin n (by omega)]
    · rw [if_neg hni]
      have : i ≠ n := fun e => hni (by rw [e])
      exact hget i (by omega)

namespace QCPColorGradient

/-- Closed form of `colorize` with non-null pointers: the gradient gets its buffer
rebuilt if it was dirty, and the loop writes the colours that `color` returns. -/
theorem colorize_eq (qt : Qt) (g : QCPColorGradient) (data : List ℚ) (range : QCPRange)
    (scanLine : List QRgb) (n s : Int) (logarithmic : Bool) :
    colorize qt g (some data) range (some scanLine) n s logarithmic =
      (if g.mColorBufferInvalidated then updateColorBuffer qt g else g,
        some ((List.range n.toNat).foldl (fun sl (i : Nat) =>
          sl.set i (color qt g (data.getD (s * i).toNat 0) range logarithmic).2)
          scanLine)) := by
  obtain ⟨g', hg'⟩ : ∃ g', g' =
      if g.mColorBufferInvalidated then updateColorBuffer qt g else g := ⟨_, rfl⟩
  have hcolor := fun v => color_snd qt g g' v range logarithmic hg'
  simp only [colorize, ← hg', hcolor]
  cases logarithmic <;> by_cases hp : g'.mPeriodic = true <;>
    simp only [hp, Bool.not_false, Bool.not_true, if_true, if_false, Bool.false_eq_true,
      colorIndex, mul_div_assoc]

/-- Rebuilding the buffer of a gradient whose buffer was just rebuilt changes nothing. -/
theorem rebuilt_rebuilt (qt : Qt) (g : QCPColorGradient) :
    (if (if g.mColorBufferInvalidated then updateColorBuffer qt g
        else g).mColorBufferInvalidated then
      updateColorBuffer qt (if g.mColorBufferInvalidated then updateColorBuffer qt g else g)
     else (if g.mColorBufferInvalidated then updateColorBuffer qt g else g))
    = (if g.mColorBufferInvalidated then updateColorBuffer qt g else g) := by
  cases h : g.mColorBufferInvalidated <;> simp [h]

/-- The colour that `color` returns is the same before and after the lazy rebuild. -/
theorem color_snd_rebuilt (qt : Qt) (g : QCPColorGradient) (v : ℚ) (range : QCPRange)
    (logarithmic : Bool) :
    (color qt (if g.mColorBufferInvalidated then updateColorBuffer qt g else g) v range
      logarithmic).2 = (color qt g v range logarithmic).2 := by
  rw [color_snd qt _ _ v range logarithmic (rebuilt_rebuilt qt g).symm,
    color_snd qt g _ v range logarithmic rfl]

end QCPColorGradient

namespace QCPColorMap

open QCPColorGradient ScaleType QtOrientation

/-- One pass of the loops of `updateMapImage` over a scan line of the right length: the
scan line becomes the colours of the cells read, the gradient gets its buffer rebuilt. -/
theorem colorizeLine_eq (qt : Qt) (m : QCPColorMap) (a : List ℚ) (y n s : Int)
    (row : List QRgb) (hy : 0 ≤ y) (hrow : m.mMapImage.lines[y.toNat]? = some row)
    (hlen : n.toNat = row.length) :
    colorizeLine qt m (some a) y n s =
      { m with
        mGradient :=
          if m.mGradient.mColorBufferInvalidated then updateColorBuffer qt m.mGradient
          else m.mGradient
        mMapImage := { m.mMapImage with
          lines := m.mMapImage.lines.set y.toNat
            ((List.range n.toNat).map (fun (i : Nat) =>
              (color qt m.mGradient (a.getD (s * i).toNat 0) m.mDataRange
                (decide (m.mDataScaleType = stLogarithmic))).2)) } } := by
  simp only [colorizeLine, QImage.scanLine, if_pos hy, hrow, colorize_eq,
    foldl_set_eq_map _ row _ hlen, QImage.setScanLine]

/-- The loops of `updateMapImage`: every line of the loop writes its scan line. -/
theorem colorizeLines_eq (qt : Qt) (ptr : Nat → List ℚ) (yy : Nat → Int) (n s : Int)
    (g0 : QCPColorGradient) (l : List Nat) :
    ∀ m : QCPColorMap,
      (∀ line ∈ l, 0 ≤ yy line ∧ (yy line).toNat < m.mMapImage.lines.length) →
      (∀ row ∈ m.mMapImage.lines, row.length = n.toNat) →
      (∀ v, (color qt m.mGradient v m.mDataRange
          (decide (m.mDataScaleType = stLogarithmic))).2
        = (color qt g0 v m.mDataRange (decide (m.mDataScaleType = stLogarithmic))).2) →
      l.foldl (fun m line => colorizeLine qt m (some (ptr line)) (yy line) n s) m =
        { m with
          mGradient :=
            if l = [] then m.mGradient
            else if m.mGradient.mColorBufferInvalidated then
              updateColorBuffer qt m.mGradient
            else m.mGradient
          mMapImage := { m.mMapImage with
            lines := l.foldl (fun ls line => ls.set (yy line).toNat
              ((List.range n.toNat).map (fun (i : Nat) =>
                (color qt g0 ((ptr line).getD (s * i).toNat 0) m.mDataRange
                  (decide (m.mDataScaleType = stLogarithmic))).2))) m.mMapImage.lines } } := by
  induction l with
  | nil => intro m _ _ _; rfl
  | cons x xs ih =>
    intro m hidx hrows hg
    obtain ⟨hy, hlt⟩ := hidx x (List.mem_cons_self _ _)
    have hrow : m.mMapImage.lines[(yy x).toNat]? = some (m.mMapImage.lines[(yy x).toNat]) :=
      List.getElem?_eq_getElem hlt
    have hlen : n.toNat = (m.mMapImage.lines[(yy x).toNat]).length :=
      (hrows _ (List.getElem_mem hlt)).symm
    rw [List.foldl_cons, colorizeLine_eq qt m (ptr x) (yy x) n s _ hy hrow hlen]
    rw [ih]
    · simp only [hg, List.foldl_cons, rebuilt_rebuilt]
      by_cases hxs : xs = []
      · simp [hxs]
      · simp [hxs]
    · intro line hline
      simp only [List.length_set]
      exact hidx line (List.mem_cons_of_mem _ hline)
    · intro row hr
      simp only at hr
      rcases List.mem_or_eq_of_mem_set hr with h | h
      · exact hrows row h
      · rw [h]; simp
    · intro v
      simp only
      rw [color_snd_rebuilt]
      exact hg v

end QCPColorMap

namespace QCPColorMapData

/-- The read `(rawData + line*keySize)[1*i]` of the horizontal loop of `updateMapImage`
is inside the array and reads the cell `(i, line)`. -/
theorem read_horizontal (d : QCPColorMapData) (line i : Int) (hd : Valid d)
    (hl0 : 0 ≤ line) (hl1 : line < d.mValueSize) (hi0 : 0 ≤ i) (hi1 : i < d.mKeySize) :
    ∃ a, d.mData = some a ∧
      (a.drop (line * d.mKeySize).toNat)[((1 : Int) * i).toNat]? = some (cell d i line) ∧
      (((line * d.mKeySize).toNat + ((1 : Int) * i).toNat : Nat) : Int)
        < d.mKeySize * d.mValueSize := by
  obtain ⟨a, ha, hlen, hidx⟩ := array_of_valid d i line hd hi0 hi1 hl0 hl1
  have hin : i ≥ 0 ∧ i < d.mKeySize ∧ line ≥ 0 ∧ line < d.mValueSize :=
    ⟨hi0, hi1, hl0, hl1⟩
  have h0 : 0 ≤ line * d.mKeySize := Int.mul_nonneg hl0 (by omega)
  have he : (line * d.mKeySize).toNat + ((1 : Int) * i).toNat
      = (line * d.mKeySize + i).toNat := by omega
  refine ⟨a, ha, ?_, by omega⟩
  rw [List.getElem?_drop, he, List.getElem?_eq_getElem hidx]
  simp only [cell, if_pos hin, mDataAt, ha]
  rw [List.getD_eq_getElem?_getD, List.getElem?_eq_getElem hidx]
  rfl

/-- The read `(rawData + line)[keySize*i]` of the vertical loop of `updateMapImage` is
inside the array and reads the cell `(line, i)`. -/
theorem read_vertical (d : QCPColorMapData) (line i : Int) (hd : Valid d)
    (hl0 : 0 ≤ line) (hl1 : line < d.mKeySize) (hi0 : 0 ≤ i) (hi1 : i < d.mValueSize) :
    ∃ a, d.mData = some a ∧
      (a.drop line.toNat)[(d.mKeySize * i).toNat]? = some (cell d line i) ∧
      ((line.toNat + (d.mKeySize * i).toNat : Nat) : Int) < d.mKeySize * d.mValueSize := by
  obtain ⟨a, ha, hlen, hidx⟩ := array_of_valid d line i hd hl0 hl1 hi0 hi1
  have hin : line ≥ 0 ∧ line < d.mKeySize ∧ i ≥ 0 ∧ i < d.mValueSize :=
    ⟨hl0, hl1, hi0, hi1⟩
  have h0 : 0 ≤ d.mKeySize * i := Int.mul_nonneg (by omega) hi0
  have hc : d.mKeySize * i = i * d.mKeySize := by ring
  have he : line.toNat + (d.mKeySize * i).toNat = (i * d.mKeySize + line).toNat := by omega
  refine ⟨a, ha, ?_, by omega⟩
  rw [List.getElem?_drop, he, List.getElem?_eq_getElem hidx]
  simp only [cell, if_pos hin, mDataAt, ha]
  rw [List.getD_eq_getElem?_getD, List.getElem?_eq_getElem hidx]
  rfl

end QCPColorMapData

namespace QImage

/-- The image that `updateMapImage` colorizes has the requested size: it is the old image
if that has the size, and a new one otherwise. -/
theorem resized (img : QImage) (w h : Int) (hw : 0 < w) (hh : 0 < h)
    (himg : WellFormed img) :
    (if img.width ≠ w ∨ img.height ≠ h then mk' w h else img).width = w ∧
    (if img.width ≠ w ∨ img.height ≠ h then mk' w h else img).height = h ∧
    (if img.width ≠ w ∨ img.height ≠ h then mk' w h else img).lines.length = h.toNat ∧
    ∀ row ∈ (if img.width ≠ w ∨ img.height ≠ h then mk' w h else img).lines,
      row.length = w.toNat := by
  have hpos : 0 < w ∧ 0 < h := ⟨hw, hh⟩
  by_cases hne : img.width ≠ w ∨ img.height ≠ h
  · have e : mk' w h = ⟨w, h, List.replicate h.toNat (List.replicate w.toNat 0)⟩ := by
      simp only [mk', if_pos hpos]
    rw [if_pos hne, e]
    refine ⟨rfl, rfl, List.length_replicate _ _, fun row hr => ?_⟩
    rw [List.eq_of_mem_replicate hr, List.length_replicate]
  · have hwid : img.width = w := by
      by_contra hc; exact hne (Or.inl hc)
    have hhei : img.height = h := by
      by_contra hc; exact hne (Or.inr hc)
    simp only [if_neg hne]
    refine ⟨hwid, hhei, ?_, fun row hr => ?_⟩
    · have := himg.1; omega
    · have := himg.2 row hr; omega

end QImage

namespace QCPColorMap

open QCPColorGradient QCPColorMapData ScaleType QtOrientation

/-- The loop of `updateMapImage` for a horizontal key axis, on an image of `valueSize`
lines of `keySize` pixels: pixel `(x, y)` becomes the colour of cell
`(x, valueSize-1-y)`. -/
theorem horizontal_loop (qt : Qt) (m : QCPColorMap) (hd : Valid m.mMapData)
    (hK : 0 < m.mMapData.mKeySize) (hV : 0 < m.mMapData.mValueSize)
    (hlines : m.mMapImage.lines.length = m.mMapData.mValueSize.toNat)
    (hrows : ∀ row ∈ m.mMapImage.lines, row.length = m.mMapData.mKeySize.toNat)
    (x y : Int) (hx0 : 0 ≤ x) (hx1 : x < m.mMapData.mKeySize) (hy0 : 0 ≤ y)
    (hy1 : y < m.mMapData.mValueSize) :
    (((List.range m.mMapData.mValueSize.toNat).foldl (fun m' (line : Nat) =>
        colorizeLine qt m' (offsetPointer m.mMapData.mData (line * m.mMapData.mKeySize))
          (m.mMapData.mValueSize - 1 - line) m.mMapData.mKeySize 1) m).mMapImage.pixel x y
      = some (color qt m.mGradient (cell m.mMapData x (m.mMapData.mValueSize - 1 - y))
          m.mDataRange (decide (m.mDataScaleType = stLogarithmic))).2) ∧
    ((List.range m.mMapData.mValueSize.toNat).foldl (fun m' (line : Nat) =>
        colorizeLine qt m' (offsetPointer m.mMapData.mData (line * m.mMapData.mKeySize))
          (m.mMapData.mValueSize - 1 - line) m.mMapData.mKeySize 1) m).mMapImage.width
      = m.mMapImage.width ∧
    ((List.range m.mMapData.mValueSize.toNat).foldl (fun m' (line : Nat) =>
        colorizeLine qt m' (offsetPointer m.mMapData.mData (line * m.mMapData.mKeySize))
          (m.mMapData.mValueSize - 1 - line) m.mMapData.mKeySize 1) m).mMapImage.height
      = m.mMapImage.height := by
  obtain ⟨a, ha, hread, _⟩ := read_horizontal m.mMapData (m.mMapData.mValueSize - 1 - y) x
    hd (by omega) (by omega) hx0 hx1
  have hidx : ∀ line ∈ List.range m.mMapData.mValueSize.toNat,
      0 ≤ m.mMapData.mValueSize - 1 - (line : Int) ∧
      (m.mMapData.mValueSize - 1 - (line : Int)).toNat < m.mMapImage.lines.length := by
    intro line hl
    have := List.mem_range.mp hl
    omega
  simp only [offsetPointer, ha, Option.map_some']
  rw [colorizeLines_eq qt (fun line => a.drop ((line : Int) * m.mMapData.mKeySize).toNat)
    (fun line => m.mMapData.mValueSize - 1 - (line : Int)) m.mMapData.mKeySize 1
    m.mGradient (List.range m.mMapData.mValueSize.toNat) m hidx hrows (fun _ => rfl)]
  refine ⟨?_, rfl, rfl⟩
  obtain ⟨_, hget⟩ := foldl_set_at
    (fun line => (m.mMapData.mValueSize - 1 - (line : Int)).toNat)
    (fun line => (List.range m.mMapData.mKeySize.toNat).map (fun (i : Nat) =>
      (color qt m.mGradient
        ((a.drop ((line : Int) * m.mMapData.mKeySize).toNat).getD ((1 : Int) * i).toNat 0)
        m.mDataRange (decide (m.mDataScaleType = stLogarithmic))).2))
    m.mMapData.mValueSize.toNat m.mMapImage.lines
    (fun i j hi hj h => by simp only at h; omega)
    (fun i hi => by simp only; omega)
  have hline := hget (m.mMapData.mValueSize - 1 - y).toNat (by omega)
  have hp : (m.mMapData.mValueSize - 1
      - (((m.mMapData.mValueSize - 1 - y).toNat : Nat) : Int)).toNat = y.toNat := by omega
  have hl : (((m.mMapData.mValueSize - 1 - y).toNat : Nat) : Int)
      = m.mMapData.mValueSize - 1 - y := by omega
  rw [hp] at hline
  simp only [hl] at hline
  have hxi : ((x.toNat : Nat) : Int) = x := by omega
  simp only [QImage.pixel, QImage.scanLine, if_pos hy0, if_pos hx0]
  rw [hline]
  simp only []
  rw [List.getElem?_map, List.getElem?_range (by omega)]
  simp only [Option.map_some', hxi]
  rw [List.getD_eq_getElem?_getD, hread]
  rfl

/-- The loop of `updateMapImage` for a vertical key axis, on an image of `keySize` lines
of `valueSize` pixels: pixel `(x, y)` becomes the colour of cell `(keySize-1-y, x)`. -/
theorem vertical_loop (qt : Qt) (m : QCPColorMap) (hd : Valid m.mMapData)
    (hK : 0 < m.mMapData.mKeySize) (hV : 0 < m.mMapData.mValueSize)
    (hlines : m.mMapImage.lines.length = m.mMapData.mKeySize.toNat)
    (hrows : ∀ row ∈ m.mMapImage.lines, row.length = m.mMapData.mValueSize.toNat)
    (x y : Int) (hx0 : 0 ≤ x) (hx1 : x < m.mMapData.mValueSize) (hy0 : 0 ≤ y)
    (hy1 : y < m.mMapData.mKeySize) :
    (((List.range m.mMapData.mKeySize.toNat).foldl (fun m' (line : Nat) =>
        colorizeLine qt m' (offsetPointer m.mMapData.mData line)
          (m.mMapData.mKeySize - 1 - line) m.mMapData.mValueSize m.mMapData.mKeySize)
          m).mMapImage.pixel x y
      = some (color qt m.mGradient (cell m.mMapData (m.mMapData.mKeySize - 1 - y) x)
          m.mDataRange (decide (m.mDataScaleType = stLogarithmic))).2) ∧
    ((List.range m.mMapData.mKeySize.toNat).foldl (fun m' (line : Nat) =>
        colorizeLine qt m' (offsetPointer m.mMapData.mData line)
          (m.mMapData.mKeySize - 1 - line) m.mMapData.mValueSize m.mMapData.mKeySize)
          m).mMapImage.width = m.mMapImage.width ∧
    ((List.range m.mMapData.mKeySize.toNat).foldl (fun m' (line : Nat) =>
        colorizeLine qt m' (offsetPointer m.mMapData.mData line)
          (m.mMapData.mKeySize - 1 - line) m.mMapData.mValueSize m.mMapData.mKeySize)
          m).mMapImage.height = m.mMapImage.height := by
  obtain ⟨a, ha, hread, _⟩ := read_vertical m.mMapData (m.mMapData.mKeySize - 1 - y) x
    hd (by omega) (by omega) hx0 hx1
  have hidx : ∀ line ∈ List.range m.mMapData.mKeySize.toNat,
      0 ≤ m.mMapData.mKeySize - 1 - (line : Int) ∧
      (m.mMapData.mKeySize - 1 - (line : Int)).toNat < m.mMapImage.lines.length := by
    intro line hl
    have := List.mem_range.mp hl
    omega
  simp only [offsetPointer, ha, Option.map_some', Int.toNat_ofNat]
  rw [colorizeLines_eq qt (fun line => a.drop line)
    (fun line => m.mMapData.mKeySize - 1 - (line : Int)) m.mMapData.mValueSize
    m.mMapData.mKeySize m.mGradient (List.range m.mMapData.mKeySize.toNat) m hidx hrows
    (fun _ => rfl)]
  refine ⟨?_, rfl, rfl⟩
  obtain ⟨_, hget⟩ := foldl_set_at
    (fun line => (m.mMapData.mKeySize - 1 - (line : Int)).toNat)
    (fun line => (List.range m.mMapData.mValueSize.toNat).map (fun (i : Nat) =>
      (color qt m.mGradient
        ((a.drop line).getD (m.mMapData.mKeySize * i).toNat 0)
        m.mDataRange (decide (m.mDataScaleType = stLogarithmic))).2))
    m.mMapData.mKeySize.toNat m.mMapImage.lines
    (fun i j hi hj h => by simp only at h; omega)
    (fun i hi => by simp only; omega)
  have hline := hget (m.mMapData.mKeySize - 1 - y).toNat (by omega)
  have hp : (m.mMapData.mKeySize - 1
      - (((m.mMapData.mKeySize - 1 - y).toNat : Nat) : Int)).toNat = y.toNat := by omega
  rw [hp] at hline
  have hxi : ((x.toNat : Nat) : Int) = x := by omega
  simp only [QImage.pixel, QImage.scanLine, if_pos hy0, if_pos hx0]
  rw [hline]
  simp only []
  rw [List.getElem?_map, List.getElem?_range (by omega)]
  simp only [Option.map_some', hxi]
  rw [List.getD_eq_getElem?_getD, hread]
  rfl

end QCPColorMap

namespace QCPColorMap

open QCPColorGradient QCPColorMapData ScaleType QtOrientation

/-- With a horizontal key axis the map image that `updateMapImage` leaves is the one of
its first loop, run on a colour map `m1` that differs from `m` at most in the image, which
has been given `keySize × valueSize` pixels. -/
theorem updateMapImage_horizontal (qt : Qt) (m : QCPColorMap) (ax : QCPAxis)
    (hax : m.mKeyAxis = some ax) (ho : ax.orientation = Horizontal) :
    ∃ m1 : QCPColorMap, m1.mMapData = m.mMapData ∧ m1.mGradient = m.mGradient ∧
      m1.mDataRange = m.mDataRange ∧ m1.mDataScaleType = m.mDataScaleType ∧
      m1.mMapImage =
        (if m.mMapImage.width ≠ m.mMapData.mKeySize ∨
            m.mMapImage.height ≠ m.mMapData.mValueSize then
          QImage.mk' m.mMapData.mKeySize m.mMapData.mValueSize
        else m.mMapImage) ∧
      (updateMapImage qt m).mMapImage =
        ((List.range m1.mMapData.mValueSize.toNat).foldl (fun m' (line : Nat) =>
          colorizeLine qt m' (offsetPointer m1.mMapData.mData (line * m1.mMapData.mKeySize))
            (m1.mMapData.mValueSize - 1 - line) m1.mMapData.mKeySize 1) m1).mMapImage := by
  by_cases hne : m.mMapImage.width ≠ m.mMapData.mKeySize ∨
      m.mMapImage.height ≠ m.mMapData.mValueSize
  · refine ⟨{ m with mMapImage := QImage.mk' m.mMapData.mKeySize m.mMapData.mValueSize },
      rfl, rfl, rfl, rfl, (if_pos hne).symm, ?_⟩
    simp only [updateMapImage, hax, ho, true_and, if_pos hne, if_true]
  · refine ⟨m, rfl, rfl, rfl, rfl, (if_neg hne).symm, ?_⟩
    simp only [updateMapImage, hax, ho, true_and, if_neg hne, if_true, reduceCtorEq,
      false_and, if_false]

/-- With a vertical key axis the map image that `updateMapImage` leaves is the one of its
second loop, run on a colour map `m1` that differs from `m` at most in the image, which
has been given `valueSize × keySize` pixels. -/
theorem updateMapImage_vertical (qt : Qt) (m : QCPColorMap) (ax : QCPAxis)
    (hax : m.mKeyAxis = some ax) (ho : ax.orientation = Vertical) :
    ∃ m1 : QCPColorMap, m1.mMapData = m.mMapData ∧ m1.mGradient = m.mGradient ∧
      m1.mDataRange = m.mDataRange ∧ m1.mDataScaleType = m.mDataScaleType ∧
      m1.mMapImage =
        (if m.mMapImage.width ≠ m.mMapData.mValueSize ∨
            m.mMapImage.height ≠ m.mMapData.mKeySize then
          QImage.mk' m.mMapData.mValueSize m.mMapData.mKeySize
        else m.mMapImage) ∧
      (updateMapImage qt m).mMapImage =
        ((List.range m1.mMapData.mKeySize.toNat).foldl (fun m' (line : Nat) =>
          colorizeLine qt m' (offsetPointer m1.mMapData.mData line)
            (m1.mMapData.mKeySize - 1 - line) m1.mMapData.mValueSize m1.mMapData.mKeySize)
          m1).mMapImage := by
  by_cases hne : m.mMapImage.width ≠ m.mMapData.mValueSize ∨
      m.mMapImage.height ≠ m.mMapData.mKeySize
  · refine ⟨{ m with mMapImage := QImage.mk' m.mMapData.mValueSize m.mMapData.mKeySize },
      rfl, rfl, rfl, rfl, (if_pos hne).symm, ?_⟩
    simp only [updateMapImage, hax, ho, reduceCtorEq, false_and, if_false, true_and,
      if_pos hne]
  · refine ⟨m, rfl, rfl, rfl, rfl, (if_neg hne).symm, ?_⟩
    simp only [updateMapImage, hax, ho, reduceCtorEq, false_and, if_false, true_and,
      if_neg hne]

end QCPColorMap

namespace QCPColorMapData

/-- A valid field that is not empty has positive sizes. -/
theorem sizes_pos_of_nonempty (d : QCPColorMapData) (hd : Valid d)
    (hne : isEmpty d = false) : 0 < d.mKeySize ∧ 0 < d.mValueSize := by
  obtain ⟨h1, h2, h3, _⟩ := hd
  simp only [isEmpty] at hne
  rw [hne] at h3
  have h4 : ¬ d.mKeySize = 0 ∧ ¬ d.mValueSize = 0 := by simpa using h3.symm
  omega

end QCPColorMapData

/-! ## Rescaling the data range -/

namespace QCPColorMap

open QCPColorMapData ScaleType

/-- What `setDataRange` does to the data range: nothing if the range is not valid or is the
current one, and otherwise it stores the range sanitized for the scale type. -/
theorem setDataRange_dataRange (rf : QCPRangeFns) (m : QCPColorMap) (b : QCPRange) :
    (rf.validRange b = false → setDataRange rf m b = m) ∧
    (rf.validRange b = true → m.mDataRange = b → setDataRange rf m b = m) ∧
    (rf.validRange b = true → m.mDataRange ≠ b →
      (setDataRange rf m b).mDataRange =
        (if m.mDataScaleType = stLogarithmic then rf.sanitizedForLogScale b
          else rf.sanitizedForLinScale b) ∧
      (setDataRange rf m b).mMapImageInvalidated = true) ∧
    (setDataRange rf m b).mMapData = m.mMapData := by
  have hiff : (m.mDataRange.lower ≠ b.lower ∨ m.mDataRange.upper ≠ b.upper)
      ↔ m.mDataRange ≠ b := by
    constructor
    · rintro (h | h) e
      · exact h (by rw [e])
      · exact h (by rw [e])
    · intro h
      by_contra hc
      push_neg at hc
      apply h
      cases hm : m.mDataRange
      cases b
      simp only [hm] at hc
      simp only [QCPRange.mk.injEq]
      exact hc
  refine ⟨fun hv => ?_, fun hv he => ?_, fun hv hn => ?_, ?_⟩
  · simp [setDataRange, hv]
  · have hno : ¬ (m.mDataRange.lower ≠ b.lower ∨ m.mDataRange.upper ≠ b.upper) :=
      fun h => hiff.mp h he
    simp only [setDataRange, hv, Bool.not_true, Bool.false_eq_true, if_false, if_neg hno]
  · have hyes := hiff.mpr hn
    simp only [setDataRange, hv, Bool.not_true, Bool.false_eq_true, if_false, if_pos hyes]
    by_cases hl : m.mDataScaleType = stLogarithmic
    · simp only [hl, if_true, and_self]
    · simp only [hl, if_false, and_self]
  · simp only [setDataRange]
    split
    · rfl
    · split
      · split <;> rfl
      · rfl

end QCPColorMap

open QCPColorMap QCPColorMapData ScaleType in
/-- Claim C30, as amended: `rescaleDataRange(recalc)` recalculates the bounds of the field
when `recalc` is set, and hands the cached bounds `b` of the field to `setDataRange`. When
`QCPRange::validRange(b)` fails, the colour map is left as it was, so the data range
keeps its old value; when it holds, the data range becomes `b` sanitized for the scale
type of the colour map (and the image is invalidated), or stays `b` if it was `b` already;
it equals `b` whenever `b` is valid and sanitizing leaves `b` as it is. With `recalc` set
and a non-empty field, `b` holds the exact minimum and maximum of the cells. -/
theorem C30_rescaleDataRange_valid_bounds (rf : QCPRangeFns) (m : QCPColorMap)
    (recalc : Bool) :
    (rescaleDataRange rf m recalc).mMapData =
      (if recalc then recalculateDataBounds m.mMapData else m.mMapData) ∧
    (rf.validRange (rescaleDataRange rf m recalc).mMapData.mDataBounds = false →
      (rescaleDataRange rf m recalc).mDataRange = m.mDataRange ∧
      (rescaleDataRange rf m recalc).mMapImageInvalidated = m.mMapImageInvalidated) ∧
    (rf.validRange (rescaleDataRange rf m recalc).mMapData.mDataBounds = true →
      m.mDataRange = (rescaleDataRange rf m recalc).mMapData.mDataBounds →
      (rescaleDataRange rf m recalc).mDataRange
        = (rescaleDataRange rf m recalc).mMapData.mDataBounds) ∧
    (rf.validRange (rescaleDataRange rf m recalc).mMapData.mDataBounds = true →
      m.mDataRange ≠ (rescaleDataRange rf m recalc).mMapData.mDataBounds →
      (rescaleDataRange rf m recalc).mDataRange =
        (if m.mDataScaleType = stLogarithmic then
          rf.sanitizedForLogScale (rescaleDataRange rf m recalc).mMapData.mDataBounds
         else rf.sanitizedForLinScale (rescaleDataRange rf m recalc).mMapData.mDataBounds) ∧
      (rescaleDataRange rf m recalc).mMapImageInvalidated = true) ∧
    (rf.validRange (rescaleDataRange rf m recalc).mMapData.mDataBounds = true →
      rf.sanitizedForLogScale (rescaleDataRange rf m recalc).mMapData.mDataBounds
        = (rescaleDataRange rf m recalc).mMapData.mDataBounds →
      rf.sanitizedForLinScale (rescaleDataRange rf m recalc).mMapData.mDataBounds
        = (rescaleDataRange rf m recalc).mMapData.mDataBounds →
      (rescaleDataRange rf m recalc).mDataRange
        = (rescaleDataRange rf m recalc).mMapData.mDataBounds) ∧
    (recalc = true → Valid m.mMapData → isEmpty m.mMapData = false →
      ExactBounds (rescaleDataRange rf m recalc).mMapData) := by
  obtain ⟨m1, hm1⟩ : ∃ m1 : QCPColorMap, m1 =
      (if recalc then { m with mMapData := recalculateDataBounds m.mMapData } else m) :=
    ⟨_, rfl⟩
  have hres : rescaleDataRange rf m recalc = setDataRange rf m1 m1.mMapData.mDataBounds := by
    rw [hm1]; rfl
  have hdata : m1.mMapData =
      (if recalc then recalculateDataBounds m.mMapData else m.mMapData) := by
    rw [hm1]; cases recalc <;> rfl
  have hrange : m1.mDataRange = m.mDataRange := by rw [hm1]; cases recalc <;> rfl
  have hscale : m1.mDataScaleType = m.mDataScaleType := by rw [hm1]; cases recalc <;> rfl
  have hinv : m1.mMapImageInvalidated = m.mMapImageInvalidated := by
    rw [hm1]; cases recalc <;> rfl
  obtain ⟨s1, s2, s3, s4⟩ := setDataRange_dataRange rf m1 m1.mMapData.mDataBounds
  rw [hres, s4]
  refine ⟨hdata, fun hv => ?_, fun hv he => ?_, fun hv hn => ?_, fun hv hlog hlin => ?_,
    fun hr hd hne => ?_⟩
  · rw [s1 hv]
    exact ⟨hrange, hinv⟩
  · rw [s2 hv (hrange.trans he)]
    exact hrange.trans he
  · rw [← hrange] at hn
    rw [← hscale]
    exact s3 hv hn
  · by_cases he : m1.mDataRange = m1.mMapData.mDataBounds
    · rw [s2 hv he]
      exact he
    · rw [(s3 hv he).1]
      split
      · exact hlog
      · exact hlin
  · obtain ⟨hK, hV⟩ := sizes_pos_of_nonempty m.mMapData hd hne
    rw [hdata, hr]
    exact recalculateDataBounds_exact m.mMapData hd hK hV

open QCPColorMap QCPColorMapData in
/-- Claim C30 fails as stated: on a colour map with the data range `[0, 5]` whose field holds
the constant `7`, `rescaleDataRange(true)` with a `validRange` that rejects ranges of
width zero leaves the bounds of the field at `(7, 7)` and the data range at `[0, 5]`. -/
theorem C30_constant_field_keeps_dataRange :
    (rescaleDataRange QCPRangeFns.simple constantColorMap true).mMapData.mDataBounds
      = ⟨7, 7⟩ ∧
    (rescaleDataRange QCPRangeFns.simple constantColorMap true).mDataRange = ⟨0, 5⟩ ∧
    (rescaleDataRange QCPRangeFns.simple constantColorMap true).mDataRange
      ≠ (rescaleDataRange QCPRangeFns.simple constantColorMap true).mMapData.mDataBounds ∧
    (rescaleDataRange QCPRangeFns.simple constantColorMap false).mDataRange
      ≠ (rescaleDataRange QCPRangeFns.simple constantColorMap false).mMapData.mDataBounds := by
  decide!

open QCPColorMap QCPColorMapData in
theorem C30_rescaleDataRange_valid_bounds_witness :
    QCPRangeFns.simple.validRange
      (rescaleDataRange QCPRangeFns.simple unscaledColorMap true).mMapData.mDataBounds
      = true ∧
    (rescaleDataRange QCPRangeFns.simple unscaledColorMap true).mDataRange
      = (rescaleDataRange QCPRangeFns.simple unscaledColorMap true).mMapData.mDataBounds ∧
    (rescaleDataRange QCPRangeFns.simple unscaledColorMap true).mDataRange = ⟨0, 5⟩ :=
  ⟨by decide!,
    (C30_rescaleDataRange_valid_bounds QCPRangeFns.simple unscaledColorMap true).2.2.2.2.1
      (by decide!) (by decide!) (by decide!),
    by decide!⟩

/-! ## The theorems on the scalar field and the map image at concrete inputs -/

open QCPColorMapData in
theorem C21_bounds_enclose_data_witness :
    isEmpty (setCell sampleField 2 1 1) = false ∧
    (∃ a, (setCell sampleField 2 1 1).mData = some a ∧
      (a.length : Int)
        = (setCell sampleField 2 1 1).mKeySize * (setCell sampleField 2 1 1).mValueSize ∧
      ∀ x ∈ a, (setCell sampleField 2 1 1).mDataBounds.lower ≤ x ∧
        x ≤ (setCell sampleField 2 1 1).mDataBounds.upper) ∧
    (∀ k v : Int, 0 ≤ k → k < (setCell sampleField 2 1 1).mKeySize → 0 ≤ v →
      v < (setCell sampleField 2 1 1).mValueSize →
      (setCell sampleField 2 1 1).mDataBounds.lower ≤ cell (setCell sampleField 2 1 1) k v ∧
      cell (setCell sampleField 2 1 1) k v ≤ (setCell sampleField 2 1 1).mDataBounds.upper) :=
  ⟨by decide!,
    C21_bounds_enclose_data (setCell sampleField 2 1 1)
      (Reachable.setCell _ 2 1 1 (Reachable.setCell _ 2 1 5 (Reachable.setCell _ 1 1 4
        (Reachable.setCell _ 0 1 3 (Reachable.setCell _ 2 0 2 (Reachable.setCell _ 1 0 1
          (Reachable.construct 3 2 ⟨2, 3⟩ ⟨0, 1⟩ (by decide) (by decide))))))))
      (by decide!)⟩

open QCPColorMapData in
theorem C22_increasing_writes_keep_maximum_witness :
    Valid twoCellField ∧ IncreasingWrites twoCellField [(1, 0, 3), (0, 0, 2)] ∧
    ∃ a, (setCells twoCellField [(1, 0, 3), (0, 0, 2)]).mData = some a ∧
      (setCells twoCellField [(1, 0, 3), (0, 0, 2)]).mDataBounds.upper ∈ a ∧
      (∀ x ∈ a, x ≤ (setCells twoCellField [(1, 0, 3), (0, 0, 2)]).mDataBounds.upper) ∧
      (∀ x ∈ a, (setCells twoCellField [(1, 0, 3), (0, 0, 2)]).mDataBounds.lower ≤ x) ∧
      (setCells twoCellField [(1, 0, 3), (0, 0, 2)]).mDataBounds.lower
        = twoCellField.mDataBounds.lower :=
  ⟨by decide!,
    ⟨by decide!, by decide!, by decide!, by decide!, by decide!,
      by decide!, by decide!, by decide!, by decide!, by decide!, trivial⟩,
    C22_increasing_writes_keep_maximum twoCellField [(1, 0, 3), (0, 0, 2)] (by decide!)
      ⟨[0, 1], by decide!, by decide!, by decide!, by decide!, by decide!⟩
      ⟨by decide!, by decide!, by decide!, by decide!, by decide!,
        by decide!, by decide!, by decide!, by decide!, by decide!, trivial⟩⟩

open QCPColorMapData in
theorem C23_scenario_stale_maximum_witness :
    Valid sampleField ∧ 2 ≤ sampleField.mKeySize * sampleField.mValueSize ∧
    (setCell (setCell (fill sampleField 0) 0 0 5) 0 0 2).mDataBounds = ⟨0, 5⟩ ∧
    (recalculateDataBounds
      (setCell (setCell (fill sampleField 0) 0 0 5) 0 0 2)).mDataBounds = ⟨0, 2⟩ :=
  ⟨by decide!, by decide!,
    C23_scenario_stale_maximum sampleField (by decide!) (by decide!) (by decide!)
      (by decide!)⟩

open QCPColorMapData in
theorem C24_fill_sets_all_cells_witness :
    Valid sampleField ∧
    (fill sampleField 7).mData = some [7, 7, 7, 7, 7, 7] ∧
    (fill sampleField 7).mDataBounds = ⟨7, 7⟩ ∧
    cell (fill sampleField 7) 2 1 = 7 :=
  ⟨by decide!,
    (C24_fill_sets_all_cells sampleField 7 (by decide!)).1.trans (by decide!),
    (C24_fill_sets_all_cells sampleField 7 (by decide!)).2.2.2.1,
    (C24_fill_sets_all_cells sampleField 7 (by decide!)).2.2.1 2 1 (by decide) (by decide!)
      (by decide) (by decide!)⟩

open QCPColorMapData in
theorem C25_setSize_discards_and_zeroes_witness :
    setSize sampleField 3 2 = sampleField ∧
    (setSize sampleField 2 2).mKeySize = 2 ∧
    (setSize sampleField 2 2).mData = some [0, 0, 0, 0] ∧
    (setSize sampleField 2 0).mData = none :=
  ⟨(C25_setSize_discards_and_zeroes sampleField 3 2 (by decide) (by decide)).1
      ⟨by decide!, by decide!⟩,
    ((C25_setSize_discards_and_zeroes sampleField 2 2 (by decide) (by decide)).2
      (Or.inl (by decide!))).1,
    (((C25_setSize_discards_and_zeroes sampleField 2 2 (by decide) (by decide)).2
      (Or.inl (by decide!))).2.2.2.2.2.2.1 (by decide) (by decide)).1.trans (by decide!),
    ((C25_setSize_discards_and_zeroes sampleField 2 0 (by decide) (by decide)).2
      (Or.inl (by decide!))).2.2.2.2.2.2.2 (Or.inr rfl)⟩

open QCPColorMapData in
theorem C26_setSize_bounds_witness :
    ((2 : Int) ≠ sampleField.mKeySize ∨ (2 : Int) ≠ sampleField.mValueSize) ∧
    (setSize sampleField 2 2).mDataBounds = ⟨0, 0⟩ ∧
    (clear sampleField).mDataBounds = sampleField.mDataBounds :=
  ⟨Or.inl (by decide!),
    (C26_setSize_bounds sampleField 2 2 (Or.inl (by decide!))).1 (by decide) (by decide),
    (C26_setSize_bounds sampleField 2 2 (Or.inl (by decide!))).2.2.2 (Or.inl (by decide!))⟩

open QCPColorMapData in
theorem C27_array_size_and_isEmpty_witness :
    ((((setSize sampleField 2 2).mData.getD []).length : Int)
      = (setSize sampleField 2 2).mKeySize * (setSize sampleField 2 2).mValueSize) ∧
    (isEmpty (setSize sampleField 2 2) = true
      ↔ (setSize sampleField 2 2).mKeySize = 0 ∨ (setSize sampleField 2 2).mValueSize = 0) ∧
    (isEmpty (setSize sampleField 2 2) = true ↔ (setSize sampleField 2 2).mData = none) ∧
    0 ≤ (setSize sampleField 2 2).mKeySize ∧ 0 ≤ (setSize sampleField 2 2).mValueSize :=
  C27_array_size_and_isEmpty (setSize sampleField 2 2)
    (Reachable.setSize _ 2 2 (Reachable.setCell _ 2 1 5 (Reachable.setCell _ 1 1 4
      (Reachable.setCell _ 0 1 3 (Reachable.setCell _ 2 0 2 (Reachable.setCell _ 1 0 1
        (Reachable.construct 3 2 ⟨2, 3⟩ ⟨0, 1⟩ (by decide) (by decide)))))))
      (by decide) (by decide))

open QCPColorMapData in
theorem C28_assignment_copies_witness :
    Valid twoCellField ∧ Valid sampleField ∧
    (operatorAssign twoCellField sampleField false).mKeySize = 3 ∧
    (operatorAssign twoCellField sampleField false).mData = some [0, 1, 2, 3, 4, 5] ∧
    (operatorAssign twoCellField sampleField false).mDataBounds = ⟨0, 5⟩ ∧
    (operatorAssign twoCellField sampleField false).mDataModified = true :=
  ⟨by decide!, by decide!,
    (C28_assignment_copies twoCellField sampleField (by decide!) (by decide!)).1.trans
      (by decide!),
    (C28_assignment_copies twoCellField sampleField (by decide!)
      (by decide!)).2.2.2.2.1.trans (by decide!),
    (C28_assignment_copies twoCellField sampleField (by decide!)
      (by decide!)).2.2.2.2.2.2.2.1.trans (by decide!),
    (C28_assignment_copies twoCellField sampleField (by decide!)
      (by decide!)).2.2.2.2.2.2.2.2.1⟩

/-! ## The modified flag of the field and the flags of the colour map -/

namespace QCPColorMap

open QCPColorGradient QCPColorMapData ScaleType QtOrientation

/-- With a key axis `updateMapImage` ends by clearing the modified flag of the field and
the invalid flag of the image. -/
theorem updateMapImage_flags (qt : Qt) (m : QCPColorMap) (ax : QCPAxis)
    (hax : m.mKeyAxis = some ax) :
    (updateMapImage qt m).mMapData.mDataModified = false ∧
    (updateMapImage qt m).mMapImageInvalidated = false := by
  simp only [updateMapImage, hax, and_self]

/-- Without a key axis `updateMapImage` returns at once. -/
theorem updateMapImage_of_null_axis (qt : Qt) (m : QCPColorMap) (hax : m.mKeyAxis = none) :
    updateMapImage qt m = m := by
  simp only [updateMapImage, hax]

/-- What `draw` does to the colour map: nothing for an empty field or a null axis, and
otherwise a call of `updateMapImage` if one of the two flags is set. -/
theorem draw_eq (qt : Qt) (m : QCPColorMap) :
    (isEmpty m.mMapData = true → draw qt m = m) ∧
    (m.mKeyAxis = none ∨ m.mValueAxis = none → draw qt m = m) ∧
    (isEmpty m.mMapData = false → m.mKeyAxis ≠ none → m.mValueAxis ≠ none →
      (m.mMapData.mDataModified = true ∨ m.mMapImageInvalidated = true →
        draw qt m = updateMapImage qt m) ∧
      (m.mMapData.mDataModified = false → m.mMapImageInvalidated = false →
        draw qt m = m)) := by
  refine ⟨fun he => ?_, fun hax => ?_, fun he hk hv => ⟨fun hf => ?_, fun h1 h2 => ?_⟩⟩
  · simp only [draw, he, if_true]
  · simp only [draw]
    split
    · rfl
    · have : m.mKeyAxis.isNone = true ∨ m.mValueAxis.isNone = true := by
        rcases hax with h | h
        · exact Or.inl (by rw [h]; rfl)
        · exact Or.inr (by rw [h]; rfl)
      rw [if_pos this]
  · have hno : ¬ (m.mKeyAxis.isNone = true ∨ m.mValueAxis.isNone = true) := by
      rintro (h | h)
      · exact hk (Option.isNone_iff_eq_none.mp h)
      · exact hv (Option.isNone_iff_eq_none.mp h)
    simp only [draw, he, Bool.false_eq_true, if_false, if_neg hno, if_pos hf]
  · have hno : ¬ (m.mKeyAxis.isNone = true ∨ m.mValueAxis.isNone = true) := by
      rintro (h | h)
      · exact hk (Option.isNone_iff_eq_none.mp h)
      · exact hv (Option.isNone_iff_eq_none.mp h)
    have hnf : ¬ (m.mMapData.mDataModified = true ∨ m.mMapImageInvalidated = true) := by
      rw [h1, h2]; simp
    simp only [draw, he, Bool.false_eq_true, if_false, if_neg hno, if_neg hnf]

end QCPColorMap

open QCPColorMap QCPColorMapData QtOrientation in
/-- Claim C31 fails for `fill`: `setSize` to another size, an accepted `setCell`, an
accepted `setData` and the assignment set the modified flag of the field, but `fill`
leaves the flag as it is. On the colour map whose image has been generated (both flags
cleared), `fill(7)` changes every cell and leaves the flag cleared, so `draw` keeps the
image of the old cells: its pixel `(0, 1)` stays black, where the regenerated image has a
white pixel. -/
theorem C31_fill_keeps_modified_flag :
    (∀ (d : QCPColorMapData) (z : ℚ), (fill d z).mDataModified = d.mDataModified) ∧
    (∀ (d : QCPColorMapData) (keySize valueSize : Int),
      keySize ≠ d.mKeySize ∨ valueSize ≠ d.mValueSize →
      (setSize d keySize valueSize).mDataModified = true) ∧
    (∀ (d : QCPColorMapData) (k v : Int) (z : ℚ), 0 ≤ k → k < d.mKeySize → 0 ≤ v →
      v < d.mValueSize → (setCell d k v z).mDataModified = true) ∧
    (∀ (d : QCPColorMapData) (key value z : ℚ),
      (setData d key value z).mDataModified = true ∨ setData d key value z = d) ∧
    (∀ t s : QCPColorMapData, (operatorAssign t s false).mDataModified = true) ∧
    cleanColorMap.mMapData.mData = some [0, 1, 2, 3, 4, 5] ∧
    cleanColorMap.mMapData.mDataModified = false ∧
    cleanColorMap.mMapImageInvalidated = false ∧
    filledColorMap.mMapData.mData = some [7, 7, 7, 7, 7, 7] ∧
    filledColorMap.mMapData.mDataModified = false ∧
    (draw Qt.gray filledColorMap).mMapImage = cleanColorMap.mMapImage ∧
    (draw Qt.gray filledColorMap).mMapImage.pixel 0 1 = some (qRgb 0 0 0) ∧
    (updateMapImage Qt.gray filledColorMap).mMapImage.pixel 0 1
      = some (qRgb 255 255 255) := by
  refine ⟨fun d z => ?_, fun d keySize valueSize h => ?_, fun d k v z h1 h2 h3 h4 => ?_,
    fun d key value z => ?_, fun t s => ?_, by decide!, by decide!, by decide!, by decide!,
    by decide!, by decide!, by decide!, by decide!⟩
  · rw [fill_eq]
  · simp only [setSize, if_pos h]
  · rw [setCell_of_inside d k v z h1 h2 h3 h4]
  · rw [setData_eq_setCell]
    simp only [setCell]
    split
    · exact Or.inl rfl
    · exact Or.inr rfl
  · simp only [operatorAssign, Bool.not_false, if_true]

open QCPColorMapData in
/-- Claim C39 fails on the code: in the field of `3 × 2` cells with the key range `[2, 3]`
and the value range `[0, 1]`, `setData(2, 0, 9)` writes the cell `(0, 0)`, but `data(2, 0)`
then returns `3`, the value of the cell `(0, 1)`: `data` computes its value index from
`1 - (value - lower)/(upper - lower)`, `setData` from `(value - lower)/(upper - lower)`. -/
theorem C39_data_reads_mirrored_value_cell :
    sampleField.mData = some [0, 1, 2, 3, 4, 5] ∧
    coordToCell sampleField 2 0 (some 0) (some 0) = (some 0, some 0) ∧
    (setData sampleField 2 0 9).mData = some [9, 1, 2, 3, 4, 5] ∧
    cell (setData sampleField 2 0 9) 0 0 = 9 ∧
    cell (setData sampleField 2 0 9) 0 1 = 3 ∧
    data (setData sampleField 2 0 9) 2 0 = 3 ∧
    data (setData sampleField 2 0 9) 2 0 ≠ 9 ∧
    data (setData sampleField 2 0 9) 2 1 = 9 := by
  decide!

open QCPColorMap QCPColorMapData in
/-- Claim C36: for a colour map with a non-empty field and both axes: if the modified flag
of the field and the invalid flag of the image are both cleared, `draw` leaves the colour
map, and so the cached image, as it is; if one of them is set, `draw` regenerates the
image by `updateMapImage` from the current field, gradient, data range and scale type; in
both cases both flags are cleared after `draw`. -/
theorem C36_draw_regenerates_when_flagged (qt : Qt) (m : QCPColorMap)
    (keyAxis valueAxis : QCPAxis) (hne : isEmpty m.mMapData = false)
    (hk : m.mKeyAxis = some keyAxis) (hv : m.mValueAxis = some valueAxis) :
    (m.mMapData.mDataModified = false → m.mMapImageInvalidated = false →
      draw qt m = m ∧ (draw qt m).mMapImage = m.mMapImage) ∧
    (m.mMapData.mDataModified = true ∨ m.mMapImageInvalidated = true →
      draw qt m = updateMapImage qt m ∧
      (draw qt m).mMapImage = (updateMapImage qt m).mMapImage) ∧
    (draw qt m).mMapData.mDataModified = false ∧
    (draw qt m).mMapImageInvalidated = false := by
  obtain ⟨_, _, h3⟩ := draw_eq qt m
  obtain ⟨hyes, hno⟩ := h3 hne (by rw [hk]; simp) (by rw [hv]; simp)
  have hflags := updateMapImage_flags qt m keyAxis hk
  refine ⟨fun h1 h2 => ?_, fun hf => ?_, ?_⟩
  · rw [hno h1 h2]
    exact ⟨rfl, rfl⟩
  · rw [hyes hf]
    exact ⟨rfl, rfl⟩
  · by_cases hf : m.mMapData.mDataModified = true ∨ m.mMapImageInvalidated = true
    · rw [hyes hf]
      exact hflags
    · have h1 : m.mMapData.mDataModified = false := by
        cases h : m.mMapData.mDataModified
        · rfl
        · exact absurd (Or.inl h) hf
      have h2 : m.mMapImageInvalidated = false := by
        cases h : m.mMapImageInvalidated
        · rfl
        · exact absurd (Or.inr h) hf
      rw [hno h1 h2]
      exact ⟨h1, h2⟩

open QCPColorMap QCPColorMapData QtOrientation in
theorem C36_draw_regenerates_when_flagged_witness :
    isEmpty (sampleColorMap Horizontal).mMapData = false ∧
    (sampleColorMap Horizontal).mMapImageInvalidated = true ∧
    draw Qt.gray (sampleColorMap Horizontal)
      = updateMapImage Qt.gray (sampleColorMap Horizontal) ∧
    (draw Qt.gray (sampleColorMap Horizontal)).mMapData.mDataModified = false ∧
    (draw Qt.gray (sampleColorMap Horizontal)).mMapImageInvalidated = false ∧
    draw Qt.gray cleanColorMap = cleanColorMap :=
  ⟨by decide!, by decide!,
    ((C36_draw_regenerates_when_flagged Qt.gray (sampleColorMap Horizontal)
      ⟨Horizontal, false⟩ ⟨QtOrientation.Vertical, false⟩ (by decide!) rfl rfl).2.1
        (Or.inr (by decide!))).1,
    (C36_draw_regenerates_when_flagged Qt.gray (sampleColorMap Horizontal)
      ⟨Horizontal, false⟩ ⟨QtOrientation.Vertical, false⟩ (by decide!) rfl rfl).2.2.1,
    (C36_draw_regenerates_when_flagged Qt.gray (sampleColorMap Horizontal)
      ⟨Horizontal, false⟩ ⟨QtOrientation.Vertical, false⟩ (by decide!) rfl rfl).2.2.2,
    ((C36_draw_regenerates_when_flagged Qt.gray cleanColorMap
      ⟨Horizontal, false⟩ ⟨QtOrientation.Vertical, false⟩ (by decide!) (by decide!)
        (by decide!)).1 (by decide!) (by decide!)).1⟩

open QCPColorGradient ColorInterpolation in
/-- Claim C35, as amended: `setColorStops`, `setColorStopAt` and `clearColorStops` always
mark the buffer dirty; `setLevelCount(n)` marks it dirty if `max(n, 2)` is not the current
level count and otherwise leaves the gradient as it is; `setColorInterpolation` marks it
dirty if the mode is not the current one and otherwise leaves the gradient as it is;
`setPeriodic` leaves the flag and the buffer as they are. No mutator marks a dirty buffer
clean, and `updateColorBuffer` marks the buffer clean. -/
theorem C35_mutators_and_dirty_flag (qt : Qt) (g : QCPColorGradient) :
    (∀ stops, (setColorStops g stops).mColorBufferInvalidated = true) ∧
    (∀ p c, (setColorStopAt g p c).mColorBufferInvalidated = true) ∧
    (clearColorStops g).mColorBufferInvalidated = true ∧
    (∀ n, max n 2 ≠ g.mLevelCount → (setLevelCount g n).mColorBufferInvalidated = true) ∧
    (∀ n, max n 2 = g.mLevelCount → setLevelCount g n = g) ∧
    (∀ i, i ≠ g.mColorInterpolation →
      (setColorInterpolation g i).mColorBufferInvalidated = true) ∧
    (∀ i, i = g.mColorInterpolation → setColorInterpolation g i = g) ∧
    (∀ e, (setPeriodic g e).mColorBufferInvalidated = g.mColorBufferInvalidated ∧
      (setPeriodic g e).mColorBuffer = g.mColorBuffer) ∧
    (g.mColorBufferInvalidated = true →
      (∀ n, (setLevelCount g n).mColorBufferInvalidated = true) ∧
      (∀ i, (setColorInterpolation g i).mColorBufferInvalidated = true) ∧
      (∀ e, (setPeriodic g e).mColorBufferInvalidated = true)) ∧
    (updateColorBuffer qt g).mColorBufferInvalidated = false := by
  have hmax : ∀ n : Int, (if n < 2 then 2 else n) = max n 2 := by
    intro n
    simp only [max_def]
    split_ifs <;> omega
  refine ⟨fun _ => rfl, fun _ _ => rfl, rfl, fun n hn => ?_, fun n hn => ?_, fun i hi => ?_,
    fun i hi => ?_, fun _ => ⟨rfl, rfl⟩, fun hd => ⟨fun n => ?_, fun i => ?_, fun _ => hd⟩,
    rfl⟩
  · simp only [setLevelCount, hmax, if_pos hn]
  · simp only [setLevelCount, hmax, hn, ne_eq, not_true_eq_false, if_false]
  · simp only [setColorInterpolation, if_pos hi]
  · simp only [setColorInterpolation, hi, ne_eq, not_true_eq_false, if_false]
  · simp only [setLevelCount, hmax]
    split
    · rfl
    · exact hd
  · simp only [setColorInterpolation]
    split
    · rfl
    · exact hd

open QCPColorGradient ColorInterpolation in
/-- Claim C35 fails as stated: the gradient of three stops with four levels, RGB mode and
a buffer that has just been built is clean; it is still clean after `setPeriodic(true)`,
after `setLevelCount(4)` and after `setColorInterpolation(ciRGB)`. -/
theorem C35_clean_buffer_stays_clean :
    cleanGradient.mColorBufferInvalidated = false ∧
    cleanGradient.mLevelCount = 4 ∧
    cleanGradient.mColorInterpolation = ciRGB ∧
    (setPeriodic cleanGradient true).mColorBufferInvalidated = false ∧
    (setPeriodic cleanGradient false).mColorBufferInvalidated = false ∧
    (setLevelCount cleanGradient 4).mColorBufferInvalidated = false ∧
    (setColorInterpolation cleanGradient ciRGB).mColorBufferInvalidated = false := by
  decide!

open QCPColorGradient ColorInterpolation in
theorem C35_mutators_and_dirty_flag_witness :
    (setLevelCount cleanGradient 5).mColorBufferInvalidated = true ∧
    setLevelCount cleanGradient 1 = setLevelCount cleanGradient 2 ∧
    (setColorInterpolation cleanGradient ciHSV).mColorBufferInvalidated = true ∧
    setColorInterpolation cleanGradient ciRGB = cleanGradient :=
  ⟨(C35_mutators_and_dirty_flag Qt.gray cleanGradient).2.2.2.1 5 (by decide!),
    by decide!,
    (C35_mutators_and_dirty_flag Qt.gray cleanGradient).2.2.2.2.2.1 ciHSV (by decide!),
    (C35_mutators_and_dirty_flag Qt.gray cleanGradient).2.2.2.2.2.2.1 ciRGB (by decide!)⟩

/-! ## The map image of an empty field -/

namespace QImage

/-- Writing back the pixels of a scan line leaves the image as it is. -/
theorem setScanLine_scanLine (img : QImage) (y : Int) :
    img.setScanLine y (img.scanLine y) = img := by
  simp only [scanLine]
  by_cases hy : 0 ≤ y
  · rw [if_pos hy]
    cases h : img.lines[y.toNat]? with
    | none => rfl
    | some row =>
      simp only [setScanLine, if_pos hy]
      have hset : img.lines.set y.toNat row = img.lines := by
        apply List.ext_getElem?
        intro i
        rw [List.getElem?_set]
        by_cases hi : y.toNat = i
        · subst hi
          rw [if_pos rfl, h]
          split
          · rfl
          · rename_i hlt
            rw [List.getElem?_eq_none (by omega)] at h
            exact absurd h (by simp)
        · rw [if_neg hi]
      rw [hset]
  · rw [if_neg hy]
    rfl

end QImage

namespace QCPColorMap

open QCPColorGradient QCPColorMapData ScaleType QtOrientation

/-- With a null data pointer `colorize` returns at once, so a pass of the loops of
`updateMapImage` leaves the colour map as it is. -/
theorem colorizeLine_of_null (qt : Qt) (m : QCPColorMap) (y n s : Int) :
    colorizeLine qt m none y n s = m := by
  simp only [colorizeLine, colorize, QImage.setScanLine_scanLine]

/-- The loops of `updateMapImage` with a null data pointer leave the colour map as it
is. -/
theorem colorizeLines_of_null (qt : Qt) (yy : Nat → Int) (n s : Int) (l : List Nat) :
    ∀ m : QCPColorMap,
      l.foldl (fun m' line => colorizeLine qt m' none (yy line) n s) m = m := by
  induction l with
  | nil => intro m; rfl
  | cons x xs ih =>
    intro m
    rw [List.foldl_cons, colorizeLine_of_null, ih]

/-- On a field without an array `updateMapImage` writes no pixel: it replaces the image if
its size is not the one of the field, and clears the two flags. -/
theorem updateMapImage_of_null_data (qt : Qt) (m : QCPColorMap) (ax : QCPAxis)
    (hax : m.mKeyAxis = some ax) (hdata : m.mMapData.mData = none) :
    updateMapImage qt m =
      { m with
        mMapImage :=
          if ax.orientation = Horizontal ∧
              (m.mMapImage.width ≠ m.mMapData.mKeySize ∨
                m.mMapImage.height ≠ m.mMapData.mValueSize) then
            QImage.mk' m.mMapData.mKeySize m.mMapData.mValueSize
          else if ax.orientation = Vertical ∧
              (m.mMapImage.width ≠ m.mMapData.mValueSize ∨
                m.mMapImage.height ≠ m.mMapData.mKeySize) then
            QImage.mk' m.mMapData.mValueSize m.mMapData.mKeySize
          else m.mMapImage
        mMapData := { m.mMapData with mDataModified := false }
        mMapImageInvalidated := false } := by
  simp only [updateMapImage, hax]
  split_ifs <;>
    simp only [hdata, hax, offsetPointer, Option.map_none', colorizeLines_of_null]

end QCPColorMap

open QCPColorMap QCPColorMapData QtOrientation in
/-- Claim C32, as amended: for a field with `keySize = 0` or `valueSize = 0`, `isEmpty()`
is true and `draw` leaves the colour map (image, both flags, field) as it is, since it
returns before it calls `updateMapImage`. `updateMapImage` itself is a no-op when the key
axis is null; with a key axis it writes no pixel, but it clears the modified flag of the
field and the invalid flag of the image, and it replaces the image by the null image
unless the image has the size of the field already (transposed for a vertical key
axis). -/
theorem C32_empty_field_draw_noop (qt : Qt) (m : QCPColorMap) (hd : Valid m.mMapData)
    (h0 : m.mMapData.mKeySize = 0 ∨ m.mMapData.mValueSize = 0) :
    isEmpty m.mMapData = true ∧
    draw qt m = m ∧
    (m.mKeyAxis = none → updateMapImage qt m = m) ∧
    (∀ ax, m.mKeyAxis = some ax →
      (updateMapImage qt m).mMapData = { m.mMapData with mDataModified := false } ∧
      (updateMapImage qt m).mMapImageInvalidated = false ∧
      (updateMapImage qt m).mDataRange = m.mDataRange ∧
      (ax.orientation = Horizontal →
        (m.mMapImage.width = m.mMapData.mKeySize ∧
            m.mMapImage.height = m.mMapData.mValueSize →
          (updateMapImage qt m).mMapImage = m.mMapImage) ∧
        (m.mMapImage.width ≠ m.mMapData.mKeySize ∨
            m.mMapImage.height ≠ m.mMapData.mValueSize →
          (updateMapImage qt m).mMapImage = ⟨0, 0, []⟩)) ∧
      (ax.orientation = Vertical →
        (m.mMapImage.width = m.mMapData.mValueSize ∧
            m.mMapImage.height = m.mMapData.mKeySize →
          (updateMapImage qt m).mMapImage = m.mMapImage) ∧
        (m.mMapImage.width ≠ m.mMapData.mValueSize ∨
            m.mMapImage.height ≠ m.mMapData.mKeySize →
          (updateMapImage qt m).mMapImage = ⟨0, 0, []⟩))) := by
  have hempty : m.mMapData.mIsEmpty = true := by
    rw [hd.2.2.1]
    rcases h0 with h | h <;> simp [h]
  have hdata : m.mMapData.mData = none := (data_of_valid m.mMapData hd).1 hempty
  have hnull1 : QImage.mk' m.mMapData.mKeySize m.mMapData.mValueSize = ⟨0, 0, []⟩ := by
    have : ¬ (0 < m.mMapData.mKeySize ∧ 0 < m.mMapData.mValueSize) := by omega
    simp only [QImage.mk', if_neg this]
  have hnull2 : QImage.mk' m.mMapData.mValueSize m.mMapData.mKeySize = ⟨0, 0, []⟩ := by
    have : ¬ (0 < m.mMapData.mValueSize ∧ 0 < m.mMapData.mKeySize) := by omega
    simp only [QImage.mk', if_neg this]
  refine ⟨hempty, (draw_eq qt m).1 hempty, updateMapImage_of_null_axis qt m, ?_⟩
  intro ax hax
  rw [updateMapImage_of_null_data qt m ax hax hdata]
  refine ⟨rfl, rfl, rfl, fun ho => ⟨fun hs => ?_, fun hs => ?_⟩,
    fun ho => ⟨fun hs => ?_, fun hs => ?_⟩⟩
  · have h1 : ¬ (m.mMapImage.width ≠ m.mMapData.mKeySize ∨
        m.mMapImage.height ≠ m.mMapData.mValueSize) := by
      rintro (h | h)
      · exact h hs.1
      · exact h hs.2
    simp only [ho, true_and, if_neg h1, reduceCtorEq, false_and, if_false]
  · simp only [ho, true_and, if_pos hs, hnull1]
  · have h1 : ¬ (m.mMapImage.width ≠ m.mMapData.mValueSize ∨
        m.mMapImage.height ≠ m.mMapData.mKeySize) := by
      rintro (h | h)
      · exact h hs.1
      · exact h hs.2
    simp only [ho, true_and, if_neg h1, reduceCtorEq, false_and, if_false]
  · simp only [ho, true_and, if_pos hs, hnull2, reduceCtorEq, false_and, if_false]

open QCPColorMap QCPColorMapData in
/-- Claim C32 fails for `updateMapImage`: the colour map with a generated image of `3 × 2`
pixels whose field has then been cleared has an empty field with the modified flag set
and a key axis; `draw` leaves it as it is, but `updateMapImage` replaces the image by the
null image and clears the modified flag. -/
theorem C32_updateMapImage_on_empty_field :
    clearedColorMap.mMapData.mKeySize = 0 ∧
    isEmpty clearedColorMap.mMapData = true ∧
    clearedColorMap.mMapData.mDataModified = true ∧
    clearedColorMap.mMapImage.width = 3 ∧ clearedColorMap.mMapImage.height = 2 ∧
    (draw Qt.gray clearedColorMap).mMapImage = clearedColorMap.mMapImage ∧
    (draw Qt.gray clearedColorMap).mMapData.mDataModified = true ∧
    (updateMapImage Qt.gray clearedColorMap).mMapImage = ⟨0, 0, []⟩ ∧
    (updateMapImage Qt.gray clearedColorMap).mMapImage ≠ clearedColorMap.mMapImage ∧
    (updateMapImage Qt.gray clearedColorMap).mMapData.mDataModified = false := by
  decide!

open QCPColorMap QCPColorMapData in
theorem C32_empty_field_draw_noop_witness :
    Valid clearedColorMap.mMapData ∧ clearedColorMap.mMapData.mKeySize = 0 ∧
    isEmpty clearedColorMap.mMapData = true ∧
    draw Qt.gray clearedColorMap = clearedColorMap :=
  ⟨by decide!, by decide!,
    (C32_empty_field_draw_noop Qt.gray clearedColorMap (by decide!)
      (Or.inl (by decide!))).1,
    (C32_empty_field_draw_noop Qt.gray clearedColorMap (by decide!)
      (Or.inl (by decide!))).2.1⟩

/-! ## The hue of the HSV interpolation -/

namespace QCPColorGradient

open ColorInterpolation GradientPreset

/-- The buffer that `updateColorBuffer` builds depends on the level count, the stop table
and the interpolation mode only. -/
theorem updateColorBuffer_congr (qt : Qt) (g g' : QCPColorGradient)
    (hL : g.mLevelCount = g'.mLevelCount) (hs : g.mColorStops = g'.mColorStops)
    (hi : g.mColorInterpolation = g'.mColorInterpolation) :
    (updateColorBuffer qt g).mColorBuffer = (updateColorBuffer qt g').mColorBuffer := by
  have hf : bufferEntry qt g = bufferEntry qt g' := by
    funext i
    exact bufferEntry_congr qt g g' i hL hs hi
  rw [updateColorBuffer_buffer, updateColorBuffer_buffer, hL, hs, hf]

/-- A gradient whose buffer has just been built satisfies the invariant. -/
theorem invariant_updateColorBuffer (qt : Qt) (g : QCPColorGradient)
    (hL : 2 ≤ g.mLevelCount) :
    Valid (updateColorBuffer qt g) ∧ BufferCurrent qt (updateColorBuffer qt g) := by
  refine ⟨⟨hL, fun _ => ?_⟩, fun _ => ?_⟩
  · rw [updateColorBuffer_length]
    simp only [updateColorBuffer_levelCount]
    omega
  · exact updateColorBuffer_congr qt g (updateColorBuffer qt g) rfl rfl rfl

/-- A gradient whose buffer is marked dirty satisfies the invariant if it has two
levels. -/
theorem invariant_of_dirty (qt : Qt) (g : QCPColorGradient) (hL : 2 ≤ g.mLevelCount)
    (hd : g.mColorBufferInvalidated = true) : Valid g ∧ BufferCurrent qt g := by
  refine ⟨⟨hL, fun h => ?_⟩, fun h => ?_⟩
  · rw [hd] at h; exact absurd h (by decide)
  · rw [hd] at h; exact absurd h (by decide)

/-- The lazy rebuild at the start of `color` and `colorize` keeps the invariant. -/
theorem invariant_rebuilt (qt : Qt) (g : QCPColorGradient)
    (h : Valid g ∧ BufferCurrent qt g) :
    Valid (if g.mColorBufferInvalidated then updateColorBuffer qt g else g) ∧
    BufferCurrent qt (if g.mColorBufferInvalidated then updateColorBuffer qt g else g) := by
  split
  · exact invariant_updateColorBuffer qt g h.1.1
  · exact h

/-- The loop of `setColorStopAt` calls leaves a dirty buffer dirty. -/
theorem setColorStopAt_loop_dirty (f : ℚ × QColor → ℚ) (l : List (ℚ × QColor)) :
    ∀ g : QCPColorGradient, g.mColorBufferInvalidated = true →
      (l.foldl (fun g s => setColorStopAt g (f s) s.2) g).mColorBufferInvalidated = true := by
  induction l with
  | nil => intro g hg; exact hg
  | cons x xs ih =>
    intro g _
    rw [List.foldl_cons]
    exact ih _ rfl

/-- After `loadPreset` the buffer is marked dirty and the level count is as before. -/
theorem loadPreset_dirty (g : QCPColorGradient) (preset : GradientPreset) :
    (loadPreset g preset).mColorBufferInvalidated = true ∧
    (loadPreset g preset).mLevelCount = g.mLevelCount := by
  have hd : ∀ m, (setColorInterpolation (clearColorStops g) m).mColorBufferInvalidated
      = true := by
    intro m
    simp only [setColorInterpolation, clearColorStops]
    split <;> rfl
  cases preset <;>
  · simp only [loadPreset]
    exact ⟨setColorStopAt_loop_dirty (fun s => s.1) _ _ (hd _),
      by rw [(setColorStopAt_loop _ _).2.1, (cleared_settings g _).2.1]⟩

/-- After `inverted` the buffer is marked dirty and the level count is as before. -/
theorem inverted_dirty (g : QCPColorGradient) :
    (inverted g).mColorBufferInvalidated = true ∧
    (inverted g).mLevelCount = g.mLevelCount := by
  simp only [inverted]
  exact ⟨setColorStopAt_loop_dirty (fun s => 1 - s.1) _ _ rfl,
    (inverted_loop_settings _ _).1⟩

/-- The gradient that `colorize` leaves: the receiver, with its buffer rebuilt if the
pointers are not null and the buffer was dirty. -/
theorem colorize_fst_cases (qt : Qt) (g : QCPColorGradient) (data : Option (List ℚ))
    (range : QCPRange) (scanLine : Option (List QRgb)) (n s : Int) (logarithmic : Bool) :
    (colorize qt g data range scanLine n s logarithmic).1 = g ∨
    (colorize qt g data range scanLine n s logarithmic).1
      = if g.mColorBufferInvalidated then updateColorBuffer qt g else g := by
  cases data with
  | none => exact Or.inl (by simp only [colorize])
  | some d =>
    cases scanLine with
    | none => exact Or.inl (by simp only [colorize])
    | some sl => exact Or.inr (colorize_fst qt g d range sl n s logarithmic)

/-- Every gradient the class produces has at least two levels, and its buffer, when
marked clean, has `mLevelCount` entries and is the one `updateColorBuffer` builds. -/
theorem invariant_of_reachable (qt : Qt) (g : QCPColorGradient) (h : Reachable qt g) :
    Valid g ∧ BufferCurrent qt g := by
  induction h with
  | construct preset =>
    obtain ⟨h1, h2⟩ := loadPreset_dirty
      { mLevelCount := 350
        mColorStops := []
        mColorInterpolation := ciRGB
        mPeriodic := false
        mColorBuffer := QVector.fillN [] (qRgb 0 0 0) 350
        mColorBufferInvalidated := true } preset
    exact invariant_of_dirty qt _ (by rw [mk', h2]; decide) h1
  | setLevelCount g n _ ih =>
    by_cases hn : (if n < 2 then 2 else n) ≠ g.mLevelCount
    · refine invariant_of_dirty qt _ ?_ ?_
      · rw [setLevelCount_levelCount]; omega
      · simp only [setLevelCount, if_pos hn]
    · have e : setLevelCount g n = g := by simp only [setLevelCount, if_neg hn]
      rw [e]; exact ih
  | setColorStops g stops _ ih => exact invariant_of_dirty qt _ ih.1.1 rfl
  | setColorStopAt g p c _ ih => exact invariant_of_dirty qt _ ih.1.1 rfl
  | clearColorStops g _ ih => exact invariant_of_dirty qt _ ih.1.1 rfl
  | setColorInterpolation g i _ ih =>
    by_cases hi : i ≠ g.mColorInterpolation
    · refine invariant_of_dirty qt _ ?_ ?_
      · simp only [setColorInterpolation, if_pos hi]; exact ih.1.1
      · simp only [setColorInterpolation, if_pos hi]
    · have e : setColorInterpolation g i = g := by
        simp only [setColorInterpolation, if_neg hi]
      rw [e]; exact ih
  | setPeriodic g e _ ih =>
    refine ⟨⟨ih.1.1, ih.1.2⟩, fun hc => ?_⟩
    have h1 : g.mColorBuffer = (updateColorBuffer qt g).mColorBuffer := ih.2 hc
    have h2 := updateColorBuffer_congr qt (setPeriodic g e) g rfl rfl rfl
    rw [h2]
    exact h1
  | loadPreset g preset _ ih =>
    obtain ⟨h1, h2⟩ := loadPreset_dirty g preset
    exact invariant_of_dirty qt _ (by rw [h2]; exact ih.1.1) h1
  | color g position range logarithmic _ ih =>
    rw [color_fst]
    exact invariant_rebuilt qt g ih
  | colorize g data range scanLine n s logarithmic _ ih =>
    rcases colorize_fst_cases qt g data range scanLine n s logarithmic with e | e
    · rw [e]; exact ih
    · rw [e]; exact invariant_rebuilt qt g ih
  | inverted g _ ih =>
    obtain ⟨h1, h2⟩ := inverted_dirty g
    exact invariant_of_dirty qt _ (by rw [h2]; exact ih.1.1) h1

end QCPColorGradient

namespace QCPColorGradient

end QCPColorGradient

open QCPColorGradient in
/-- Claim C37: in every gradient state reachable from construction through
`setLevelCount`, `setColorStops`, `setColorStopAt`, `clearColorStops`,
`setColorInterpolation`, `setPeriodic`, `loadPreset`, `color`, `colorize` (and
`inverted`): the level count is at least two, and a buffer that is marked clean has
exactly `mLevelCount` entries and is the buffer that `updateColorBuffer` builds from the
current stop table, interpolation mode and level count, whatever buffer it starts
from. -/
theorem C37_reachable_gradient_invariant (qt : Qt) (g : QCPColorGradient)
    (h : Reachable qt g) :
    2 ≤ g.mLevelCount ∧
    (g.mColorBufferInvalidated = false →
      (g.mColorBuffer.length : Int) = g.mLevelCount ∧
      g.mColorBuffer = (updateColorBuffer qt g).mColorBuffer ∧
      ∀ (buffer : List QRgb) (periodic invalidated : Bool),
        g.mColorBuffer = (updateColorBuffer qt
          { mLevelCount := g.mLevelCount
            mColorStops := g.mColorStops
            mColorInterpolation := g.mColorInterpolation
            mPeriodic := periodic
            mColorBuffer := buffer
            mColorBufferInvalidated := invalidated }).mColorBuffer) := by
  obtain ⟨hv, hc⟩ := invariant_of_reachable qt g h
  refine ⟨hv.1, fun hclean => ⟨hv.2 hclean, hc hclean, fun buffer periodic invalidated => ?_⟩⟩
  rw [hc hclean]
  exact updateColorBuffer_congr qt g _ rfl rfl rfl

open QCPColorGradient in
theorem C37_reachable_gradient_invariant_witness :
    (color Qt.gray threeStopGradient 0 unitRange false).1.mColorBufferInvalidated = false ∧
    (2 : Int) ≤ (color Qt.gray threeStopGradient 0 unitRange false).1.mLevelCount ∧
    (((color Qt.gray threeStopGradient 0 unitRange false).1.mColorBuffer.length : Int)
      = (color Qt.gray threeStopGradient 0 unitRange false).1.mLevelCount) ∧
    (color Qt.gray threeStopGradient 0 unitRange false).1.mColorBuffer
      = (updateColorBuffer Qt.gray
          (color Qt.gray threeStopGradient 0 unitRange false).1).mColorBuffer :=
  ⟨by decide!,
    (C37_reachable_gradient_invariant Qt.gray _
      (Reachable.color _ 0 unitRange false
        (Reachable.setColorStopAt _ (1 / 2) ⟨255, 0, 0⟩
          (Reachable.setLevelCount _ 4
            (Reachable.construct GradientPreset.gpGrayscale))))).1,
    ((C37_reachable_gradient_invariant Qt.gray _
      (Reachable.color _ 0 unitRange false
        (Reachable.setColorStopAt _ (1 / 2) ⟨255, 0, 0⟩
          (Reachable.setLevelCount _ 4
            (Reachable.construct GradientPreset.gpGrayscale))))).2 (by decide!)).1,
    ((C37_reachable_gradient_invariant Qt.gray _
      (Reachable.color _ 0 unitRange false
        (Reachable.setColorStopAt _ (1 / 2) ⟨255, 0, 0⟩
          (Reachable.setLevelCount _ 4
            (Reachable.construct GradientPreset.gpGrayscale))))).2 (by decide!)).2.1⟩

namespace QMap

/-- What `lowerBound` returns: the entries before it have keys below `p`, the entry at it,
if there is one, has a key that is at least `p`. -/
theorem lowerBound_spec {β : Type} (m : List (ℚ × β)) (p : ℚ) :
    lowerBound m p ≤ m.length ∧
    (∀ (i : Nat) (e : ℚ × β), i < lowerBound m p → m[i]? = some e → e.1 < p) ∧
    (∀ e : ℚ × β, m[lowerBound m p]? = some e → p ≤ e.1) := by
  induction m with
  | nil => simp [lowerBound]
  | cons x xs ih =>
    obtain ⟨k', v'⟩ := x
    obtain ⟨h1, h2, h3⟩ := ih
    by_cases hk : k' < p
    · simp only [lowerBound, hk, if_true, List.length_cons]
      refine ⟨by omega, fun i e hi he => ?_, fun e he => ?_⟩
      · cases i with
        | zero =>
          simp only [List.getElem?_cons_zero, Option.some.injEq] at he
          rw [← he]; exact hk
        | succ i =>
          simp only [List.getElem?_cons_succ] at he
          exact h2 i e (by omega) he
      · simp only [List.getElem?_cons_succ] at he
        exact h3 e he
    · simp only [lowerBound, hk, if_false, List.length_cons]
      refine ⟨by omega, fun i e hi _ => absurd hi (by omega), fun e he => ?_⟩
      simp only [List.getElem?_cons_zero, Option.some.injEq] at he
      rw [← he]
      exact not_lt.mp hk

/-- The position `lowerBound` returns is the first one whose key is at least `p`. -/
theorem lowerBound_eq_of_first {β : Type} (m : List (ℚ × β)) (p : ℚ) (j : Nat)
    (hj : j ≤ m.length)
    (hbefore : ∀ (i : Nat) (e : ℚ × β), i < j → m[i]? = some e → e.1 < p)
    (hat : ∀ e : ℚ × β, m[j]? = some e → p ≤ e.1) : lowerBound m p = j := by
  obtain ⟨h1, h2, h3⟩ := lowerBound_spec m p
  rcases Nat.lt_trichotomy (lowerBound m p) j with h | h | h
  · have hlt : lowerBound m p < m.length := by omega
    have := h3 _ (List.getElem?_eq_getElem hlt)
    have := hbefore _ _ h (List.getElem?_eq_getElem hlt)
    linarith
  · exact h
  · have hlt : j < m.length := by omega
    have := hat _ (List.getElem?_eq_getElem hlt)
    have := h2 _ _ h (List.getElem?_eq_getElem hlt)
    linarith

theorem valueAt_of_getElem? (m : List (ℚ × QColor)) (j : Nat) (e : ℚ × QColor)
    (h : m[j]? = some e) : valueAt m j = e.2 := by
  simp [valueAt, List.get?_eq_getElem?, h]

theorem keyAt_of_getElem? {β : Type} (m : List (ℚ × β)) (j : Nat) (e : ℚ × β)
    (h : m[j]? = some e) : keyAt m j = e.1 := by
  simp [keyAt, List.get?_eq_getElem?, h]

end QMap

namespace QCPColorGradient

open ColorInterpolation

/-- Entry `i` of the buffer that `updateColorBuffer` builds from two or more stops. -/
theorem updateColorBuffer_getElem? (qt : Qt) (g : QCPColorGradient) (i : Nat)
    (hstops : 2 ≤ g.mColorStops.length) (hi : (i : Int) < g.mLevelCount) :
    (updateColorBuffer qt g).mColorBuffer[i]? = some (bufferEntry qt g i) := by
  rw [updateColorBuffer_buffer, if_pos (by omega), List.getElem?_map,
    List.getElem?_range (by omega)]
  rfl

end QCPColorGradient

/-! ## The buffer of the inverted gradient -/

namespace QMap

end QMap

namespace QCPColorGradient

open ColorInterpolation

end QCPColorGradient

namespace QCPColorGradient

end QCPColorGradient

namespace Ieee

theorem round_zero : round 0 = 0 := by
  simp [round]

theorem mul_zero_left (x : ℚ) : mul 0 x = 0 := by
  simp [mul, round_zero]

theorem sub_same (x : ℚ) : sub x x = 0 := by
  simp [sub, round_zero]

theorem div_zero_left (x : ℚ) : div 0 x = 0 := by
  simp [div, round_zero]

theorem ofInt_zero : ofInt 0 = 0 := by
  simp [ofInt, round_zero]

theorem add_zero_of_isDouble (x : ℚ) (hx : IsDouble x) : add x 0 = x := by
  simp only [add, add_zero]
  exact hx

namespace QCPColorGradient

open ColorInterpolation

/-- Closed form of the buffer built by `updateColorBuffer` in double arithmetic, whatever
the buffer was before. -/
theorem updateColorBuffer_buffer_in_doubles (qt : Qt) (g : QCPColorGradient) :
    (updateColorBuffer qt g).mColorBuffer =
      if g.mColorStops.length > 1 then
        (List.range g.mLevelCount.toNat).map (bufferEntry qt g)
      else if g.mColorStops.length = 1 then
        List.replicate g.mLevelCount.toNat (QMap.valueAt g.mColorStops 0).rgb
      else List.replicate g.mLevelCount.toNat (qRgb 0 0 0) := by
  have hlen := resized_length g
  simp only [updateColorBuffer]
  split
  · apply List.ext_getElem?
    intro i
    rw [foldl_set_getElem?, hlen]
    by_cases hi : i < g.mLevelCount.toNat
    · simp [hi]
    · simp only [hi, and_self, if_false]
      rw [List.getElem?_eq_none (by rw [hlen]; omega),
        List.getElem?_eq_none (by simp; omega)]
  · split
    · simp only [QVector.fill, hlen]
    · simp only [QVector.fill, hlen]

/-- Entry `i` of the buffer that `updateColorBuffer` builds from two or more stops. -/
theorem updateColorBuffer_getElem_in_doubles? (qt : Qt) (g : QCPColorGradient) (i : Nat)
    (hstops : 2 ≤ g.mColorStops.length) (hi : (i : Int) < g.mLevelCount) :
    (updateColorBuffer qt g).mColorBuffer[i]? = some (bufferEntry qt g i) := by
  rw [updateColorBuffer_buffer_in_doubles, if_pos (by omega), List.getElem?_map,
    List.getElem?_range (by omega)]
  rfl

/-- The buffer entry for a sample position above all stops is the colour of the last
stop. -/
theorem bufferEntry_of_end_in_doubles (qt : Qt) (g : QCPColorGradient) (i : Nat)
    (last : ℚ × QColor)
    (hlb : QMap.lowerBound g.mColorStops
      (mul (ofInt i) (div 1 (ofInt (g.mLevelCount - 1)))) = g.mColorStops.length)
    (hlast : g.mColorStops[g.mColorStops.length - 1]? = some last) :
    bufferEntry qt g i = last.2.rgb := by
  simp only [bufferEntry, hlb, if_true, QMap.valueAt_of_getElem? _ _ _ hlast]

/-- The buffer entry for a sample position at or before the first stop is the colour of
the first stop. -/
theorem bufferEntry_of_begin_in_doubles (qt : Qt) (g : QCPColorGradient) (i : Nat)
    (first : ℚ × QColor)
    (hlb : QMap.lowerBound g.mColorStops
      (mul (ofInt i) (div 1 (ofInt (g.mLevelCount - 1)))) = 0)
    (hfirst : g.mColorStops[0]? = some first) :
    bufferEntry qt g i = first.2.rgb := by
  have hne : ¬ (0 = g.mColorStops.length) := by
    intro h
    rw [List.getElem?_eq_none (by omega)] at hfirst
    exact absurd hfirst (by simp)
  simp only [bufferEntry, hlb, if_neg hne, if_true, QMap.valueAt_of_getElem? _ _ _ hfirst]

/-- The buffer entry in RGB mode for a sample position between two stops: the channels of
the two stops, interpolated in double arithmetic and truncated. -/
theorem bufferEntry_of_between_in_doubles (qt : Qt) (g : QCPColorGradient) (i j : Nat)
    (low high : ℚ × QColor) (hrgb : g.mColorInterpolation = ciRGB)
    (hlb : QMap.lowerBound g.mColorStops
      (mul (ofInt i) (div 1 (ofInt (g.mLevelCount - 1)))) = j + 1)
    (hlow : g.mColorStops[j]? = some low) (hhigh : g.mColorStops[j + 1]? = some high) :
    bufferEntry qt g i =
      qRgb
        (truncToInt (add
          (mul (sub 1 (div (sub (mul (ofInt i) (div 1 (ofInt (g.mLevelCount - 1)))) low.1)
            (sub high.1 low.1))) (ofInt low.2.red))
          (mul (div (sub (mul (ofInt i) (div 1 (ofInt (g.mLevelCount - 1)))) low.1)
            (sub high.1 low.1)) (ofInt high.2.red))))
        (truncToInt (add
          (mul (sub 1 (div (sub (mul (ofInt i) (div 1 (ofInt (g.mLevelCount - 1)))) low.1)
            (sub high.1 low.1))) (ofInt low.2.green))
          (mul (div (sub (mul (ofInt i) (div 1 (ofInt (g.mLevelCount - 1)))) low.1)
            (sub high.1 low.1)) (ofInt high.2.green))))
        (truncToInt (add
          (mul (sub 1 (div (sub (mul (ofInt i) (div 1 (ofInt (g.mLevelCount - 1)))) low.1)
            (sub high.1 low.1))) (ofInt low.2.blue))
          (mul (div (sub (mul (ofInt i) (div 1 (ofInt (g.mLevelCount - 1)))) low.1)
            (sub high.1 low.1)) (ofInt high.2.blue)))) := by
  have hne : ¬ (j + 1 = g.mColorStops.length) := by
    intro h
    rw [List.getElem?_eq_none (by omega)] at hhigh
    exact absurd hhigh (by simp)
  simp only [bufferEntry, hlb, if_neg hne, Nat.add_sub_cancel,
    Nat.succ_ne_zero, if_false, hrgb, QMap.valueAt_of_getElem? _ _ _ hlow,
    QMap.valueAt_of_getElem? _ _ _ hhigh, QMap.keyAt_of_getElem? _ _ _ hlow,
    QMap.keyAt_of_getElem? _ _ _ hhigh]

end QCPColorGradient

end Ieee

open QCPColorGradient in
/-- Claim C1 fails on the code in the linear branches: `colorize` multiplies by the factor
`posToIndexFactor = mLevelCount/range.size()` computed before the loop, `color` computes
`(position-range.lower)*mLevelCount/range.size()`, and in double arithmetic the two round
differently. For the grayscale gradient with two levels, the range `[0, 3.8]` and the data
value `1.9`, `color` reads buffer entry `1` (white), while `colorize` writes buffer entry
`0` (black) to the scan line. -/
theorem C1_colorize_differs_from_color :
    Ieee.IsDouble (Ieee.round (19 / 10)) ∧ Ieee.IsDouble wideRange.upper ∧
    twoLevelGradient.mLevelCount = 2 ∧ twoLevelGradient.mPeriodic = false ∧
    (Ieee.QCPColorGradient.updateColorBuffer Qt.gray twoLevelGradient).mColorBuffer
      = [qRgb 0 0 0, qRgb 255 255 255] ∧
    Ieee.div (Ieee.mul (Ieee.sub (Ieee.round (19 / 10)) wideRange.lower) (Ieee.ofInt 2))
      (Ieee.size wideRange) = 1 ∧
    Ieee.mul (Ieee.sub (Ieee.round (19 / 10)) wideRange.lower)
      (Ieee.div (Ieee.ofInt 2) (Ieee.size wideRange)) < 1 ∧
    (Ieee.QCPColorGradient.color Qt.gray twoLevelGradient (Ieee.round (19 / 10)) wideRange
      false).2 = qRgb 255 255 255 ∧
    (Ieee.QCPColorGradient.colorize Qt.gray twoLevelGradient (some [Ieee.round (19 / 10)])
      wideRange (some [0]) 1 1 false).2 = some [qRgb 0 0 0] ∧
    qRgb 0 0 0 ≠ qRgb 255 255 255 := by
  decide!

open QCPColorGradient in
/-- Claim C5 fails on the code: for the periodic grayscale gradient with three levels and
the range `[0, 1.4]`, the scaled position of `range.upper` is `1.4*3/1.4`, which in double
arithmetic is `2.9999999999999996`, below `3`; it is truncated to `2`, so
`color(range.upper)` reads buffer entry `2` (white), while `color(range.lower)` reads
entry `0` (black). -/
theorem C5_periodic_upper_reads_last_entry :
    periodicThreeLevelGradient.mPeriodic = true ∧
    periodicThreeLevelGradient.mLevelCount = 3 ∧
    Ieee.IsDouble periodRange.upper ∧ Ieee.size periodRange ≠ 0 ∧
    (Ieee.QCPColorGradient.updateColorBuffer Qt.gray
      periodicThreeLevelGradient).mColorBuffer
      = [qRgb 0 0 0, qRgb 127 127 127, qRgb 255 255 255] ∧
    Ieee.div (Ieee.mul (Ieee.sub periodRange.upper periodRange.lower) (Ieee.ofInt 3))
      (Ieee.size periodRange) < 3 ∧
    truncToInt (Ieee.div
      (Ieee.mul (Ieee.sub periodRange.upper periodRange.lower) (Ieee.ofInt 3))
      (Ieee.size periodRange)) = 2 ∧
    (Ieee.QCPColorGradient.color Qt.gray periodicThreeLevelGradient periodRange.upper
      periodRange false).2 = qRgb 255 255 255 ∧
    (Ieee.QCPColorGradient.color Qt.gray periodicThreeLevelGradient periodRange.lower
      periodRange false).2 = qRgb 0 0 0 ∧
    (Ieee.QCPColorGradient.color Qt.gray periodicThreeLevelGradient periodRange.upper
      periodRange false).2
      ≠ (Ieee.QCPColorGradient.color Qt.gray periodicThreeLevelGradient periodRange.lower
        periodRange false).2 := by
  decide!

open QCPColorMapData in
/-- Claim C29 fails on the code in its pixel values, by the defect of `colorize` shown for
claim C1: for the colour map over a field of one cell holding `1.9`, with the data range
`[0, 3.8]`, the grayscale gradient with two levels and a horizontal key axis,
`updateMapImage` builds an image of `1 × 1` pixels whose pixel `(0, 0)` is black, buffer
entry `0`, while `gradient.color(cell(0, 0), dataRange, false)` is white, buffer entry
`1`. -/
theorem C29_pixel_differs_from_color :
    Valid oneCellColorMap.mMapData ∧ isEmpty oneCellColorMap.mMapData = false ∧
    oneCellColorMap.mMapData.mKeySize = 1 ∧ oneCellColorMap.mMapData.mValueSize = 1 ∧
    cell oneCellColorMap.mMapData 0 0 = Ieee.round (19 / 10) ∧
    (Ieee.QCPColorMap.updateMapImage Qt.gray oneCellColorMap).mMapImage.width = 1 ∧
    (Ieee.QCPColorMap.updateMapImage Qt.gray oneCellColorMap).mMapImage.height = 1 ∧
    (Ieee.QCPColorMap.updateMapImage Qt.gray oneCellColorMap).mMapImage.pixel 0 0
      = some (qRgb 0 0 0) ∧
    (Ieee.QCPColorGradient.color Qt.gray oneCellColorMap.mGradient
      (cell oneCellColorMap.mMapData 0 (1 - 1 - 0)) oneCellColorMap.mDataRange false).2
      = qRgb 255 255 255 ∧
    (Ieee.QCPColorMap.updateMapImage Qt.gray oneCellColorMap).mMapImage.pixel 0 0
      ≠ some (Ieee.QCPColorGradient.color Qt.gray oneCellColorMap.mGradient
        (cell oneCellColorMap.mMapData 0 (1 - 1 - 0)) oneCellColorMap.mDataRange false).2
      := by
  decide!

open ColorInterpolation in
/-- Claim C33, as amended: for a gradient in RGB mode with at least two stops and `L ≥ 2`
levels, entry `i` of the buffer that `updateColorBuffer` builds is determined by the
double `p = i*(1.0/(L-1))`: if no stop has a position `≥ p`, it is the colour of the last
stop; if the first stop with a position `≥ p` is the first stop of the table, it is the
colour of that stop; otherwise, with `high` the first stop with a position `≥ p`, `low`
the stop before it and `t = (p - low.position)/(high.position - low.position)`, it is
`qRgb` of the channels `(1-t)*low.channel + t*high.channel`, each truncated to an integer.
Every operation is one of double arithmetic (rounded to the nearest double). One of the
cases applies. -/
theorem C33_rgb_buffer_entries_in_doubles (qt : Qt) (g : QCPColorGradient) (i : Nat)
    (hrgb : g.mColorInterpolation = ciRGB) (hstops : 2 ≤ g.mColorStops.length)
    (_hL : 2 ≤ g.mLevelCount) (hi : (i : Int) < g.mLevelCount) :
    ((∀ s ∈ g.mColorStops,
        s.1 < Ieee.mul (Ieee.ofInt i) (Ieee.div 1 (Ieee.ofInt (g.mLevelCount - 1)))) →
      ∀ last, g.mColorStops.getLast? = some last →
        (Ieee.QCPColorGradient.updateColorBuffer qt g).mColorBuffer[i]?
          = some last.2.rgb) ∧
    (∀ (j : Nat) (high : ℚ × QColor), g.mColorStops[j]? = some high →
      Ieee.mul (Ieee.ofInt i) (Ieee.div 1 (Ieee.ofInt (g.mLevelCount - 1))) ≤ high.1 →
      (∀ (j' : Nat) (e : ℚ × QColor), j' < j → g.mColorStops[j']? = some e →
        e.1 < Ieee.mul (Ieee.ofInt i) (Ieee.div 1 (Ieee.ofInt (g.mLevelCount - 1)))) →
      (j = 0 →
        (Ieee.QCPColorGradient.updateColorBuffer qt g).mColorBuffer[i]?
          = some high.2.rgb) ∧
      (∀ (j0 : Nat) (low : ℚ × QColor), j = j0 + 1 → g.mColorStops[j0]? = some low →
        (Ieee.QCPColorGradient.updateColorBuffer qt g).mColorBuffer[i]? = some (qRgb
          (truncToInt (Ieee.add
            (Ieee.mul (Ieee.sub 1 (Ieee.div
              (Ieee.sub (Ieee.mul (Ieee.ofInt i)
                (Ieee.div 1 (Ieee.ofInt (g.mLevelCount - 1)))) low.1)
              (Ieee.sub high.1 low.1))) (Ieee.ofInt low.2.red))
            (Ieee.mul (Ieee.div
              (Ieee.sub (Ieee.mul (Ieee.ofInt i)
                (Ieee.div 1 (Ieee.ofInt (g.mLevelCount - 1)))) low.1)
              (Ieee.sub high.1 low.1)) (Ieee.ofInt high.2.red))))
          (truncToInt (Ieee.add
            (Ieee.mul (Ieee.sub 1 (Ieee.div
              (Ieee.sub (Ieee.mul (Ieee.ofInt i)
                (Ieee.div 1 (Ieee.ofInt (g.mLevelCount - 1)))) low.1)
              (Ieee.sub high.1 low.1))) (Ieee.ofInt low.2.green))
            (Ieee.mul (Ieee.div
              (Ieee.sub (Ieee.mul (Ieee.ofInt i)
                (Ieee.div 1 (Ieee.ofInt (g.mLevelCount - 1)))) low.1)
              (Ieee.sub high.1 low.1)) (Ieee.ofInt high.2.green))))
          (truncToInt (Ieee.add
            (Ieee.mul (Ieee.sub 1 (Ieee.div
              (Ieee.sub (Ieee.mul (Ieee.ofInt i)
                (Ieee.div 1 (Ieee.ofInt (g.mLevelCount - 1)))) low.1)
              (Ieee.sub high.1 low.1))) (Ieee.ofInt low.2.blue))
            (Ieee.mul (Ieee.div
              (Ieee.sub (Ieee.mul (Ieee.ofInt i)
                (Ieee.div 1 (Ieee.ofInt (g.mLevelCount - 1)))) low.1)
              (Ieee.sub high.1 low.1)) (Ieee.ofInt high.2.blue))))))) ∧
    ((∀ s ∈ g.mColorStops,
        s.1 < Ieee.mul (Ieee.ofInt i) (Ieee.div 1 (Ieee.ofInt (g.mLevelCount - 1)))) ∨
      ∃ (j : Nat) (high : ℚ × QColor), g.mColorStops[j]? = some high ∧
        Ieee.mul (Ieee.ofInt i) (Ieee.div 1 (Ieee.ofInt (g.mLevelCount - 1))) ≤ high.1 ∧
        ∀ (j' : Nat) (e : ℚ × QColor), j' < j → g.mColorStops[j']? = some e →
          e.1 < Ieee.mul (Ieee.ofInt i) (Ieee.div 1 (Ieee.ofInt (g.mLevelCount - 1)))) := by
  rw [Ieee.QCPColorGradient.updateColorBuffer_getElem_in_doubles? qt g i hstops hi]
  refine ⟨fun hall last hlast => ?_, fun j high hhigh hge hfirst => ⟨fun hj => ?_,
    fun j0 low hj hlow => ?_⟩, ?_⟩
  · have hlb := QMap.lowerBound_eq_of_first g.mColorStops
      (Ieee.mul (Ieee.ofInt i) (Ieee.div 1 (Ieee.ofInt (g.mLevelCount - 1))))
      g.mColorStops.length le_rfl
      (fun k e _ he => hall e (List.getElem?_mem he))
      (fun e he => by
        rw [List.getElem?_eq_none (le_refl _)] at he
        exact absurd he (by simp))
    rw [List.getLast?_eq_getElem?] at hlast
    rw [Ieee.QCPColorGradient.bufferEntry_of_end_in_doubles qt g i last hlb hlast]
  · subst hj
    have hlb := QMap.lowerBound_eq_of_first g.mColorStops
      (Ieee.mul (Ieee.ofInt i) (Ieee.div 1 (Ieee.ofInt (g.mLevelCount - 1)))) 0
      (Nat.zero_le _)
      (fun k e hk _ => absurd hk (by omega)) (fun e he => by
        rw [hhigh] at he
        rw [← Option.some.inj he]
        exact hge)
    rw [Ieee.QCPColorGradient.bufferEntry_of_begin_in_doubles qt g i high hlb hhigh]
  · subst hj
    have hjlt : j0 + 1 < g.mColorStops.length := by
      by_contra hcon
      rw [List.getElem?_eq_none (by omega)] at hhigh
      exact absurd hhigh (by simp)
    have hlb := QMap.lowerBound_eq_of_first g.mColorStops
      (Ieee.mul (Ieee.ofInt i) (Ieee.div 1 (Ieee.ofInt (g.mLevelCount - 1)))) (j0 + 1)
      (by omega) hfirst
      (fun e he => by
        rw [hhigh] at he
        rw [← Option.some.inj he]
        exact hge)
    rw [Ieee.QCPColorGradient.bufferEntry_of_between_in_doubles qt g i j0 low high hrgb hlb
      hlow hhigh]
  · obtain ⟨h1, h2, h3⟩ := QMap.lowerBound_spec g.mColorStops
      (Ieee.mul (Ieee.ofInt i) (Ieee.div 1 (Ieee.ofInt (g.mLevelCount - 1))))
    by_cases hend : QMap.lowerBound g.mColorStops
        (Ieee.mul (Ieee.ofInt i) (Ieee.div 1 (Ieee.ofInt (g.mLevelCount - 1))))
        = g.mColorStops.length
    · left
      intro s hs
      obtain ⟨k, hk, hks⟩ := List.getElem_of_mem hs
      exact h2 k s (by omega) (by rw [List.getElem?_eq_getElem hk, hks])
    · right
      have hlt : QMap.lowerBound g.mColorStops
          (Ieee.mul (Ieee.ofInt i) (Ieee.div 1 (Ieee.ofInt (g.mLevelCount - 1))))
          < g.mColorStops.length := by omega
      exact ⟨_, _, List.getElem?_eq_getElem hlt, h3 _ (List.getElem?_eq_getElem hlt), h2⟩

/-- Claim C33 fails as stated: for the grayscale gradient (stops `0 ↦ black`, `1 ↦ white`,
RGB mode) with `L = 50` levels and `i = 49`, the claim has `p = 49/49 = 1`, `t = 1` and
the channels `(1-1)*0 + 1*255 = 255`, the colour white; the code computes
`p = 49*(1.0/49)`, which in double arithmetic is below `1`, and the channels
`254.99999999999997`, truncated to `254`. -/
theorem C33_last_entry_rounds_down :
    fiftyLevelGradient.mColorStops = [(0, ⟨0, 0, 0⟩), (1, ⟨255, 255, 255⟩)] ∧
    fiftyLevelGradient.mColorInterpolation = ColorInterpolation.ciRGB ∧
    fiftyLevelGradient.mLevelCount = 50 ∧
    ((49 : ℚ) / (50 - 1) = 1) ∧
    qRgb (truncToInt ((1 - ((1 : ℚ) - 0) / (1 - 0)) * 0 + ((1 : ℚ) - 0) / (1 - 0) * 255))
        (truncToInt ((1 - ((1 : ℚ) - 0) / (1 - 0)) * 0 + ((1 : ℚ) - 0) / (1 - 0) * 255))
        (truncToInt ((1 - ((1 : ℚ) - 0) / (1 - 0)) * 0 + ((1 : ℚ) - 0) / (1 - 0) * 255))
      = qRgb 255 255 255 ∧
    Ieee.mul (Ieee.ofInt 49) (Ieee.div 1 (Ieee.ofInt (50 - 1))) < 1 ∧
    (Ieee.QCPColorGradient.updateColorBuffer Qt.gray fiftyLevelGradient).mColorBuffer[49]?
      = some (qRgb 254 254 254) ∧
    qRgb 254 254 254 ≠ qRgb 255 255 255 := by
  refine ⟨by decide!, by decide!, by decide!, by decide!, by decide!, by decide!, ?_,
    by decide!⟩
  rw [Ieee.QCPColorGradient.updateColorBuffer_getElem_in_doubles? Qt.gray fiftyLevelGradient 49
    (by decide!) (by decide!)]
  decide!

open ColorInterpolation in
theorem C33_rgb_buffer_entries_in_doubles_witness :
    threeStopGradient.mColorStops
      = [(0, ⟨0, 0, 0⟩), (1 / 2, ⟨255, 0, 0⟩), (1, ⟨255, 255, 255⟩)] ∧
    threeStopGradient.mLevelCount = 4 ∧
    (Ieee.QCPColorGradient.updateColorBuffer Qt.gray threeStopGradient).mColorBuffer[2]?
      = some (qRgb 255 84 84) :=
  ⟨by decide!, by decide!,
    (((C33_rgb_buffer_entries_in_doubles Qt.gray threeStopGradient 2 (by decide!)
      (by decide!) (by decide!) (by decide!)).2.1 2 (1, ⟨255, 255, 255⟩) (by decide!)
      (by decide!)
      (fun j' e hj' he => by
        have h : j' = 0 ∨ j' = 1 := by omega
        rcases h with rfl | rfl
        · have e1 : threeStopGradient.mColorStops[0]? = some (0, ⟨0, 0, 0⟩) := by decide!
          rw [e1] at he
          rw [← Option.some.inj he]
          decide!
        · have e1 : threeStopGradient.mColorStops[1]? = some (1 / 2, ⟨255, 0, 0⟩) := by
            decide!
          rw [e1] at he
          rw [← Option.some.inj he]
          decide!)).2 1 (1 / 2, ⟨255, 0, 0⟩) rfl (by decide!)).trans (by decide!)⟩

/-! ## Rounding to a double -/

namespace Ieee

/-- The binary logarithm brackets its argument between two powers of two. -/
theorem log2Aux_spec : ∀ (fuel n : Nat), 1 ≤ n → n ≤ fuel →
    2 ^ log2Aux fuel n ≤ n ∧ n < 2 ^ (log2Aux fuel n + 1) := by
  intro fuel
  induction fuel with
  | zero => intro n h1 h2; omega
  | succ fuel ih =>
    intro n h1 h2
    rw [log2Aux]
    split
    · simp only [pow_zero, zero_add, pow_one]
      omega
    · rename_i hn
      obtain ⟨ih1, ih2⟩ := ih (n / 2) (by omega) (by omega)
      generalize log2Aux fuel (n / 2) = l at ih1 ih2
      rw [pow_succ] at ih2
      rw [pow_succ, pow_succ, pow_succ]
      generalize 2 ^ l = A at ih1 ih2
      omega

theorem log2_spec (n : Nat) (h : 1 ≤ n) : 2 ^ log2 n ≤ n ∧ n < 2 ^ (log2 n + 1) :=
  log2Aux_spec n n h (le_refl n)

theorem zpow_toNat_div (q : Int) :
    ((2 : ℚ) ^ q.toNat) / ((2 : ℚ) ^ (-q).toNat) = (2 : ℚ) ^ q := by
  rcases le_total 0 q with h | h
  · have h1 : (-q).toNat = 0 := by omega
    rw [h1, pow_zero, div_one, ← zpow_natCast, Int.toNat_of_nonneg h]
  · have h1 : q.toNat = 0 := by omega
    rw [h1, pow_zero, one_div, ← zpow_natCast, Int.toNat_of_nonneg (by omega), ← zpow_neg,
      neg_neg]

/-- The exponent of the unit in the last place is `-1074` or `52` below a power of two
that is at most `a/d`. -/
theorem ulpExponent_spec (a d : Nat) (ha : 1 ≤ a) (hd : 1 ≤ d) :
    -1074 ≤ ulpExponent a d ∧
    (ulpExponent a d = -1074 ∨ (2 : ℚ) ^ (ulpExponent a d + 52) ≤ (a : ℚ) / d) := by
  have hdq : (0 : ℚ) < d := by exact_mod_cast hd
  have key : ∀ e : Int, (e = (log2 a : Int) - (log2 d : Int) ∧
        d * 2 ^ e.toNat ≤ a * 2 ^ (-e).toNat) ∨ e = (log2 a : Int) - (log2 d : Int) - 1 →
      (2 : ℚ) ^ e ≤ (a : ℚ) / d := by
    intro e he
    rcases he with ⟨_, h⟩ | h
    · have h2 : ((d : ℚ) * 2 ^ e.toNat) ≤ (a : ℚ) * 2 ^ (-e).toNat := by exact_mod_cast h
      rw [← zpow_toNat_div e, div_le_div_iff₀ (by positivity) hdq]
      linarith
    · obtain ⟨h1, _⟩ := log2_spec a ha
      obtain ⟨_, h2⟩ := log2_spec d hd
      have h1q : ((2 : ℚ) ^ log2 a) ≤ a := by exact_mod_cast h1
      have h2q : (d : ℚ) < (2 : ℚ) ^ (log2 d + 1) := by exact_mod_cast h2
      have he : (2 : ℚ) ^ e = (2 : ℚ) ^ log2 a / (2 : ℚ) ^ (log2 d + 1) := by
        rw [h, ← zpow_natCast, ← zpow_natCast, ← zpow_sub₀ (by norm_num)]
        congr 1
        push_cast
        ring
      rw [he, div_le_div_iff₀ (by positivity) hdq]
      calc (2 : ℚ) ^ log2 a * d ≤ a * d := by
            exact mul_le_mul_of_nonneg_right h1q hdq.le
        _ ≤ a * (2 : ℚ) ^ (log2 d + 1) := by
            exact mul_le_mul_of_nonneg_left h2q.le (by positivity)
  simp only [ulpExponent]
  constructor
  · exact le_max_right _ _
  · split
    · rename_i h
      have := key _ (Or.inl ⟨rfl, h⟩)
      rcases le_total ((log2 a : Int) - (log2 d : Int) - 52) (-1074) with h3 | h3
      · left; exact max_eq_right h3
      · right
        rw [max_eq_left h3]
        simpa using this
    · have := key _ (Or.inr rfl)
      rcases le_total ((log2 a : Int) - (log2 d : Int) - 1 - 52) (-1074) with h3 | h3
      · left; exact max_eq_right h3
      · right
        rw [max_eq_left h3]
        simpa using this

/-- A non-zero number that rounds to zero is smaller than the smallest positive double. -/
theorem abs_lt_of_round_eq_zero (x : ℚ) (hx : x ≠ 0) (h : round x = 0) :
    |x| < (2 : ℚ) ^ (-1074 : Int) := by
  have ha : 1 ≤ x.num.natAbs := by
    have : x.num ≠ 0 := Rat.num_ne_zero.mpr hx
    omega
  have hd : 1 ≤ x.den := x.den_pos
  obtain ⟨hq1, hq2⟩ := ulpExponent_spec x.num.natAbs x.den ha hd
  have habs : |x| = (x.num.natAbs : ℚ) / x.den := by
    have h1 : ((x.num.natAbs : Nat) : ℚ) = |(x.num : ℚ)| := by
      rw [Nat.cast_natAbs, Int.cast_abs]
    rw [h1]
    conv_lhs => rw [← Rat.num_div_den x]
    rw [abs_div, Nat.abs_cast]
  simp only [round, if_neg hx] at h
  generalize ulpExponent x.num.natAbs x.den = q at h hq1 hq2
  have hpow : (2 : ℚ) ^ q ≠ 0 := zpow_ne_zero _ (by norm_num)
  have hm : (if x.den * 2 ^ q.toNat <
        2 * (x.num.natAbs * 2 ^ (-q).toNat % (x.den * 2 ^ q.toNat)) ∨
        (2 * (x.num.natAbs * 2 ^ (-q).toNat % (x.den * 2 ^ q.toNat)) = x.den * 2 ^ q.toNat ∧
          x.num.natAbs * 2 ^ (-q).toNat / (x.den * 2 ^ q.toNat) % 2 = 1)
      then x.num.natAbs * 2 ^ (-q).toNat / (x.den * 2 ^ q.toNat) + 1
      else x.num.natAbs * 2 ^ (-q).toNat / (x.den * 2 ^ q.toNat)) = 0 := by
    split at h
    · have := neg_eq_zero.mp h
      rcases mul_eq_zero.mp this with h0 | h0
      · exact_mod_cast h0
      · exact absurd h0 hpow
    · rcases mul_eq_zero.mp h with h0 | h0
      · exact_mod_cast h0
      · exact absurd h0 hpow
  have hdd : 0 < x.den * 2 ^ q.toNat := by positivity
  have hnq : ((x.num.natAbs : ℚ) * 2 ^ (-q).toNat) =
      ((x.num.natAbs * 2 ^ (-q).toNat : Nat) : ℚ) := by push_cast; rfl
  have hdq : ((x.den : ℚ) * 2 ^ q.toNat) = ((x.den * 2 ^ q.toNat : Nat) : ℚ) := by
    push_cast; rfl
  have hxd : (0 : ℚ) < x.den := by exact_mod_cast hd
  have hle : 2 * ((x.num.natAbs : ℚ) * 2 ^ (-q).toNat) ≤ (x.den : ℚ) * 2 ^ q.toNat := by
    rw [hnq, hdq]
    generalize x.num.natAbs * 2 ^ (-q).toNat = n at hm ⊢
    generalize x.den * 2 ^ q.toNat = dd at hm hdd ⊢
    have hn : 2 * n ≤ dd := by
      by_cases hc : dd < 2 * (n % dd) ∨ (2 * (n % dd) = dd ∧ n / dd % 2 = 1)
      · rw [if_pos hc] at hm
        exact absurd hm (Nat.succ_ne_zero _)
      · rw [if_neg hc] at hm
        have hlt : n < dd := (Nat.div_eq_zero_iff hdd).mp hm
        rw [Nat.mod_eq_of_lt hlt] at hc
        omega
    exact_mod_cast hn
  have hbound : |x| ≤ (2 : ℚ) ^ q / 2 := by
    rw [habs, ← zpow_toNat_div q, div_div, div_le_div_iff₀ hxd (by positivity)]
    linarith
  rcases hq2 with hq2 | hq2
  · rw [hq2] at hbound
    have hA : (0 : ℚ) < (2 : ℚ) ^ (-1074 : Int) := by positivity
    generalize (2 : ℚ) ^ (-1074 : Int) = A at hbound hA ⊢
    linarith
  · exfalso
    rw [← habs] at hq2
    have h52 : (2 : ℚ) ^ (q + 52) = (2 : ℚ) ^ q * 2 ^ (52 : Nat) := by
      rw [zpow_add₀ (by norm_num)]
      norm_cast
    have hpos : (0 : ℚ) < (2 : ℚ) ^ q := by positivity
    rw [h52] at hq2
    have : (2 : ℚ) ^ q * 2 ^ (52 : Nat) ≤ (2 : ℚ) ^ q / 2 := le_trans hq2 hbound
    have h2 : (1 : ℚ) < 2 ^ (52 : Nat) := by norm_num
    nlinarith

/-- Every double is an integer multiple of the smallest positive double. -/
theorem isDouble_multiple (x : ℚ) (hx : IsDouble x) :
    ∃ z : Int, x = (z : ℚ) * (2 : ℚ) ^ (-1074 : Int) := by
  by_cases h0 : x = 0
  · exact ⟨0, by simp [h0]⟩
  · have ha : 1 ≤ x.num.natAbs := by
      have : x.num ≠ 0 := Rat.num_ne_zero.mpr h0
      omega
    obtain ⟨hq1, _⟩ := ulpExponent_spec x.num.natAbs x.den ha x.den_pos
    unfold IsDouble at hx
    simp only [round, if_neg h0] at hx
    generalize ulpExponent x.num.natAbs x.den = q at hx hq1
    have hq : (2 : ℚ) ^ q = ((2 ^ (q + 1074).toNat : Nat) : ℚ) * (2 : ℚ) ^ (-1074 : Int) := by
      rw [Nat.cast_pow, Nat.cast_ofNat, ← zpow_natCast, ← zpow_add₀ (by norm_num)]
      congr 1
      omega
    generalize (if x.den * 2 ^ q.toNat <
        2 * (x.num.natAbs * 2 ^ (-q).toNat % (x.den * 2 ^ q.toNat)) ∨
        (2 * (x.num.natAbs * 2 ^ (-q).toNat % (x.den * 2 ^ q.toNat)) = x.den * 2 ^ q.toNat ∧
          x.num.natAbs * 2 ^ (-q).toNat / (x.den * 2 ^ q.toNat) % 2 = 1)
      then x.num.natAbs * 2 ^ (-q).toNat / (x.den * 2 ^ q.toNat) + 1
      else x.num.natAbs * 2 ^ (-q).toNat / (x.den * 2 ^ q.toNat)) = m at hx
    split at hx
    · refine ⟨-((m * 2 ^ (q + 1074).toNat : Nat) : Int), ?_⟩
      rw [← hx, hq]
      push_cast
      ring
    · refine ⟨((m * 2 ^ (q + 1074).toNat : Nat) : Int), ?_⟩
      rw [← hx, hq]
      push_cast
      ring

/-- The difference of two distinct doubles does not round to zero. -/
theorem sub_ne_zero_of_isDouble (a b : ℚ) (ha : IsDouble a) (hb : IsDouble b)
    (hab : a ≠ b) : sub a b ≠ 0 := by
  intro h
  have hne : a - b ≠ 0 := sub_ne_zero.mpr hab
  have hlt := abs_lt_of_round_eq_zero (a - b) hne h
  obtain ⟨za, hza⟩ := isDouble_multiple a ha
  obtain ⟨zb, hzb⟩ := isDouble_multiple b hb
  have hA : (0 : ℚ) < (2 : ℚ) ^ (-1074 : Int) := by positivity
  have hz : za - zb ≠ 0 := by
    intro hz
    apply hab
    have : za = zb := by omega
    rw [hza, hzb, this]
  have h1 : (1 : ℚ) ≤ |((za - zb : Int) : ℚ)| := by
    rw [← Int.cast_abs]
    have : (1 : Int) ≤ |za - zb| := Int.one_le_abs hz
    exact_mod_cast this
  have h2 : |a - b| = |((za - zb : Int) : ℚ)| * (2 : ℚ) ^ (-1074 : Int) := by
    rw [hza, hzb, ← sub_mul, abs_mul, abs_of_pos hA]
    push_cast
    rfl
  rw [h2] at hlt
  generalize (2 : ℚ) ^ (-1074 : Int) = A at hlt hA
  nlinarith

theorem round_one : round 1 = 1 := by
  decide!

/-- The quotient of a non-zero double by itself. -/
theorem div_same (x : ℚ) (hx : x ≠ 0) : div x x = 1 := by
  rw [div, div_self hx, round_one]

/-- The channel values `0..255` are doubles. -/
theorem round_channel (n : Nat) (hn : n ≤ 255) : round (n : ℚ) = n := by
  interval_cases n <;> decide!

/-- The interpolated channel at `t = 1` is the channel of the upper stop. -/
theorem channel_at_one (l h : Nat) (hh : h ≤ 255) :
    truncToInt (add (mul (sub 1 1) (ofInt (l : Int))) (mul 1 (ofInt (h : Int)))) = (h : Int) := by
  rw [sub_same, mul_zero_left]
  simp only [mul, add, ofInt, Int.cast_natCast, one_mul, zero_add, round_channel h hh,
    truncToInt_natCast]

namespace QCPColorGradient

open ColorInterpolation

/-- In double arithmetic the buffer entry whose sample position is exactly the position of a
stop is the colour of that stop: for the first stop in both interpolation modes, for a later
stop in RGB mode. -/
theorem bufferEntry_at_stop_in_doubles (qt : Qt) (g : QCPColorGradient) (k j : Nat) (p : ℚ)
    (c : QColor) (hwf : QMap.WellFormed g.mColorStops)
    (hdbl : ∀ e ∈ g.mColorStops, IsDouble e.1)
    (hj : g.mColorStops[j]? = some (p, c))
    (hc : c.red ≤ 255 ∧ c.green ≤ 255 ∧ c.blue ≤ 255)
    (hmode : j = 0 ∨ g.mColorInterpolation = ciRGB)
    (hpk : mul (ofInt k) (div 1 (ofInt (g.mLevelCount - 1))) = p) :
    bufferEntry qt g k = c.rgb := by
  have hlb := QMap.lowerBound_of_getElem? g.mColorStops j p c hwf hj
  rw [← hpk] at hlb
  cases j with
  | zero => exact bufferEntry_of_begin_in_doubles qt g k (p, c) hlb hj
  | succ j =>
    have hrgb : g.mColorInterpolation = ciRGB := by
      rcases hmode with h | h
      · omega
      · exact h
    obtain ⟨e, he1, he2⟩ := QMap.key_before_lt g.mColorStops j p c hwf hj
    rw [bufferEntry_of_between_in_doubles qt g k j e (p, c) hrgb hlb he1 hj, hpk]
    have hne : sub p e.1 ≠ 0 :=
      sub_ne_zero_of_isDouble p e.1 (hdbl (p, c) (List.getElem?_mem hj))
        (hdbl e (List.getElem?_mem he1)) (ne_of_gt he2)
    simp only [div_same _ hne, channel_at_one _ _ hc.1, channel_at_one _ _ hc.2.1,
      channel_at_one _ _ hc.2.2]
    rfl

end QCPColorGradient

end Ieee

/-- In double arithmetic, for a non-periodic gradient (any `levelCount ≥ 2`, any
interpolation mode) whose first stop `(0, c)` has the position `0`, and every range
with size `> 0` whose lower bound is a double,
`color(range.lower + 0*range.size(), range, false)` is `c.rgb()`. -/
theorem color_at_zero_stop_in_doubles (qt : Qt) (g : QCPColorGradient) (c : QColor)
    (rest : List (ℚ × QColor)) (range : QCPRange)
    (hL : 2 ≤ g.mLevelCount) (hp : g.mPeriodic = false)
    (hstops : g.mColorStops = (0, c) :: rest)
    (hcur : g.mColorBufferInvalidated = false →
      g.mColorBuffer = (Ieee.QCPColorGradient.updateColorBuffer qt g).mColorBuffer)
    (hlower : Ieee.IsDouble range.lower) (_hsize : 0 < Ieee.size range) :
    (Ieee.QCPColorGradient.color qt g
      (Ieee.add range.lower (Ieee.mul 0 (Ieee.size range))) range false).2 = c.rgb := by
  obtain ⟨G, hG⟩ : ∃ G, G =
      if g.mColorBufferInvalidated then Ieee.QCPColorGradient.updateColorBuffer qt g
      else g := ⟨_, rfl⟩
  have hGL : G.mLevelCount = g.mLevelCount := by
    rw [hG]; split <;> rfl
  have hGp : G.mPeriodic = false := by
    rw [hG]; split
    · exact hp
    · exact hp
  have hGbuf : G.mColorBuffer = (Ieee.QCPColorGradient.updateColorBuffer qt g).mColorBuffer := by
    rw [hG]
    split
    · rfl
    · rename_i h
      exact hcur (by simpa using h)
  have hvalue : Ieee.add range.lower (Ieee.mul 0 (Ieee.size range)) = range.lower := by
    rw [Ieee.mul_zero_left, Ieee.add_zero_of_isDouble _ hlower]
  have hidx : Ieee.QCPColorGradient.colorIndex qt G range.lower range false = 0 := by
    have h0 : ¬ ((0 : Int) ≥ g.mLevelCount) := by omega
    simp only [Ieee.QCPColorGradient.colorIndex, Bool.not_false, if_true, Ieee.sub_same,
      Ieee.mul_zero_left, Ieee.div_zero_left, truncToInt_zero, hGp, Bool.false_eq_true,
      if_false, lt_irrefl, hGL, if_neg h0]
  have hentry : (Ieee.QCPColorGradient.updateColorBuffer qt g).mColorBuffer[0]?
      = some c.rgb := by
    rw [Ieee.QCPColorGradient.updateColorBuffer_buffer_in_doubles, hstops]
    have hval : QMap.valueAt ((0, c) :: rest) 0 = c := by
      simp [QMap.valueAt]
    by_cases h2 : ((0, c) :: rest).length > 1
    · rw [if_pos h2, List.getElem?_map, List.getElem?_range (by omega)]
      simp only [Option.map_some']
      have hpos : Ieee.mul (Ieee.ofInt ((0 : Nat) : Int))
          (Ieee.div 1 (Ieee.ofInt (g.mLevelCount - 1))) = 0 := by
        simp only [Nat.cast_zero, Ieee.ofInt_zero, Ieee.mul_zero_left]
      have hlb : QMap.lowerBound g.mColorStops
          (Ieee.mul (Ieee.ofInt ((0 : Nat) : Int))
            (Ieee.div 1 (Ieee.ofInt (g.mLevelCount - 1)))) = 0 := by
        rw [hpos, hstops]
        simp [QMap.lowerBound]
      rw [Ieee.QCPColorGradient.bufferEntry_of_begin_in_doubles qt g 0 (0, c) hlb
        (by rw [hstops]; simp)]
    · rw [if_neg h2]
      have h1 : ((0, c) :: rest).length = 1 := by
        simp only [List.length_cons] at h2 ⊢
        omega
      rw [if_pos h1, hval, List.getElem?_replicate, if_pos (by omega)]
  simp only [Ieee.QCPColorGradient.color, ← hG, hvalue, hidx, QVector.at', hGbuf,
    Int.toNat_zero, List.getD_eq_getElem?_getD, hentry, Option.getD_some]

/-- Claim C2, as amended: for every non-periodic gradient (any `levelCount L ≥ 2`) whose
stop positions are doubles, every stop `(p, c)` of its stop table that is the first stop
(any interpolation mode) or, in RGB mode, any stop, and every range with size `> 0`: if
in double arithmetic `color(range.lower + p*range.size(), range, false)` reads the buffer
at an index `k` whose sample position `k*(1.0/(L-1))` is exactly `p`, then it returns
`c.rgb()`. The clean buffer of the gradient is the one `updateColorBuffer` has built. A
stop whose position is not the sample position of the entry read is not reproduced in
general. -/
theorem C2_color_at_sampled_stop_in_doubles (qt : Qt) (g : QCPColorGradient) (j k : Nat)
    (p : ℚ) (c : QColor) (range : QCPRange)
    (hL : 2 ≤ g.mLevelCount) (hp : g.mPeriodic = false)
    (hwf : QMap.WellFormed g.mColorStops)
    (hdbl : ∀ e ∈ g.mColorStops, Ieee.IsDouble e.1)
    (hj : g.mColorStops[j]? = some (p, c))
    (hc : c.red ≤ 255 ∧ c.green ≤ 255 ∧ c.blue ≤ 255)
    (hmode : j = 0 ∨ g.mColorInterpolation = ColorInterpolation.ciRGB)
    (hcur : g.mColorBufferInvalidated = false →
      g.mColorBuffer = (Ieee.QCPColorGradient.updateColorBuffer qt g).mColorBuffer)
    (_hsize : 0 < Ieee.size range)
    (hk : Ieee.QCPColorGradient.colorIndex qt g
      (Ieee.add range.lower (Ieee.mul p (Ieee.size range))) range false = (k : Int))
    (hpk : Ieee.mul (Ieee.ofInt k) (Ieee.div 1 (Ieee.ofInt (g.mLevelCount - 1))) = p) :
    (Ieee.QCPColorGradient.color qt g
      (Ieee.add range.lower (Ieee.mul p (Ieee.size range))) range false).2 = c.rgb := by
  obtain ⟨G, hG⟩ : ∃ G, G =
      if g.mColorBufferInvalidated then Ieee.QCPColorGradient.updateColorBuffer qt g
      else g := ⟨_, rfl⟩
  have hGL : G.mLevelCount = g.mLevelCount := by
    rw [hG]; split <;> rfl
  have hGp : G.mPeriodic = g.mPeriodic := by
    rw [hG]; split <;> rfl
  have hGbuf : G.mColorBuffer = (Ieee.QCPColorGradient.updateColorBuffer qt g).mColorBuffer := by
    rw [hG]
    split
    · rfl
    · rename_i h
      exact hcur (by simpa using h)
  have hidx : Ieee.QCPColorGradient.colorIndex qt G
      (Ieee.add range.lower (Ieee.mul p (Ieee.size range))) range false = (k : Int) := by
    rw [← hk]
    simp only [Ieee.QCPColorGradient.colorIndex, hGL, hGp]
  have hkL : (k : Int) < g.mLevelCount := by
    have h := hk
    simp only [Ieee.QCPColorGradient.colorIndex, hp, Bool.false_eq_true, if_false] at h
    split_ifs at h <;> omega
  have hjlt : j < g.mColorStops.length := by
    by_contra hcon
    rw [List.getElem?_eq_none (by omega)] at hj
    simp at hj
  have hentry : (Ieee.QCPColorGradient.updateColorBuffer qt g).mColorBuffer[k]?
      = some c.rgb := by
    rw [Ieee.QCPColorGradient.updateColorBuffer_buffer_in_doubles]
    by_cases h2 : g.mColorStops.length > 1
    · rw [if_pos h2, List.getElem?_map, List.getElem?_range (by omega)]
      simp only [Option.map_some']
      rw [Ieee.QCPColorGradient.bufferEntry_at_stop_in_doubles qt g k j p c hwf hdbl hj hc
        hmode hpk]
    · rw [if_neg h2]
      have h1 : g.mColorStops.length = 1 := by omega
      have hj0 : j = 0 := by omega
      have hval : QMap.valueAt g.mColorStops 0 = c := by
        rw [hj0] at hj
        simp [QMap.valueAt, List.get?_eq_getElem?, hj]
      rw [if_pos h1, hval, List.getElem?_replicate, if_pos (by omega)]
  simp only [Ieee.QCPColorGradient.color, ← hG, hidx, QVector.at', hGbuf,
    Int.toNat_ofNat, List.getD_eq_getElem?_getD, hentry, Option.getD_some]

/-- Claim C2 fails as stated, also at sample positions of the buffer. In the gradient with
four levels and the stops `0 ↦ black`, `1/2 ↦ red`, `1 ↦ white`, the value at the stop
`1/2` reads buffer entry `2`, the colour `(255, 84, 84)` interpolated between red and
white. In the grayscale gradient with fifty levels, the value at the stop `1 ↦ white`
reads the last buffer entry, which double arithmetic makes `(254, 254, 254)`. -/
theorem C2_stops_not_reproduced :
    threeStopGradient.mPeriodic = false ∧ threeStopGradient.mLevelCount = 4 ∧
    threeStopGradient.mColorStops
      = [(0, ⟨0, 0, 0⟩), (1 / 2, ⟨255, 0, 0⟩), (1, ⟨255, 255, 255⟩)] ∧
    0 < Ieee.size unitRange ∧
    (Ieee.QCPColorGradient.color Qt.gray threeStopGradient
      (Ieee.add unitRange.lower (Ieee.mul (1 / 2) (Ieee.size unitRange)))
      unitRange false).2 = qRgb 255 84 84 ∧
    qRgb 255 84 84 ≠ (⟨255, 0, 0⟩ : QColor).rgb ∧
    fiftyLevelGradient.mPeriodic = false ∧ fiftyLevelGradient.mLevelCount = 50 ∧
    fiftyLevelGradient.mColorStops = [(0, ⟨0, 0, 0⟩), (1, ⟨255, 255, 255⟩)] ∧
    (Ieee.QCPColorGradient.color Qt.gray fiftyLevelGradient
      (Ieee.add unitRange.lower (Ieee.mul 1 (Ieee.size unitRange)))
      unitRange false).2 = qRgb 254 254 254 ∧
    qRgb 254 254 254 ≠ (⟨255, 255, 255⟩ : QColor).rgb := by
  decide!

theorem C2_color_at_sampled_stop_in_doubles_witness :
    (QCPColorGradient.setLevelCount threeStopGradient 3).mColorStops[1]?
      = some (1 / 2, ⟨255, 0, 0⟩) ∧
    Ieee.QCPColorGradient.colorIndex Qt.gray (QCPColorGradient.setLevelCount threeStopGradient 3)
      (Ieee.add wideRange.lower (Ieee.mul (1 / 2) (Ieee.size wideRange))) wideRange false
        = ((1 : Nat) : Int) ∧
    Ieee.mul (Ieee.ofInt (1 : Nat)) (Ieee.div 1 (Ieee.ofInt (3 - 1))) = 1 / 2 ∧
    (Ieee.QCPColorGradient.color Qt.gray (QCPColorGradient.setLevelCount threeStopGradient 3)
      (Ieee.add wideRange.lower (Ieee.mul (1 / 2) (Ieee.size wideRange))) wideRange false).2
      = qRgb 255 0 0 :=
  ⟨by decide!, by decide!, by decide!,
    C2_color_at_sampled_stop_in_doubles Qt.gray
      (QCPColorGradient.setLevelCount threeStopGradient 3) 1 1 (1 / 2) ⟨255, 0, 0⟩ wideRange
      (by decide!) (by decide!) (by decide!) (by decide!) (by decide!) (by decide!)
      (Or.inr (by decide!)) (fun h => absurd h (by decide!)) (by decide!) (by decide!)
      (by decide!)⟩

/-! ## The map image in double arithmetic -/

namespace Ieee

namespace QCPColorGradient

/-- Closed form of `colorize` in double arithmetic with non-null pointers: the gradient
gets its buffer rebuilt if it was dirty, and the loop writes the entries of the buffer at
the indices of `colorizeIndex`. -/
theorem colorize_eq_in_doubles (qt : Qt) (g : QCPColorGradient) (data : List ℚ)
    (range : QCPRange) (scanLine : List QRgb) (n s : Int) (logarithmic : Bool) :
    colorize qt g (some data) range (some scanLine) n s logarithmic =
      (if g.mColorBufferInvalidated then updateColorBuffer qt g else g,
        some ((List.range n.toNat).foldl (fun sl (i : Nat) =>
          sl.set i (colorizeEntry qt g (data.getD (s * i).toNat 0) range logarithmic))
          scanLine)) := by
  obtain ⟨g', hg'⟩ : ∃ g', g' =
      if g.mColorBufferInvalidated then updateColorBuffer qt g else g := ⟨_, rfl⟩
  simp only [colorize, colorizeEntry, ← hg']
  cases logarithmic <;> by_cases hp : g'.mPeriodic = true <;>
    simp only [hp, Bool.not_false, Bool.not_true, if_true, if_false, Bool.false_eq_true,
      colorizeIndex]

/-- Rebuilding the buffer of a gradient whose buffer was just rebuilt changes nothing. -/
theorem rebuilt_rebuilt_in_doubles (qt : Qt) (g : QCPColorGradient) :
    (if (if g.mColorBufferInvalidated then updateColorBuffer qt g
        else g).mColorBufferInvalidated then
      updateColorBuffer qt (if g.mColorBufferInvalidated then updateColorBuffer qt g else g)
     else (if g.mColorBufferInvalidated then updateColorBuffer qt g else g))
    = (if g.mColorBufferInvalidated then updateColorBuffer qt g else g) := by
  cases h : g.mColorBufferInvalidated <;> simp [h, updateColorBuffer]

/-- The colour that `colorize` writes is the same before and after the lazy rebuild. -/
theorem colorizeEntry_rebuilt (qt : Qt) (g : QCPColorGradient) (v : ℚ) (range : QCPRange)
    (logarithmic : Bool) :
    colorizeEntry qt (if g.mColorBufferInvalidated then updateColorBuffer qt g else g) v
      range logarithmic = colorizeEntry qt g v range logarithmic := by
  simp only [colorizeEntry, rebuilt_rebuilt_in_doubles]

/-- In the logarithmic branches `colorize` writes the colour that `color` returns. -/
theorem colorizeEntry_logarithmic (qt : Qt) (g : QCPColorGradient) (v : ℚ)
    (range : QCPRange) :
    colorizeEntry qt g v range true = (color qt g v range true).2 := by
  simp only [colorizeEntry, color, colorizeIndex, colorIndex, Bool.not_true,
    Bool.false_eq_true, if_false]

end QCPColorGradient

namespace QCPColorMap

open QCPColorMapData ScaleType QtOrientation

/-- One pass of the loops of `updateMapImage` over a scan line of the right length: the
scan line becomes the colours that `colorize` writes for the cells read, the gradient
gets its buffer rebuilt. -/
theorem colorizeLine_eq_in_doubles (qt : Qt) (m : QCPColorMap) (a : List ℚ) (y n s : Int)
    (row : List QRgb) (hy : 0 ≤ y) (hrow : m.mMapImage.lines[y.toNat]? = some row)
    (hlen : n.toNat = row.length) :
    colorizeLine qt m (some a) y n s =
      { m with
        mGradient :=
          if m.mGradient.mColorBufferInvalidated then Ieee.QCPColorGradient.updateColorBuffer qt
              m.mGradient
          else m.mGradient
        mMapImage := { m.mMapImage with
          lines := m.mMapImage.lines.set y.toNat
            ((List.range n.toNat).map (fun (i : Nat) =>
              (Ieee.QCPColorGradient.colorizeEntry qt m.mGradient (a.getD (s * i).toNat 0)
                  m.mDataRange
                (decide (m.mDataScaleType = stLogarithmic))))) } } := by
  simp only [colorizeLine, QImage.scanLine, if_pos hy, hrow,
      Ieee.QCPColorGradient.colorize_eq_in_doubles,
    foldl_set_eq_map _ row _ hlen, QImage.setScanLine]

/-- The loops of `updateMapImage`: every line of the loop writes its scan line. -/
theorem colorizeLines_eq_in_doubles (qt : Qt) (ptr : Nat → List ℚ) (yy : Nat → Int) (n s : Int)
    (g0 : QCPColorGradient) (l : List Nat) :
    ∀ m : QCPColorMap,
      (∀ line ∈ l, 0 ≤ yy line ∧ (yy line).toNat < m.mMapImage.lines.length) →
      (∀ row ∈ m.mMapImage.lines, row.length = n.toNat) →
      (∀ v, (Ieee.QCPColorGradient.colorizeEntry qt m.mGradient v m.mDataRange
          (decide (m.mDataScaleType = stLogarithmic)))
        = (Ieee.QCPColorGradient.colorizeEntry qt g0 v m.mDataRange (decide (m.mDataScaleType =
            stLogarithmic)))) →
      l.foldl (fun m line => colorizeLine qt m (some (ptr line)) (yy line) n s) m =
        { m with
          mGradient :=
            if l = [] then m.mGradient
            else if m.mGradient.mColorBufferInvalidated then
              Ieee.QCPColorGradient.updateColorBuffer qt m.mGradient
            else m.mGradient
          mMapImage := { m.mMapImage with
            lines := l.foldl (fun ls line => ls.set (yy line).toNat
              ((List.range n.toNat).map (fun (i : Nat) =>
                (Ieee.QCPColorGradient.colorizeEntry qt g0 ((ptr line).getD (s * i).toNat 0)
                    m.mDataRange
                  (decide (m.mDataScaleType = stLogarithmic)))))) m.mMapImage.lines } } := by
  induction l with
  | nil => intro m _ _ _; rfl
  | cons x xs ih =>
    intro m hidx hrows hg
    obtain ⟨hy, hlt⟩ := hidx x (List.mem_cons_self _ _)
    have hrow : m.mMapImage.lines[(yy x).toNat]? = some (m.mMapImage.lines[(yy x).toNat]) :=
      List.getElem?_eq_getElem hlt
    have hlen : n.toNat = (m.mMapImage.lines[(yy x).toNat]).length :=
      (hrows _ (List.getElem_mem hlt)).symm
    rw [List.foldl_cons, colorizeLine_eq_in_doubles qt m (ptr x) (yy x) n s _ hy hrow hlen]
    rw [ih]
    · simp only [hg, List.foldl_cons, Ieee.QCPColorGradient.rebuilt_rebuilt_in_doubles]
      by_cases hxs : xs = []
      · simp [hxs]
      · simp [hxs]
    · intro line hline
      simp only [List.length_set]
      exact hidx line (List.mem_cons_of_mem _ hline)
    · intro row hr
      simp only at hr
      rcases List.mem_or_eq_of_mem_set hr with h | h
      · exact hrows row h
      · rw [h]; simp
    · intro v
      simp only
      rw [Ieee.QCPColorGradient.colorizeEntry_rebuilt]
      exact hg v

/-- The loop of `updateMapImage` for a horizontal key axis, on an image of `valueSize`
lines of `keySize` pixels: pixel `(x, y)` becomes the colour that `colorize` writes for cell
`(x, valueSize-1-y)`. -/
theorem horizontal_loop_in_doubles (qt : Qt) (m : QCPColorMap) (hd : Valid m.mMapData)
    (hK : 0 < m.mMapData.mKeySize) (hV : 0 < m.mMapData.mValueSize)
    (hlines : m.mMapImage.lines.length = m.mMapData.mValueSize.toNat)
    (hrows : ∀ row ∈ m.mMapImage.lines, row.length = m.mMapData.mKeySize.toNat)
    (x y : Int) (hx0 : 0 ≤ x) (hx1 : x < m.mMapData.mKeySize) (hy0 : 0 ≤ y)
    (hy1 : y < m.mMapData.mValueSize) :
    (((List.range m.mMapData.mValueSize.toNat).foldl (fun m' (line : Nat) =>
        colorizeLine qt m' (QCPColorMap.offsetPointer m.mMapData.mData (line * m.mMapData.mKeySize))
          (m.mMapData.mValueSize - 1 - line) m.mMapData.mKeySize 1) m).mMapImage.pixel x y
      = some (Ieee.QCPColorGradient.colorizeEntry qt m.mGradient (cell m.mMapData x
          (m.mMapData.mValueSize - 1 - y))
          m.mDataRange (decide (m.mDataScaleType = stLogarithmic)))) ∧
    ((List.range m.mMapData.mValueSize.toNat).foldl (fun m' (line : Nat) =>
        colorizeLine qt m' (QCPColorMap.offsetPointer m.mMapData.mData (line * m.mMapData.mKeySize))
          (m.mMapData.mValueSize - 1 - line) m.mMapData.mKeySize 1) m).mMapImage.width
      = m.mMapImage.width ∧
    ((List.range m.mMapData.mValueSize.toNat).foldl (fun m' (line : Nat) =>
        colorizeLine qt m' (QCPColorMap.offsetPointer m.mMapData.mData (line * m.mMapData.mKeySize))
          (m.mMapData.mValueSize - 1 - line) m.mMapData.mKeySize 1) m).mMapImage.height
      = m.mMapImage.height := by
  obtain ⟨a, ha, hread, _⟩ := QCPColorMapData.read_horizontal m.mMapData (m.mMapData.mValueSize -
      1 - y) x
    hd (by omega) (by omega) hx0 hx1
  have hidx : ∀ line ∈ List.range m.mMapData.mValueSize.toNat,
      0 ≤ m.mMapData.mValueSize - 1 - (line : Int) ∧
      (m.mMapData.mValueSize - 1 - (line : Int)).toNat < m.mMapImage.lines.length := by
    intro line hl
    have := List.mem_range.mp hl
    omega
  simp only [QCPColorMap.offsetPointer, ha, Option.map_some']
  rw [colorizeLines_eq_in_doubles qt (fun line => a.drop ((line : Int) * m.mMapData.mKeySize).toNat)
    (fun line => m.mMapData.mValueSize - 1 - (line : Int)) m.mMapData.mKeySize 1
    m.mGradient (List.range m.mMapData.mValueSize.toNat) m hidx hrows (fun _ => rfl)]
  refine ⟨?_, rfl, rfl⟩
  obtain ⟨_, hget⟩ := foldl_set_at
    (fun line => (m.mMapData.mValueSize - 1 - (line : Int)).toNat)
    (fun line => (List.range m.mMapData.mKeySize.toNat).map (fun (i : Nat) =>
      (Ieee.QCPColorGradient.colorizeEntry qt m.mGradient
        ((a.drop ((line : Int) * m.mMapData.mKeySize).toNat).getD ((1 : Int) * i).toNat 0)
        m.mDataRange (decide (m.mDataScaleType = stLogarithmic)))))
    m.mMapData.mValueSize.toNat m.mMapImage.lines
    (fun i j hi hj h => by simp only at h; omega)
    (fun i hi => by simp only; omega)
  have hline := hget (m.mMapData.mValueSize - 1 - y).toNat (by omega)
  have hp : (m.mMapData.mValueSize - 1
      - (((m.mMapData.mValueSize - 1 - y).toNat : Nat) : Int)).toNat = y.toNat := by omega
  have hl : (((m.mMapData.mValueSize - 1 - y).toNat : Nat) : Int)
      = m.mMapData.mValueSize - 1 - y := by omega
  rw [hp] at hline
  simp only [hl] at hline
  have hxi : ((x.toNat : Nat) : Int) = x := by omega
  simp only [QImage.pixel, QImage.scanLine, if_pos hy0, if_pos hx0]
  rw [hline]
  simp only []
  rw [List.getElem?_map, List.getElem?_range (by omega)]
  simp only [Option.map_some', hxi]
  rw [List.getD_eq_getElem?_getD, hread]
  rfl

/-- The loop of `updateMapImage` for a vertical key axis, on an image of `keySize` lines
of `valueSize` pixels: pixel `(x, y)` becomes the colour that `colorize` writes for cell
`(keySize-1-y, x)`. -/
theorem vertical_loop_in_doubles (qt : Qt) (m : QCPColorMap) (hd : Valid m.mMapData)
    (hK : 0 < m.mMapData.mKeySize) (hV : 0 < m.mMapData.mValueSize)
    (hlines : m.mMapImage.lines.length = m.mMapData.mKeySize.toNat)
    (hrows : ∀ row ∈ m.mMapImage.lines, row.length = m.mMapData.mValueSize.toNat)
    (x y : Int) (hx0 : 0 ≤ x) (hx1 : x < m.mMapData.mValueSize) (hy0 : 0 ≤ y)
    (hy1 : y < m.mMapData.mKeySize) :
    (((List.range m.mMapData.mKeySize.toNat).foldl (fun m' (line : Nat) =>
        colorizeLine qt m' (QCPColorMap.offsetPointer m.mMapData.mData line)
          (m.mMapData.mKeySize - 1 - line) m.mMapData.mValueSize m.mMapData.mKeySize)
          m).mMapImage.pixel x y
      = some (Ieee.QCPColorGradient.colorizeEntry qt m.mGradient (cell m.mMapData
          (m.mMapData.mKeySize - 1 - y) x)
          m.mDataRange (decide (m.mDataScaleType = stLogarithmic)))) ∧
    ((List.range m.mMapData.mKeySize.toNat).foldl (fun m' (line : Nat) =>
        colorizeLine qt m' (QCPColorMap.offsetPointer m.mMapData.mData line)
          (m.mMapData.mKeySize - 1 - line) m.mMapData.mValueSize m.mMapData.mKeySize)
          m).mMapImage.width = m.mMapImage.width ∧
    ((List.range m.mMapData.mKeySize.toNat).foldl (fun m' (line : Nat) =>
        colorizeLine qt m' (QCPColorMap.offsetPointer m.mMapData.mData line)
          (m.mMapData.mKeySize - 1 - line) m.mMapData.mValueSize m.mMapData.mKeySize)
          m).mMapImage.height = m.mMapImage.height := by
  obtain ⟨a, ha, hread, _⟩ := QCPColorMapData.read_vertical m.mMapData (m.mMapData.mKeySize - 1 -
      y) x
    hd (by omega) (by omega) hx0 hx1
  have hidx : ∀ line ∈ List.range m.mMapData.mKeySize.toNat,
      0 ≤ m.mMapData.mKeySize - 1 - (line : Int) ∧
      (m.mMapData.mKeySize - 1 - (line : Int)).toNat < m.mMapImage.lines.length := by
    intro line hl
    have := List.mem_range.mp hl
    omega
  simp only [QCPColorMap.offsetPointer, ha, Option.map_some', Int.toNat_ofNat]
  rw [colorizeLines_eq_in_doubles qt (fun line => a.drop line)
    (fun line => m.mMapData.mKeySize - 1 - (line : Int)) m.mMapData.mValueSize
    m.mMapData.mKeySize m.mGradient (List.range m.mMapData.mKeySize.toNat) m hidx hrows
    (fun _ => rfl)]
  refine ⟨?_, rfl, rfl⟩
  obtain ⟨_, hget⟩ := foldl_set_at
    (fun line => (m.mMapData.mKeySize - 1 - (line : Int)).toNat)
    (fun line => (List.range m.mMapData.mValueSize.toNat).map (fun (i : Nat) =>
      (Ieee.QCPColorGradient.colorizeEntry qt m.mGradient
        ((a.drop line).getD (m.mMapData.mKeySize * i).toNat 0)
        m.mDataRange (decide (m.mDataScaleType = stLogarithmic)))))
    m.mMapData.mKeySize.toNat m.mMapImage.lines
    (fun i j hi hj h => by simp only at h; omega)
    (fun i hi => by simp only; omega)
  have hline := hget (m.mMapData.mKeySize - 1 - y).toNat (by omega)
  have hp : (m.mMapData.mKeySize - 1
      - (((m.mMapData.mKeySize - 1 - y).toNat : Nat) : Int)).toNat = y.toNat := by omega
  rw [hp] at hline
  have hxi : ((x.toNat : Nat) : Int) = x := by omega
  simp only [QImage.pixel, QImage.scanLine, if_pos hy0, if_pos hx0]
  rw [hline]
  simp only []
  rw [List.getElem?_map, List.getElem?_range (by omega)]
  simp only [Option.map_some', hxi]
  rw [List.getD_eq_getElem?_getD, hread]
  rfl


/-- With a horizontal key axis the map image that `updateMapImage` leaves is the one of
its first loop, run on a colour map `m1` that differs from `m` at most in the image, which
has been given `keySize × valueSize` pixels. -/
theorem updateMapImage_horizontal_in_doubles (qt : Qt) (m : QCPColorMap) (ax : QCPAxis)
    (hax : m.mKeyAxis = some ax) (ho : ax.orientation = Horizontal) :
    ∃ m1 : QCPColorMap, m1.mMapData = m.mMapData ∧ m1.mGradient = m.mGradient ∧
      m1.mDataRange = m.mDataRange ∧ m1.mDataScaleType = m.mDataScaleType ∧
      m1.mMapImage =
        (if m.mMapImage.width ≠ m.mMapData.mKeySize ∨
            m.mMapImage.height ≠ m.mMapData.mValueSize then
          QImage.mk' m.mMapData.mKeySize m.mMapData.mValueSize
        else m.mMapImage) ∧
      (updateMapImage qt m).mMapImage =
        ((List.range m1.mMapData.mValueSize.toNat).foldl (fun m' (line : Nat) =>
          colorizeLine qt m' (QCPColorMap.offsetPointer m1.mMapData.mData (line *
              m1.mMapData.mKeySize))
            (m1.mMapData.mValueSize - 1 - line) m1.mMapData.mKeySize 1) m1).mMapImage := by
  by_cases hne : m.mMapImage.width ≠ m.mMapData.mKeySize ∨
      m.mMapImage.height ≠ m.mMapData.mValueSize
  · refine ⟨{ m with mMapImage := QImage.mk' m.mMapData.mKeySize m.mMapData.mValueSize },
      rfl, rfl, rfl, rfl, (if_pos hne).symm, ?_⟩
    simp only [updateMapImage, hax, ho, true_and, if_pos hne, if_true]
  · refine ⟨m, rfl, rfl, rfl, rfl, (if_neg hne).symm, ?_⟩
    simp only [updateMapImage, hax, ho, true_and, if_neg hne, if_true, reduceCtorEq,
      false_and, if_false]

/-- With a vertical key axis the map image that `updateMapImage` leaves is the one of its
second loop, run on a colour map `m1` that differs from `m` at most in the image, which
has been given `valueSize × keySize` pixels. -/
theorem updateMapImage_vertical_in_doubles (qt : Qt) (m : QCPColorMap) (ax : QCPAxis)
    (hax : m.mKeyAxis = some ax) (ho : ax.orientation = Vertical) :
    ∃ m1 : QCPColorMap, m1.mMapData = m.mMapData ∧ m1.mGradient = m.mGradient ∧
      m1.mDataRange = m.mDataRange ∧ m1.mDataScaleType = m.mDataScaleType ∧
      m1.mMapImage =
        (if m.mMapImage.width ≠ m.mMapData.mValueSize ∨
            m.mMapImage.height ≠ m.mMapData.mKeySize then
          QImage.mk' m.mMapData.mValueSize m.mMapData.mKeySize
        else m.mMapImage) ∧
      (updateMapImage qt m).mMapImage =
        ((List.range m1.mMapData.mKeySize.toNat).foldl (fun m' (line : Nat) =>
          colorizeLine qt m' (QCPColorMap.offsetPointer m1.mMapData.mData line)
            (m1.mMapData.mKeySize - 1 - line) m1.mMapData.mValueSize m1.mMapData.mKeySize)
          m1).mMapImage := by
  by_cases hne : m.mMapImage.width ≠ m.mMapData.mValueSize ∨
      m.mMapImage.height ≠ m.mMapData.mKeySize
  · refine ⟨{ m with mMapImage := QImage.mk' m.mMapData.mValueSize m.mMapData.mKeySize },
      rfl, rfl, rfl, rfl, (if_pos hne).symm, ?_⟩
    simp only [updateMapImage, hax, ho, reduceCtorEq, false_and, if_false, true_and,
      if_pos hne]
  · refine ⟨m, rfl, rfl, rfl, rfl, (if_neg hne).symm, ?_⟩
    simp only [updateMapImage, hax, ho, reduceCtorEq, false_and, if_false, true_and,
      if_neg hne]


/-- The map image in double arithmetic. After `updateMapImage` on a colour map with a key
axis, a non-empty field and a well-formed image: with a horizontal key axis the image has
width `keySize` and height `valueSize`, and pixel `(x, y)` is the colour that `colorize`
writes for the value `cell(x, valueSize-1-y)`; with a vertical key axis the image has
width `valueSize` and height `keySize`, and pixel `(x, y)` is the colour that `colorize`
writes for the value `cell(keySize-1-y, x)`. Every read `(rawData + offset)[stride*i]` of
the two loops is inside the array, at a flat index in `[0, keySize*valueSize)`, and reads
the cell named. -/
theorem updateMapImage_pixels_in_doubles (qt : Qt) (m : QCPColorMap) (ax : QCPAxis)
    (hax : m.mKeyAxis = some ax) (hd : Valid m.mMapData)
    (hne : isEmpty m.mMapData = false) (himg : QImage.WellFormed m.mMapImage) :
    (ax.orientation = Horizontal →
      (updateMapImage qt m).mMapImage.width = m.mMapData.mKeySize ∧
      (updateMapImage qt m).mMapImage.height = m.mMapData.mValueSize ∧
      (∀ x y : Int, 0 ≤ x → x < m.mMapData.mKeySize → 0 ≤ y → y < m.mMapData.mValueSize →
        (updateMapImage qt m).mMapImage.pixel x y =
          some (Ieee.QCPColorGradient.colorizeEntry qt m.mGradient (cell m.mMapData x
              (m.mMapData.mValueSize - 1 - y))
            m.mDataRange (decide (m.mDataScaleType = stLogarithmic)))) ∧
      (∀ line i : Int, 0 ≤ line → line < m.mMapData.mValueSize → 0 ≤ i →
        i < m.mMapData.mKeySize →
        ∃ a, m.mMapData.mData = some a ∧
          (a.drop (line * m.mMapData.mKeySize).toNat)[((1 : Int) * i).toNat]?
            = some (cell m.mMapData i line) ∧
          (((line * m.mMapData.mKeySize).toNat + ((1 : Int) * i).toNat : Nat) : Int)
            < m.mMapData.mKeySize * m.mMapData.mValueSize)) ∧
    (ax.orientation = Vertical →
      (updateMapImage qt m).mMapImage.width = m.mMapData.mValueSize ∧
      (updateMapImage qt m).mMapImage.height = m.mMapData.mKeySize ∧
      (∀ x y : Int, 0 ≤ x → x < m.mMapData.mValueSize → 0 ≤ y → y < m.mMapData.mKeySize →
        (updateMapImage qt m).mMapImage.pixel x y =
          some (Ieee.QCPColorGradient.colorizeEntry qt m.mGradient (cell m.mMapData
              (m.mMapData.mKeySize - 1 - y) x)
            m.mDataRange (decide (m.mDataScaleType = stLogarithmic)))) ∧
      (∀ line i : Int, 0 ≤ line → line < m.mMapData.mKeySize → 0 ≤ i →
        i < m.mMapData.mValueSize →
        ∃ a, m.mMapData.mData = some a ∧
          (a.drop line.toNat)[(m.mMapData.mKeySize * i).toNat]?
            = some (cell m.mMapData line i) ∧
          ((line.toNat + (m.mMapData.mKeySize * i).toNat : Nat) : Int)
            < m.mMapData.mKeySize * m.mMapData.mValueSize)) := by
  obtain ⟨hK, hV⟩ := sizes_pos_of_nonempty m.mMapData hd hne
  constructor
  · intro ho
    obtain ⟨m1, e1, e2, e3, e4, e5, hupd⟩ := updateMapImage_horizontal_in_doubles qt m ax hax ho
    obtain ⟨r1, r2, r3, r4⟩ := QImage.resized m.mMapImage m.mMapData.mKeySize
      m.mMapData.mValueSize hK hV himg
    rw [← e5, ← e1] at r1 r2 r3 r4
    rw [← e1] at hd hK hV
    have hloop := horizontal_loop_in_doubles qt m1 hd hK hV r3 r4
    refine ⟨?_, ?_, ?_, ?_⟩
    · rw [hupd, (hloop 0 0 le_rfl hK le_rfl hV).2.1, r1, e1]
    · rw [hupd, (hloop 0 0 le_rfl hK le_rfl hV).2.2, r2, e1]
    · intro x y hx0 hx1 hy0 hy1
      rw [← e1] at hx1 hy1
      rw [hupd, (hloop x y hx0 hx1 hy0 hy1).1, e1, e2, e3, e4]
    · intro line i hl0 hl1 hi0 hi1
      rw [← e1] at hl1 hi1 ⊢
      exact read_horizontal m1.mMapData line i hd hl0 hl1 hi0 hi1
  · intro ho
    obtain ⟨m1, e1, e2, e3, e4, e5, hupd⟩ := updateMapImage_vertical_in_doubles qt m ax hax ho
    obtain ⟨r1, r2, r3, r4⟩ := QImage.resized m.mMapImage m.mMapData.mValueSize
      m.mMapData.mKeySize hV hK himg
    rw [← e5, ← e1] at r1 r2 r3 r4
    rw [← e1] at hd hK hV
    have hloop := vertical_loop_in_doubles qt m1 hd hK hV r3 r4
    refine ⟨?_, ?_, ?_, ?_⟩
    · rw [hupd, (hloop 0 0 le_rfl hV le_rfl hK).2.1, r1, e1]
    · rw [hupd, (hloop 0 0 le_rfl hV le_rfl hK).2.2, r2, e1]
    · intro x y hx0 hx1 hy0 hy1
      rw [← e1] at hx1 hy1
      rw [hupd, (hloop x y hx0 hx1 hy0 hy1).1, e1, e2, e3, e4]
    · intro line i hl0 hl1 hi0 hi1
      rw [← e1] at hl1 hi1 ⊢
      exact read_vertical m1.mMapData line i hd hl0 hl1 hi0 hi1

end QCPColorMap

end Ieee
